import Mathlib

/-!
# ek-io: intrusive FIFO queue and event-loop core

A shallow embedding of `src/ek_fifo.c`, `src/ek_epoll.c` and `src/ek_kqueue.c`.

Memory model.  A node (an `ek_fifo_node`, or the `ek_completion` that starts
with one) is identified by its address, a natural number; a pointer is an
`Option Nat` with `none` for `NULL`.  The `next` field of every node lives in
one shared heap `Heap := Nat → Ptr`, so that aliasing between queues is
visible.  Loops that follow `next` pointers take a fuel argument and report
`none` / `Status.out_of_fuel` when it runs out.
-/

namespace EkIo

/-! ## Memory -/

/-- A pointer to a node: `none` is `NULL`. -/
abbrev Ptr := Option Nat

/-- The `next` field of every node. -/
abbrev Heap := Nat → Ptr

/-- The store `a->next = v`. -/
def Heap.set (h : Heap) (a : Nat) (v : Ptr) : Heap :=
  fun b => if b = a then v else h b

/-- The heap in which every `next` field is `NULL`. -/
def Heap.null : Heap := fun _ => none

/-! ## `ek_fifo.c` -/

/-- The `struct ek_fifo`: `in_` is the field `in` (tail), `out` the head. -/
structure ek_fifo where
  in_ : Ptr
  out : Ptr
deriving DecidableEq, Repr

/-- `ek_fifo_init`: both pointers become `NULL`. -/
def ek_fifo_init : ek_fifo := { in_ := none, out := none }

/-- `ek_fifo_push`: `node->next = NULL`, then link after `in` (or become the
only node). -/
def ek_fifo_push (h : Heap) (f : ek_fifo) (elem : Nat) : Heap × ek_fifo :=
  let h1 := h.set elem none
  match f.in_ with
  | some t => (h1.set t (some elem), { f with in_ := some elem })
  | none => (h1, { in_ := some elem, out := some elem })

/-- `ek_fifo_pop`: returns the head (or `NULL`) and the updated queue; the heap
is not written. -/
def ek_fifo_pop (h : Heap) (f : ek_fifo) : Ptr × ek_fifo :=
  match f.out with
  | none => (none, f)
  | some ret =>
    let f1 : ek_fifo := { f with out := h ret }
    (some ret, if f1.in_ = some ret then { f1 with in_ := none } else f1)

/-- `ek_fifo_peek`. -/
def ek_fifo_peek (f : ek_fifo) : Ptr := f.out

/-- `ek_fifo_empty`. -/
def ek_fifo_empty (f : ek_fifo) : Bool := (ek_fifo_peek f).isNone

/-- The `while (it != NULL)` loop of `ek_fifo_remove`. -/
def ek_fifo_remove_loop (to_remove : Nat) : Nat → Heap → ek_fifo → Ptr → Option (Heap × ek_fifo)
  | _, h, f, none => some (h, f)
  | 0, _, _, some _ => none
  | n + 1, h, f, some it =>
    if h it = some to_remove then
      let f1 : ek_fifo := if some to_remove = f.in_ then { f with in_ := some it } else f
      let h1 := h.set it (h to_remove)
      let h2 := h1.set to_remove none
      some (h2, f1)
    else ek_fifo_remove_loop to_remove n h f (h it)

/-- `ek_fifo_remove`: the head is removed through `ek_fifo_pop`, any other node
by the scan.  `none` only when the fuel does not cover the scan. -/
def ek_fifo_remove (fuel : Nat) (h : Heap) (f : ek_fifo) (to_remove : Nat) :
    Option (Heap × ek_fifo) :=
  if some to_remove = f.out then some (h, (ek_fifo_pop h f).2)
  else ek_fifo_remove_loop to_remove fuel h f f.out

/-! ## Representation predicate -/

/-- `path h p l q`: following `next` from pointer `p` visits exactly the nodes
of `l`, in order, and then arrives at pointer `q`. -/
def path (h : Heap) : Ptr → List Nat → Ptr → Prop
  | p, [], q => p = q
  | p, a :: l, q => p = some a ∧ path h (h a) l q

instance path.decide (h : Heap) : ∀ p l q, Decidable (path h p l q)
  | p, [], q => inferInstanceAs (Decidable (p = q))
  | p, a :: l, q =>
    match path.decide h (h a) l q with
    | isTrue ht =>
      if hp : p = some a then isTrue ⟨hp, ht⟩ else isFalse (fun hc => hp hc.1)
    | isFalse hf => isFalse (fun hc => hf hc.2)

/-- The FIFO well-formedness predicate, with the member list made explicit:
following links from `out` visits the pairwise distinct nodes `l` and ends in
`NULL`, and `in` is the last of them (`NULL` when there is none). -/
def IsQueue (h : Heap) (f : ek_fifo) (l : List Nat) : Prop :=
  path h f.out l none ∧ l.Nodup ∧ f.in_ = l.getLast?

instance IsQueue.decide (h : Heap) (f : ek_fifo) (l : List Nat) : Decidable (IsQueue h f l) :=
  inferInstanceAs (Decidable (_ ∧ _ ∧ _))

/-- Pushing a list of nodes, first to last. -/
def push_all : Heap → ek_fifo → List Nat → Heap × ek_fifo
  | h, f, [] => (h, f)
  | h, f, x :: xs => push_all (ek_fifo_push h f x).1 (ek_fifo_push h f x).2 xs

/-- The results of `n` successive `ek_fifo_pop` calls and the queue left. -/
def pop_n (h : Heap) : Nat → ek_fifo → List Ptr × ek_fifo
  | 0, f => ([], f)
  | n + 1, f => ((ek_fifo_pop h f).1 :: (pop_n h n (ek_fifo_pop h f).2).1,
      (pop_n h n (ek_fifo_pop h f).2).2)

/-! ## `ek_io.h` -/

/-- `EK_EVENT_LIST_SIZE`. -/
def EK_EVENT_LIST_SIZE : Nat := 256

/-- `UINT64_MAX` of `<stdint.h>`. -/
def UINT64_MAX : Nat := 2 ^ 64 - 1

/-- The `enum ek_op_type`. -/
inductive ek_op_type
  | EK_OP_ACCEPT
  | EK_OP_CONNECT
  | EK_OP_READ
  | EK_OP_WRITE
  | EK_OP_RECV
  | EK_OP_SEND
  | EK_OP_TIMEOUT
deriving DecidableEq, Repr

open ek_op_type

/-- The `struct ek_operation`.  The union `data` is read by the event loop in
two ways only: `fd` is the `int` that every I/O member starts with
(`accept.socket`, `read.fd`, `write.fd`, `recv.socket`, `send.socket`; the
union has no member for connect, whose descriptor the loop reads through
`accept.socket`), and `expires` is `timeout.expires`, a `uint64_t`. -/
structure ek_operation where
  op_type : ek_op_type
  fd : Int
  expires : Nat
deriving DecidableEq, Repr

/-- The `struct ek_io`; `io_inflight` is a `size_t`, kept below `2 ^ 64`. -/
structure ek_io where
  io_fd : Int
  io_inflight : Nat
  timeouts : ek_fifo
  completed : ek_fifo
  io_pending : ek_fifo
deriving DecidableEq, Repr

/-- The memory an event-loop cycle works on: the `next` links of all
completions and the loop record itself. -/
structure World where
  next : Heap
  io : ek_io

/-- How a modelled call ended: it returned, the process was ended by
`exit(EXIT_FAILURE)`, or the model ran out of fuel. -/
inductive Status
  | ok
  | exit_failure
  | out_of_fuel
deriving DecidableEq, Repr

/-- The `(int)` conversion of an unsigned value on the two's-complement
targets of the library: reduction modulo `2 ^ 32` into the signed range. -/
def to_int (x : Nat) : Int :=
  if x % 2 ^ 32 < 2 ^ 31 then ((x % 2 ^ 32 : Nat) : Int) else ((x % 2 ^ 32 : Nat) : Int) - 2 ^ 32

/-! ### `ek_io_flush_timeouts` (the same text in both backends) -/

/-- The value of the local `now` of `ek_io_flush_timeouts`, `uint64_t now = 0`. -/
def timeouts_now : Nat := 0

/-- The `while (completion)` loop of `ek_io_flush_timeouts`; `rfuel` is the
fuel handed to each `ek_fifo_remove`.  Returns the world and `min_timeout`. -/
def ek_io_flush_timeouts_loop (op : Nat → ek_operation) (rfuel : Nat) :
    Nat → World → Nat → Ptr → Option (World × Nat)
  | _, w, min_timeout, none => some (w, min_timeout)
  | 0, _, _, some _ => none
  | n + 1, w, min_timeout, some completion =>
    let now : Nat := timeouts_now
    if now ≥ (op completion).expires then
      match ek_fifo_remove rfuel w.next w.io.timeouts completion with
      | none => none
      | some (h1, timeouts) =>
        let pushed := ek_fifo_push h1 w.io.completed completion
        let w1 : World :=
          { next := pushed.1, io := { w.io with timeouts := timeouts, completed := pushed.2 } }
        ek_io_flush_timeouts_loop op rfuel n w1 min_timeout (w1.next completion)
    else
      let timeout_ns := (op completion).expires - now
      ek_io_flush_timeouts_loop op rfuel n w
        (if timeout_ns < min_timeout then timeout_ns else min_timeout) (w.next completion)

/-- `ek_io_flush_timeouts`. -/
def ek_io_flush_timeouts (op : Nat → ek_operation) (fuel : Nat) (w : World) :
    Option (World × Nat) :=
  ek_io_flush_timeouts_loop op fuel fuel w UINT64_MAX (ek_fifo_peek w.io.timeouts)

/-- The dispatch loop at the end of `ek_io_flush`:
`while ((completed = ek_fifo_pop(&io->completed)) != NULL) completed->callback(io, completed)`.
`cb c` is the effect of the callback of completion `c` on the memory; the
list collects the completions whose callback ran, in order. -/
def dispatch_loop (cb : Nat → World → World) : Nat → World → List Nat → Status × World × List Nat
  | 0, w, acc =>
    match (ek_fifo_pop w.next w.io.completed).1 with
    | none => (Status.ok, w, acc)
    | some _ => (Status.out_of_fuel, w, acc)
  | n + 1, w, acc =>
    match (ek_fifo_pop w.next w.io.completed).1 with
    | none => (Status.ok, w, acc)
    | some c =>
      dispatch_loop cb n
        (cb c { w with io := { w.io with completed := (ek_fifo_pop w.next w.io.completed).2 } })
        (acc ++ [c])

/-- The loop `for (i = 0; i < new_events; i++) ek_fifo_push(&io->completed, ...)`. -/
def push_ready : World → List Nat → World
  | w, [] => w
  | w, c :: cs =>
    push_ready
      { next := (ek_fifo_push w.next w.io.completed c).1,
        io := { w.io with completed := (ek_fifo_push w.next w.io.completed c).2 } } cs

/-- The two statements `io->io_inflight += change_events;
io->io_inflight -= (size_t)new_events;` in `size_t` arithmetic. -/
def update_inflight (io_inflight change_events new_events : Nat) : Nat :=
  ((io_inflight + change_events) % 2 ^ 64 + 2 ^ 64 - new_events % 2 ^ 64) % 2 ^ 64

/-! ### `ek_epoll.c` -/

namespace Epoll

/-- `EPOLLIN` of `<sys/epoll.h>`. -/
def EPOLLIN : Nat := 1

/-- `EPOLLOUT` of `<sys/epoll.h>`. -/
def EPOLLOUT : Nat := 4

/-- `EPOLLONESHOT` of `<sys/epoll.h>`. -/
def EPOLLONESHOT : Nat := 2 ^ 30

/-- `EEXIST` of `<errno.h>`. -/
def EEXIST : Nat := 17

/-- `ENOENT` of `<errno.h>`. -/
def ENOENT : Nat := 2

/-- The `struct epoll_event`: the interest mask and `data.ptr`. -/
structure epoll_event where
  events : Nat
  data_ptr : Nat
deriving DecidableEq, Repr

/-- The `op` argument of `epoll_ctl`. -/
inductive ctl_op
  | EPOLL_CTL_ADD
  | EPOLL_CTL_MOD
deriving DecidableEq, Repr

/-- One `epoll_ctl(io_fd, op, fd, &ev)` call. -/
structure ctl_call where
  op : ctl_op
  fd : Int
  ev : epoll_event
deriving DecidableEq, Repr

/-- The operating system as the loop sees it, over a kernel state `κ`:
`ctl` is `epoll_ctl` (the new state, or the `errno` of a failing call) and
`wait k timeout_ms` is `epoll_wait` (`none` for a negative return, otherwise
the `data.ptr` of the events it stored, and the new state). -/
structure Kernel (κ : Type) where
  ctl : κ → ctl_op → Int → epoll_event → Except Nat κ
  wait : κ → Int → Option (List Nat × κ)

/-- The local state of `ek_io_flush_io`: `events` holds `events[0..flushed)`,
`calls` records the `epoll_ctl` calls that succeeded, in order. -/
structure flush_io_state (κ : Type) where
  status : Status
  events : List epoll_event
  is_registered : Bool
  io_pending_top : Ptr
  kernel : κ
  calls : List ctl_call

/-- The `switch` of `ek_io_flush_io`: `(ident, op_type)`, or `none` for the
`continue` of `EK_OP_TIMEOUT`. -/
def flush_io_switch (o : ek_operation) : Option (Int × Nat) :=
  match o.op_type with
  | EK_OP_ACCEPT => some (o.fd, EPOLLIN)
  | EK_OP_CONNECT => some (o.fd, EPOLLOUT)
  | EK_OP_READ => some (o.fd, EPOLLIN)
  | EK_OP_WRITE => some (o.fd, EPOLLOUT)
  | EK_OP_RECV => some (o.fd, EPOLLIN)
  | EK_OP_SEND => some (o.fd, EPOLLOUT)
  | EK_OP_TIMEOUT => none

/-- The registration block of `ek_io_flush_io` (from `if (!is_registered)` to
`flushed++`) for one staged event. -/
def flush_io_register {κ : Type} (K : Kernel κ) (st : flush_io_state κ) (ident : Int)
    (ev : epoll_event) : flush_io_state κ :=
  if !st.is_registered then
    match K.ctl st.kernel ctl_op.EPOLL_CTL_ADD ident ev with
    | Except.ok k =>
      { st with events := st.events ++ [ev], is_registered := true, kernel := k,
                calls := st.calls ++ [⟨ctl_op.EPOLL_CTL_ADD, ident, ev⟩] }
    | Except.error errno =>
      if errno = EEXIST then
        match K.ctl st.kernel ctl_op.EPOLL_CTL_MOD ident ev with
        | Except.ok k =>
          { st with events := st.events ++ [ev], is_registered := true, kernel := k,
                    calls := st.calls ++ [⟨ctl_op.EPOLL_CTL_MOD, ident, ev⟩] }
        | Except.error _ => { st with status := Status.exit_failure }
      else { st with status := Status.exit_failure }
  else
    match K.ctl st.kernel ctl_op.EPOLL_CTL_MOD ident ev with
    | Except.ok k =>
      { st with events := st.events ++ [ev], kernel := k,
                calls := st.calls ++ [⟨ctl_op.EPOLL_CTL_MOD, ident, ev⟩] }
    | Except.error _ => { st with status := Status.exit_failure }

/-- The `while (flushed < EK_EVENT_LIST_SIZE)` loop of `ek_io_flush_io`;
`flushed` is `st.events.length`. -/
def ek_io_flush_io_loop {κ : Type} (K : Kernel κ) (op : Nat → ek_operation) (h : Heap) :
    Nat → flush_io_state κ → flush_io_state κ
  | 0, st =>
    if st.events.length < EK_EVENT_LIST_SIZE then
      match st.io_pending_top with
      | none => st
      | some _ => { st with status := Status.out_of_fuel }
    else st
  | n + 1, st =>
    if st.events.length < EK_EVENT_LIST_SIZE then
      match st.io_pending_top with
      | none => st
      | some completion =>
        let st1 := { st with io_pending_top := h completion }
        match flush_io_switch (op completion) with
        | none => ek_io_flush_io_loop K op h n st1
        | some (ident, op_type) =>
          let st2 := flush_io_register K st1 ident
            { events := op_type ||| EPOLLONESHOT, data_ptr := completion }
          match st2.status with
          | Status.ok => ek_io_flush_io_loop K op h n st2
          | _ => st2
    else st

/-- `ek_io_flush_io`: the returned count is `events.length` of the result. -/
def ek_io_flush_io {κ : Type} (K : Kernel κ) (op : Nat → ek_operation) (h : Heap) (fuel : Nat)
    (k : κ) (io_pending_top : Ptr) : flush_io_state κ :=
  ek_io_flush_io_loop K op h fuel
    { status := Status.ok, events := [], is_registered := false,
      io_pending_top := io_pending_top, kernel := k, calls := [] }

/-- What one `ek_io_flush` did: the memory and kernel it left, and, for the
properties about it, the `epoll_ctl` calls made, the timeout given to
`epoll_wait` (`none` when it was not called), the completions the wait
returned and the completions dispatched. -/
structure flush_result (κ : Type) where
  status : Status
  w : World
  kernel : κ
  calls : List ctl_call
  wait_timeout : Option Int
  ready : List Nat
  dispatched : List Nat

/-- `ek_io_flush`. -/
def ek_io_flush {κ : Type} (K : Kernel κ) (op : Nat → ek_operation) (cb : Nat → World → World)
    (fuel : Nat) (k : κ) (w : World) (wait_for_completions : Bool) : flush_result κ :=
  let io_pending := ek_fifo_peek w.io.io_pending
  match ek_io_flush_timeouts op fuel w with
  | none => ⟨Status.out_of_fuel, w, k, [], none, [], []⟩
  | some (w1, next_timeout) =>
    let r := ek_io_flush_io K op w1.next fuel k io_pending
    match r.status with
    | Status.ok =>
      let change_events := r.events.length
      if change_events > 0 || ek_fifo_empty w1.io.completed then
        let timeout_ms : Int := if wait_for_completions then to_int (next_timeout / 1000000) else 0
        if change_events = 0 && ek_fifo_empty w1.io.completed && w1.io.io_inflight = 0 then
          ⟨Status.ok, w1, r.kernel, r.calls, none, [], []⟩
        else
          match K.wait r.kernel timeout_ms with
          | none => ⟨Status.exit_failure, w1, r.kernel, r.calls, some timeout_ms, [], []⟩
          | some (ready, k2) =>
            let w2 : World := { w1 with io := { w1.io with
              io_inflight := update_inflight w1.io.io_inflight change_events ready.length } }
            let w3 := push_ready w2 ready
            let d := dispatch_loop cb fuel w3 []
            ⟨d.1, d.2.1, k2, r.calls, some timeout_ms, ready, d.2.2⟩
      else ⟨Status.ok, w1, r.kernel, r.calls, none, [], []⟩
    | s => ⟨s, w1, r.kernel, r.calls, none, [], []⟩

end Epoll

/-! ### `ek_kqueue.c` -/

namespace Kqueue

/-- `EVFILT_READ` of `<sys/event.h>`. -/
def EVFILT_READ : Int := -1

/-- `EVFILT_WRITE` of `<sys/event.h>`. -/
def EVFILT_WRITE : Int := -2

/-- `EV_ADD` of `<sys/event.h>`. -/
def EV_ADD : Nat := 1

/-- `EV_ENABLE` of `<sys/event.h>`. -/
def EV_ENABLE : Nat := 4

/-- `EV_ONESHOT` of `<sys/event.h>`. -/
def EV_ONESHOT : Nat := 16

/-- The `struct kevent` as `EV_SET` fills it. -/
structure kevent where
  ident : Int
  filter : Int
  flags : Nat
  fflags : Nat
  data : Int
  udata : Nat
deriving DecidableEq, Repr

/-- The `struct timespec` given to `kevent`. -/
structure timespec where
  tv_sec : Int
  tv_nsec : Int
deriving DecidableEq, Repr

/-- The operating system as the loop sees it: `wait k changelist ts` is the
call `kevent(io_fd, events, change_events, events, EK_EVENT_LIST_SIZE, &ts)`,
`none` for a negative return, otherwise the `udata` of the events it stored
and the new kernel state. -/
structure Kernel (κ : Type) where
  wait : κ → List kevent → timespec → Option (List Nat × κ)

/-- The local state of `ek_io_flush_io`: `events` holds `events[0..flushed)`. -/
structure flush_io_state where
  status : Status
  events : List kevent
  io_pending_top : Ptr

/-- The `switch` of `ek_io_flush_io`: `(ident, filter)`, or `none` for the
`continue` of `EK_OP_TIMEOUT`. -/
def flush_io_switch (o : ek_operation) : Option (Int × Int) :=
  match o.op_type with
  | EK_OP_ACCEPT => some (o.fd, EVFILT_READ)
  | EK_OP_CONNECT => some (o.fd, EVFILT_WRITE)
  | EK_OP_READ => some (o.fd, EVFILT_READ)
  | EK_OP_WRITE => some (o.fd, EVFILT_WRITE)
  | EK_OP_RECV => some (o.fd, EVFILT_READ)
  | EK_OP_SEND => some (o.fd, EVFILT_WRITE)
  | EK_OP_TIMEOUT => none

/-- The `while (flushed < EK_EVENT_LIST_SIZE)` loop of `ek_io_flush_io`;
`flushed` is `st.events.length`. -/
def ek_io_flush_io_loop (op : Nat → ek_operation) (h : Heap) :
    Nat → flush_io_state → flush_io_state
  | 0, st =>
    if st.events.length < EK_EVENT_LIST_SIZE then
      match st.io_pending_top with
      | none => st
      | some _ => { st with status := Status.out_of_fuel }
    else st
  | n + 1, st =>
    if st.events.length < EK_EVENT_LIST_SIZE then
      match st.io_pending_top with
      | none => st
      | some completion =>
        let st1 := { st with io_pending_top := h completion }
        match flush_io_switch (op completion) with
        | none => ek_io_flush_io_loop op h n st1
        | some (ident, filter) =>
          ek_io_flush_io_loop op h n
            { st1 with events := st1.events ++
                [{ ident := ident, filter := filter, flags := EV_ADD ||| EV_ENABLE ||| EV_ONESHOT,
                   fflags := 0, data := 0, udata := completion }] }
    else st

/-- `ek_io_flush_io`: the returned count is `events.length` of the result. -/
def ek_io_flush_io (op : Nat → ek_operation) (h : Heap) (fuel : Nat) (io_pending_top : Ptr) :
    flush_io_state :=
  ek_io_flush_io_loop op h fuel { status := Status.ok, events := [], io_pending_top := io_pending_top }

/-- What one `ek_io_flush` did: the memory and kernel it left, and, for the
properties about it, the change list, the `timespec` given to `kevent` (`none`
when it was not called), the completions it returned and those dispatched. -/
structure flush_result (κ : Type) where
  status : Status
  w : World
  kernel : κ
  changes : List kevent
  wait_timeout : Option timespec
  ready : List Nat
  dispatched : List Nat

/-- The part of `ek_io_flush` from the `kevent` call to the end. -/
def flush_wait {κ : Type} (K : Kernel κ) (cb : Nat → World → World) (fuel : Nat) (k : κ)
    (w1 : World) (changes : List kevent) (ts : timespec) : flush_result κ :=
  match K.wait k changes ts with
  | none => ⟨Status.exit_failure, w1, k, changes, some ts, [], []⟩
  | some (ready, k2) =>
    let w2 : World := { w1 with io := { w1.io with
      io_inflight := update_inflight w1.io.io_inflight changes.length ready.length } }
    let w3 := push_ready w2 ready
    let d := dispatch_loop cb fuel w3 []
    ⟨d.1, d.2.1, k2, changes, some ts, ready, d.2.2⟩

/-- `ek_io_flush`. -/
def ek_io_flush {κ : Type} (K : Kernel κ) (op : Nat → ek_operation) (cb : Nat → World → World)
    (fuel : Nat) (k : κ) (w : World) (wait_for_completions : Bool) : flush_result κ :=
  let io_pending := ek_fifo_peek w.io.io_pending
  match ek_io_flush_timeouts op fuel w with
  | none => ⟨Status.out_of_fuel, w, k, [], none, [], []⟩
  | some (w1, next_timeout) =>
    let r := ek_io_flush_io op w1.next fuel io_pending
    match r.status with
    | Status.ok =>
      let change_events := r.events.length
      if change_events > 0 || ek_fifo_empty w1.io.completed then
        if change_events = 0 && ek_fifo_empty w1.io.completed then
          if wait_for_completions then
            flush_wait K cb fuel k w1 r.events
              { tv_sec := ((next_timeout / 1000000000 : Nat) : Int),
                tv_nsec := ((next_timeout % 1000000000 : Nat) : Int) }
          else if w1.io.io_inflight = 0 then ⟨Status.ok, w1, k, r.events, none, [], []⟩
          else flush_wait K cb fuel k w1 r.events { tv_sec := 0, tv_nsec := 0 }
        else flush_wait K cb fuel k w1 r.events { tv_sec := 0, tv_nsec := 0 }
      else ⟨Status.ok, w1, k, r.events, none, [], []⟩
    | s => ⟨s, w1, k, r.events, none, [], []⟩

end Kqueue

/-! ### Kernels for the claims -/

/-- The kernel state of `set_kernel`: the interest list of the epoll instance
and the readiness reports that the coming `epoll_wait` calls will return. -/
structure set_state where
  interest : List (Int × Epoll.epoll_event)
  reports : List (List Nat)
deriving DecidableEq, Repr

/-- `epoll_ctl` on a set of registered descriptors: `EPOLL_CTL_ADD` fails with
`EEXIST` iff the descriptor is already registered and stores the event
otherwise; `EPOLL_CTL_MOD` fails (with `ENOENT`) iff it is not registered and
replaces the stored event otherwise. -/
def set_ctl (k : set_state) (o : Epoll.ctl_op) (fd : Int) (ev : Epoll.epoll_event) :
    Except Nat set_state :=
  match o with
  | Epoll.ctl_op.EPOLL_CTL_ADD =>
    if (k.interest.map Prod.fst).contains fd then Except.error Epoll.EEXIST
    else Except.ok { k with interest := k.interest ++ [(fd, ev)] }
  | Epoll.ctl_op.EPOLL_CTL_MOD =>
    if (k.interest.map Prod.fst).contains fd then
      Except.ok { k with interest := k.interest.map (fun e => if e.1 = fd then (fd, ev) else e) }
    else Except.error Epoll.ENOENT

/-- The epoll kernel over `set_state`; each `epoll_wait` returns the next
readiness report (none ready when the reports are used up). -/
def set_kernel : Epoll.Kernel set_state where
  ctl := set_ctl
  wait := fun k _ => some (k.reports.headD [], { k with reports := k.reports.tail })

/-- A kqueue kernel that returns the next readiness report at each `kevent`
call (none ready when the reports are used up). -/
def report_kernel : Kqueue.Kernel (List (List Nat)) where
  wait := fun k _ _ => some (k.headD [], k.tail)

/-- The callback that leaves the loop and all queues alone. -/
def cb_skip : Nat → World → World := fun _ w => w

/-- `ek_io_init`, for the descriptor `io_fd` that `epoll_create1` / `kqueue`
returned (a failure to create one ends the process before any field is set). -/
def ek_io_init (io_fd : Int) : ek_io :=
  { io_fd := io_fd, io_inflight := 0, timeouts := ek_fifo_init, completed := ek_fifo_init,
    io_pending := ek_fifo_init }

/-- A freshly initialised loop on descriptor 5, every `next` field `NULL`. -/
def world_init : World := { next := Heap.null, io := ek_io_init 5 }

/-- The members of a queue as the traversal from `out` finds them, at most
`fuel` of them. -/
def members (h : Heap) : Nat → Ptr → List Nat
  | 0, _ => []
  | _ + 1, none => []
  | n + 1, some a => a :: members h n (h a)

/-- The operation table that maps the completions listed to their operation
(any other address to a timer that is never due). -/
def op_table (l : List (Nat × ek_operation)) : Nat → ek_operation :=
  fun c => (l.lookup c).getD { op_type := EK_OP_TIMEOUT, fd := 0, expires := UINT64_MAX }

/-- A freshly initialised loop onto whose queues the caller has pushed the
given completions, in order. -/
def world_with (timeouts completed io_pending : List Nat) : World :=
  let t := push_all Heap.null ek_fifo_init timeouts
  let c := push_all t.1 ek_fifo_init completed
  let p := push_all c.1 ek_fifo_init io_pending
  { next := p.1, io := { ek_io_init 5 with timeouts := t.2, completed := c.2, io_pending := p.2 } }

/-- Node `c` lies on the list that starts at pointer `p`. -/
def reachable (h : Heap) (p : Ptr) (c : Nat) : Prop :=
  ∃ l q, path h p l q ∧ c ∈ l

/-- What a registration of the epoll backend has to carry for operation `o`:
the descriptor of `o`, read interest for accept/read/recv and write interest
for connect/write/send, and the one-shot flag (and `o` is not a timer). -/
def Epoll.staged_for (o : ek_operation) (ident : Int) (events : Nat) : Prop :=
  o.op_type ≠ EK_OP_TIMEOUT ∧ ident = o.fd ∧
  ((o.op_type = EK_OP_ACCEPT ∨ o.op_type = EK_OP_READ ∨ o.op_type = EK_OP_RECV) →
    events = Epoll.EPOLLIN ||| Epoll.EPOLLONESHOT) ∧
  ((o.op_type = EK_OP_CONNECT ∨ o.op_type = EK_OP_WRITE ∨ o.op_type = EK_OP_SEND) →
    events = Epoll.EPOLLOUT ||| Epoll.EPOLLONESHOT)

/-- What a change-list entry of the kqueue backend has to carry for operation
`o`: the descriptor of `o`, the read filter for accept/read/recv and the write
filter for connect/write/send, and the one-shot flag (and `o` is not a timer). -/
def Kqueue.staged_for (o : ek_operation) (e : Kqueue.kevent) : Prop :=
  o.op_type ≠ EK_OP_TIMEOUT ∧ e.ident = o.fd ∧
  e.flags = Kqueue.EV_ADD ||| Kqueue.EV_ENABLE ||| Kqueue.EV_ONESHOT ∧
  ((o.op_type = EK_OP_ACCEPT ∨ o.op_type = EK_OP_READ ∨ o.op_type = EK_OP_RECV) →
    e.filter = Kqueue.EVFILT_READ) ∧
  ((o.op_type = EK_OP_CONNECT ∨ o.op_type = EK_OP_WRITE ∨ o.op_type = EK_OP_SEND) →
    e.filter = Kqueue.EVFILT_WRITE)

/-- The timer of completion `c` is due for the scan of `ek_io_flush_timeouts`. -/
def due (op : Nat → ek_operation) (c : Nat) : Prop := timeouts_now ≥ (op c).expires

instance due.decide (op : Nat → ek_operation) (c : Nat) : Decidable (due op c) :=
  inferInstanceAs (Decidable (_ ≥ _))

/-- The delay `expiry - now` of the timer of completion `c`. -/
def delay (op : Nat → ek_operation) (c : Nat) : Nat := (op c).expires - timeouts_now

/-- Two timers that are both due (expiry 0). -/
def ops_two_due : Nat → ek_operation :=
  op_table [(10, ⟨EK_OP_TIMEOUT, 0, 0⟩), (11, ⟨EK_OP_TIMEOUT, 0, 0⟩)]

/-- One timer whose expiry is `UINT64_MAX`. -/
def ops_far_timer : Nat → ek_operation :=
  op_table [(13, ⟨EK_OP_TIMEOUT, 0, UINT64_MAX⟩)]

/-- Two timers that are not due, 7 and 5 nanoseconds away. -/
def ops_two_pending : Nat → ek_operation :=
  op_table [(10, ⟨EK_OP_TIMEOUT, 0, 7⟩), (11, ⟨EK_OP_TIMEOUT, 0, 5⟩)]

/-- Read operations on descriptors 3 and 4 (completions 1 and 2), a due timer
(completion 10). -/
def ops_two_reads : Nat → ek_operation :=
  op_table [(1, ⟨EK_OP_READ, 3, 0⟩), (2, ⟨EK_OP_READ, 4, 0⟩), (10, ⟨EK_OP_TIMEOUT, 0, 0⟩)]

/-- The member lists of the three queues, as traversals from their `out`. -/
def World.queues (w : World) (fuel : Nat) : List Nat × List Nat × List Nat :=
  (members w.next fuel w.io.timeouts.out, members w.next fuel w.io.completed.out,
    members w.next fuel w.io.io_pending.out)

/-! ### The cycles evaluated in the claims -/

/-- Epoll: one blocking cycle on a fresh loop whose only work is a due timer. -/
def epoll_due_timer_cycle : Epoll.flush_result set_state :=
  Epoll.ek_io_flush set_kernel ops_two_reads cb_skip 4 ⟨[], []⟩ (world_with [10] [] []) true

/-- Kqueue: one blocking cycle on a fresh loop whose only work is a due timer. -/
def kqueue_due_timer_cycle : Kqueue.flush_result (List (List Nat)) :=
  Kqueue.ek_io_flush report_kernel ops_two_reads cb_skip 4 [] (world_with [10] [] []) true

/-- Epoll: one cycle on a loop with one completion waiting in `completed`. -/
def epoll_ready_cycle : Epoll.flush_result set_state :=
  Epoll.ek_io_flush set_kernel ops_two_reads cb_skip 4 ⟨[], []⟩ (world_with [] [1] []) false

/-- Epoll: first non-blocking cycle after the caller pushed the read
completion 1 onto `io_pending` of a fresh loop; nothing is ready. -/
def epoll_read_cycle1 : Epoll.flush_result set_state :=
  Epoll.ek_io_flush set_kernel ops_two_reads cb_skip 4 ⟨[], []⟩ (world_with [] [] [1]) false

/-- Epoll: the cycle after `epoll_read_cycle1`, no new submission, nothing ready. -/
def epoll_read_cycle2 : Epoll.flush_result set_state :=
  Epoll.ek_io_flush set_kernel ops_two_reads cb_skip 4 epoll_read_cycle1.kernel
    epoll_read_cycle1.w false

/-- Epoll: the cycle after `epoll_read_cycle2`, no new submission, nothing ready. -/
def epoll_read_cycle3 : Epoll.flush_result set_state :=
  Epoll.ek_io_flush set_kernel ops_two_reads cb_skip 4 epoll_read_cycle2.kernel
    epoll_read_cycle2.w false

/-- Kqueue: first non-blocking cycle after the caller pushed the read
completion 1 onto `io_pending` of a fresh loop; nothing is ready. -/
def kqueue_read_cycle1 : Kqueue.flush_result (List (List Nat)) :=
  Kqueue.ek_io_flush report_kernel ops_two_reads cb_skip 4 [] (world_with [] [] [1]) false

/-- Kqueue: the cycle after `kqueue_read_cycle1`, no new submission, nothing ready. -/
def kqueue_read_cycle2 : Kqueue.flush_result (List (List Nat)) :=
  Kqueue.ek_io_flush report_kernel ops_two_reads cb_skip 4 kqueue_read_cycle1.kernel
    kqueue_read_cycle1.w false

/-- Epoll: the submission step for two reads on the descriptors 3 and 4,
neither of them registered before. -/
def epoll_two_reads_submit : Epoll.flush_io_state set_state :=
  Epoll.ek_io_flush_io set_kernel ops_two_reads (world_with [] [] [1, 2]).next 4 ⟨[], []⟩
    (ek_fifo_peek (world_with [] [] [1, 2]).io.io_pending)

/-- Kqueue: one cycle with the reads 1 and 2 pending, in which the kernel
reports completion 1 ready. -/
def kqueue_first_ready_cycle : Kqueue.flush_result (List (List Nat)) :=
  Kqueue.ek_io_flush report_kernel ops_two_reads cb_skip 4 [[1]] (world_with [] [] [1, 2]) false

/-- Epoll: the same cycle, on an epoll instance that knows both descriptors. -/
def epoll_first_ready_cycle : Epoll.flush_result set_state :=
  Epoll.ek_io_flush set_kernel ops_two_reads cb_skip 4
    ⟨[(3, ⟨Epoll.EPOLLIN, 0⟩), (4, ⟨Epoll.EPOLLIN, 0⟩)], [[1]]⟩ (world_with [] [] [1, 2]) false

/-! ### Sequences of queue operations -/

/-- One queue operation as a caller issues it. -/
inductive fifo_op
  | push (x : Nat)
  | pop
  | remove (x : Nat)
deriving DecidableEq, Repr

/-- A queue together with counts of what was done to it: the pushes, the pops
that returned a node, and the removes whose argument was a member. -/
structure fifo_run where
  h : Heap
  f : ek_fifo
  pushes : Nat
  pops : Nat
  removes : Nat

/-- A freshly initialised queue with all counts at zero. -/
def fifo_run_init (h : Heap) : fifo_run :=
  { h := h, f := ek_fifo_init, pushes := 0, pops := 0, removes := 0 }

/-- One operation applied through `ek_fifo_push`, `ek_fifo_pop` or
`ek_fifo_remove` (`none` when the fuel does not cover the scan of a remove). -/
def fifo_step (fuel : Nat) (r : fifo_run) : fifo_op → Option fifo_run
  | fifo_op.push x =>
    some { r with h := (ek_fifo_push r.h r.f x).1, f := (ek_fifo_push r.h r.f x).2,
                  pushes := r.pushes + 1 }
  | fifo_op.pop =>
    some { r with f := (ek_fifo_pop r.h r.f).2,
                  pops := r.pops + (if (ek_fifo_pop r.h r.f).1.isSome then 1 else 0) }
  | fifo_op.remove x =>
    match ek_fifo_remove fuel r.h r.f x with
    | none => none
    | some (h1, f1) =>
      some { r with h := h1, f := f1,
                    removes := r.removes + (if x ∈ members r.h fuel r.f.out then 1 else 0) }

/-- A sequence of operations applied first to last. -/
def fifo_exec (fuel : Nat) : fifo_run → List fifo_op → Option fifo_run
  | r, [] => some r
  | r, o :: os =>
    match fifo_step fuel r o with
    | none => none
    | some r1 => fifo_exec fuel r1 os

/-- Every push of the sequence is of a node that is not a member of the queue
at that moment. -/
def fifo_valid (fuel : Nat) : fifo_run → List fifo_op → Bool
  | _, [] => true
  | r, o :: os =>
    (match o with
      | fifo_op.push x => !(members r.h fuel r.f.out).contains x
      | _ => true) &&
    (match fifo_step fuel r o with
      | none => true
      | some r1 => fifo_valid fuel r1 os)

/-! ### Clock, `ek_io_run_for_ns` and further kernels -/

/-- `ek_io_current_time_ns` for the `timespec` that `clock_gettime` stored:
`(uint64_t)ts.tv_sec * 1000000000ULL + (uint64_t)ts.tv_nsec`. -/
def ek_io_current_time_ns (tv_sec tv_nsec : Nat) : Nat :=
  ((tv_sec % 2 ^ 64) * 1000000000 + tv_nsec % 2 ^ 64) % 2 ^ 64

/-- The effect of `timeout_callback` on the loop: none (it only stores `true`
through `comp->context`). -/
def timeout_callback (w : World) : World := w

/-- The local variables of `ek_io_run_for_ns` and the trace of what it did:
`flushes` lists the `wait_for_completions` argument of each `ek_io_flush` call
made so far, `timed_out` is the local flag, which `timeout_callback` sets when
the callback of the local completion is invoked. -/
structure run_state (κ : Type) where
  status : Status
  w : World
  kernel : κ
  timed_out : Bool
  flushes : List Bool

/-- `ek_io_run_for_ns` of `ek_epoll.c` up to its first `ek_io_flush`:
`completion` is the address of the local completion, `now` the value that
`ek_io_current_time_ns()` returned.  Yields the memory and the operation
table with the local `timeout_op` attached to the local completion. -/
def Epoll.ek_io_run_for_ns_setup (op : Nat → ek_operation) (w : World) (completion now : Nat)
    (nanoseconds : Nat) : World × (Nat → ek_operation) :=
  let timeout_op : ek_operation :=
    { op_type := EK_OP_TIMEOUT, fd := 0, expires := (now + nanoseconds) % 2 ^ 64 }
  let pushed := ek_fifo_push w.next w.io.timeouts completion
  ({ next := pushed.1, io := { w.io with timeouts := pushed.2 } },
    fun c => if c = completion then timeout_op else op c)

/-- One `ek_io_flush(io, true)` of `ek_io_run_for_ns` (epoll): the callback of
the local completion is `timeout_callback`. -/
def Epoll.run_flush {κ : Type} (K : Epoll.Kernel κ) (op : Nat → ek_operation)
    (cb : Nat → World → World) (fuel completion : Nat) (st : run_state κ) : run_state κ :=
  let r := Epoll.ek_io_flush K op
    (fun c w => if c = completion then timeout_callback w else cb c w) fuel st.kernel st.w true
  { status := r.status, w := r.w, kernel := r.kernel,
    timed_out := st.timed_out || r.dispatched.contains completion,
    flushes := st.flushes ++ [true] }

/-- The loop `while (!timed_out) ek_io_flush(io, true);` (epoll), at most
`rounds` iterations. -/
def Epoll.run_while {κ : Type} (K : Epoll.Kernel κ) (op : Nat → ek_operation)
    (cb : Nat → World → World) (fuel completion : Nat) : Nat → run_state κ → run_state κ
  | 0, st => if st.timed_out then st else { st with status := Status.out_of_fuel }
  | n + 1, st =>
    if st.timed_out then st
    else
      match (Epoll.run_flush K op cb fuel completion st).status with
      | Status.ok => Epoll.run_while K op cb fuel completion n
          (Epoll.run_flush K op cb fuel completion st)
      | _ => Epoll.run_flush K op cb fuel completion st

/-- `ek_io_run_for_ns` of `ek_epoll.c`. -/
def Epoll.ek_io_run_for_ns {κ : Type} (K : Epoll.Kernel κ) (op : Nat → ek_operation)
    (cb : Nat → World → World) (fuel rounds completion now : Nat) (k : κ) (w : World)
    (nanoseconds : Nat) : run_state κ :=
  let s := Epoll.ek_io_run_for_ns_setup op w completion now nanoseconds
  let st1 := Epoll.run_flush K s.2 cb fuel completion
    { status := Status.ok, w := s.1, kernel := k, timed_out := false, flushes := [] }
  match st1.status with
  | Status.ok => Epoll.run_while K s.2 cb fuel completion rounds st1
  | _ => st1

/-- `ek_io_run_for_ns` of `ek_kqueue.c` up to its first `ek_io_flush`: the
callback and context of the local completion are set, nothing else. -/
def Kqueue.ek_io_run_for_ns_setup (op : Nat → ek_operation) (w : World) (_completion : Nat)
    (_nanoseconds : Nat) : World × (Nat → ek_operation) :=
  (w, op)

/-- One `ek_io_flush(io, true)` of `ek_io_run_for_ns` (kqueue). -/
def Kqueue.run_flush {κ : Type} (K : Kqueue.Kernel κ) (op : Nat → ek_operation)
    (cb : Nat → World → World) (fuel completion : Nat) (st : run_state κ) : run_state κ :=
  let r := Kqueue.ek_io_flush K op
    (fun c w => if c = completion then timeout_callback w else cb c w) fuel st.kernel st.w true
  { status := r.status, w := r.w, kernel := r.kernel,
    timed_out := st.timed_out || r.dispatched.contains completion,
    flushes := st.flushes ++ [true] }

/-- The loop `while (!timed_out) ek_io_flush(io, true);` (kqueue), at most
`rounds` iterations. -/
def Kqueue.run_while {κ : Type} (K : Kqueue.Kernel κ) (op : Nat → ek_operation)
    (cb : Nat → World → World) (fuel completion : Nat) : Nat → run_state κ → run_state κ
  | 0, st => if st.timed_out then st else { st with status := Status.out_of_fuel }
  | n + 1, st =>
    if st.timed_out then st
    else
      match (Kqueue.run_flush K op cb fuel completion st).status with
      | Status.ok => Kqueue.run_while K op cb fuel completion n
          (Kqueue.run_flush K op cb fuel completion st)
      | _ => Kqueue.run_flush K op cb fuel completion st

/-- `ek_io_run_for_ns` of `ek_kqueue.c`. -/
def Kqueue.ek_io_run_for_ns {κ : Type} (K : Kqueue.Kernel κ) (op : Nat → ek_operation)
    (cb : Nat → World → World) (fuel rounds completion : Nat) (k : κ) (w : World)
    (nanoseconds : Nat) : run_state κ :=
  let s := Kqueue.ek_io_run_for_ns_setup op w completion nanoseconds
  let st1 := Kqueue.run_flush K s.2 cb fuel completion
    { status := Status.ok, w := s.1, kernel := k, timed_out := false, flushes := [] }
  match st1.status with
  | Status.ok => Kqueue.run_while K s.2 cb fuel completion rounds st1
  | _ => st1

/-- `EBADF` of `<errno.h>`. -/
def Epoll.EBADF : Nat := 9

/-- The epoll kernel `set_kernel` that also knows that a negative number is
not an open descriptor: `epoll_ctl` on one fails with `EBADF`. -/
def checked_kernel : Epoll.Kernel set_state where
  ctl := fun k o fd ev => if fd < 0 then Except.error Epoll.EBADF else set_ctl k o fd ev
  wait := set_kernel.wait

/-- An epoll kernel in which the next readiness report becomes available one
millisecond after a wait has started: a wait with a shorter deadline returns
nothing, a longer or unbounded (negative) one returns the report. -/
def late_epoll_kernel : Epoll.Kernel set_state where
  ctl := set_ctl
  wait := fun k timeout_ms =>
    if timeout_ms < 0 ∨ 1 ≤ timeout_ms then
      some (k.reports.headD [], { k with reports := k.reports.tail })
    else some ([], k)

/-- The kqueue kernel with the same behaviour as `late_epoll_kernel`. -/
def late_kqueue_kernel : Kqueue.Kernel (List (List Nat)) where
  wait := fun k _ ts =>
    if 1000000 ≤ ts.tv_sec * 1000000000 + ts.tv_nsec then some (k.headD [], k.tail)
    else some ([], k)

/-- Three timers expiring at 5, 10 and 20 ns (completions 10, 11, 12). -/
def ops_three_timers : Nat → ek_operation :=
  op_table [(10, ⟨EK_OP_TIMEOUT, 0, 5⟩), (11, ⟨EK_OP_TIMEOUT, 0, 10⟩),
    (12, ⟨EK_OP_TIMEOUT, 0, 20⟩)]

/-- A read on descriptor 3 (completion 1), a read on the invalid descriptor -1
(completion 2), and timers 10 ms, 0.5 ms and `2 ^ 31` ms away (completions 10,
11, 12). -/
def ops_deadlines : Nat → ek_operation :=
  op_table [(1, ⟨EK_OP_READ, 3, 0⟩), (2, ⟨EK_OP_READ, -1, 0⟩),
    (10, ⟨EK_OP_TIMEOUT, 0, 10000000⟩), (11, ⟨EK_OP_TIMEOUT, 0, 500000⟩),
    (12, ⟨EK_OP_TIMEOUT, 0, 2147483648000000⟩)]

/-- The completions of a list whose operation is not a timer. -/
def eligible (op : Nat → ek_operation) (l : List Nat) : List Nat :=
  l.filter (fun c => (op c).op_type != EK_OP_TIMEOUT)

/-! ### Further cycles evaluated in the claims -/

/-- Epoll: a blocking cycle on a freshly initialised, idle loop. -/
def epoll_idle_blocking_cycle : Epoll.flush_result set_state :=
  Epoll.ek_io_flush set_kernel ops_deadlines cb_skip 4 ⟨[], []⟩ world_init true

/-- Kqueue: a blocking cycle on a freshly initialised, idle loop. -/
def kqueue_idle_blocking_cycle : Kqueue.flush_result (List (List Nat)) :=
  Kqueue.ek_io_flush report_kernel ops_deadlines cb_skip 4 [] world_init true

/-- Epoll: a blocking cycle with a timer 10 ms away and the read 1 pending;
the descriptor becomes readable 1 ms after the wait starts. -/
def epoll_late_ready_cycle : Epoll.flush_result set_state :=
  Epoll.ek_io_flush late_epoll_kernel ops_deadlines cb_skip 4 ⟨[], [[1]]⟩
    (world_with [10] [] [1]) true

/-- Kqueue: the same cycle as `epoll_late_ready_cycle`. -/
def kqueue_late_ready_cycle : Kqueue.flush_result (List (List Nat)) :=
  Kqueue.ek_io_flush late_kqueue_kernel ops_deadlines cb_skip 4 [[1]]
    (world_with [10] [] [1]) true

/-- Epoll: a blocking cycle with a timer 0.5 ms away and the read 1 pending. -/
def epoll_short_deadline_cycle : Epoll.flush_result set_state :=
  Epoll.ek_io_flush set_kernel ops_deadlines cb_skip 4 ⟨[], []⟩ (world_with [11] [] [1]) true

/-- Epoll: a blocking cycle with a timer `2 ^ 31` ms away and the read 1
pending. -/
def epoll_long_deadline_cycle : Epoll.flush_result set_state :=
  Epoll.ek_io_flush set_kernel ops_deadlines cb_skip 4 ⟨[], []⟩ (world_with [12] [] [1]) true

/-- Kqueue: `ek_io_run_for_ns(io, 500)` on a freshly initialised loop, with
the local completion at address 99, cut off after `rounds` turns of its loop. -/
def kqueue_run_for_500 (rounds : Nat) : run_state (List (List Nat)) :=
  Kqueue.ek_io_run_for_ns report_kernel ops_two_reads cb_skip 4 rounds 99 [] world_init 500

/-- An epoll kernel whose `epoll_ctl` always succeeds and whose `epoll_wait`
never has anything ready. -/
def willing_kernel : Epoll.Kernel Unit where
  ctl := fun _ _ _ _ => Except.ok ()
  wait := fun _ _ => some ([], ())

/-! ### `ek_io_tick` and the cycles of the last claim -/

/-- `ek_io_tick` of `ek_epoll.c`: `ek_io_flush(io, false)`. -/
def Epoll.ek_io_tick {κ : Type} (K : Epoll.Kernel κ) (op : Nat → ek_operation)
    (cb : Nat → World → World) (fuel : Nat) (k : κ) (w : World) : Epoll.flush_result κ :=
  Epoll.ek_io_flush K op cb fuel k w false

/-- `ek_io_tick` of `ek_kqueue.c`: `ek_io_flush(io, false)`. -/
def Kqueue.ek_io_tick {κ : Type} (K : Kqueue.Kernel κ) (op : Nat → ek_operation)
    (cb : Nat → World → World) (fuel : Nat) (k : κ) (w : World) : Kqueue.flush_result κ :=
  Kqueue.ek_io_flush K op cb fuel k w false

/-- Kqueue: one cycle on a loop with one completion waiting in `completed`. -/
def kqueue_ready_cycle : Kqueue.flush_result (List (List Nat)) :=
  Kqueue.ek_io_flush report_kernel ops_two_reads cb_skip 4 [] (world_with [] [1] []) false

/-- A loop with empty queues and one registration in flight. -/
def world_one_inflight : World :=
  { next := Heap.null, io := { ek_io_init 5 with io_inflight := 1 } }

/-- The kernel state after the `epoll_ctl` calls that the registration block
of `ek_io_flush_io` makes for one event, when they succeed: for the first
event of a batch `EPOLL_CTL_ADD`, or `EPOLL_CTL_MOD` after an `EEXIST`, for
the later ones `EPOLL_CTL_MOD`; `none` when a call fails for good. -/
def Epoll.ctl_step {κ : Type} (K : Epoll.Kernel κ) (k : κ) (is_registered : Bool) (fd : Int)
    (ev : Epoll.epoll_event) : Option κ :=
  if is_registered then
    match K.ctl k Epoll.ctl_op.EPOLL_CTL_MOD fd ev with
    | Except.ok k1 => some k1
    | Except.error _ => none
  else
    match K.ctl k Epoll.ctl_op.EPOLL_CTL_ADD fd ev with
    | Except.ok k1 => some k1
    | Except.error errno =>
      if errno = Epoll.EEXIST then
        match K.ctl k Epoll.ctl_op.EPOLL_CTL_MOD fd ev with
        | Except.ok k1 => some k1
        | Except.error _ => none
      else none

/-- Every `epoll_ctl` call made for the completions `cs`, registered in order
starting from kernel state `k`, succeeds (an `EPOLL_CTL_ADD` answered with
`EEXIST` counts when the `EPOLL_CTL_MOD` that follows it succeeds). -/
def Epoll.ctl_succeeds {κ : Type} (K : Epoll.Kernel κ) (op : Nat → ek_operation) :
    κ → Bool → List Nat → Bool
  | _, _, [] => true
  | k, is_registered, c :: cs =>
    match Epoll.flush_io_switch (op c) with
    | none => Epoll.ctl_succeeds K op k is_registered cs
    | some (ident, op_type) =>
      match Epoll.ctl_step K k is_registered ident
          { events := op_type ||| Epoll.EPOLLONESHOT, data_ptr := c } with
      | none => false
      | some k1 => Epoll.ctl_succeeds K op k1 true cs

/-- A read on descriptor 3 (completion 1) and two timers that are both due
(completions 10 and 11, expiry 0). -/
def ops_timers_read : Nat → ek_operation :=
  op_table [(1, ⟨EK_OP_READ, 3, 0⟩), (10, ⟨EK_OP_TIMEOUT, 0, 0⟩), (11, ⟨EK_OP_TIMEOUT, 0, 0⟩)]

/-- The callback of a caller that keeps reading descriptor 3: for completion 1
it submits the completion again, `ek_fifo_push(&io->io_pending, completion)`;
for any other completion it leaves the loop alone. -/
def cb_resubmit : Nat → World → World := fun c w =>
  if c = 1 then
    { next := (ek_fifo_push w.next w.io.io_pending c).1,
      io := { w.io with io_pending := (ek_fifo_push w.next w.io.io_pending c).2 } }
  else w

/-- Epoll: one cycle with the due timers 10 and 11 in `timeouts` and the read 1
pending, in which `epoll_wait` reports completion 1. -/
def epoll_two_timers_cycle1 : Epoll.flush_result set_state :=
  Epoll.ek_io_flush set_kernel ops_timers_read cb_skip 8 ⟨[], [[1]]⟩
    (world_with [10, 11] [] [1]) false

/-- Epoll: the cycle after `epoll_two_timers_cycle1`, nothing ready. -/
def epoll_two_timers_cycle2 : Epoll.flush_result set_state :=
  Epoll.ek_io_flush set_kernel ops_timers_read cb_skip 8 epoll_two_timers_cycle1.kernel
    epoll_two_timers_cycle1.w false

/-- Kqueue: the same cycle as `epoll_two_timers_cycle1`. -/
def kqueue_two_timers_cycle1 : Kqueue.flush_result (List (List Nat)) :=
  Kqueue.ek_io_flush report_kernel ops_timers_read cb_skip 8 [[1]]
    (world_with [10, 11] [] [1]) false

/-- Kqueue: the cycle after `kqueue_two_timers_cycle1`, nothing ready. -/
def kqueue_two_timers_cycle2 : Kqueue.flush_result (List (List Nat)) :=
  Kqueue.ek_io_flush report_kernel ops_timers_read cb_skip 8 kqueue_two_timers_cycle1.kernel
    kqueue_two_timers_cycle1.w false

/-- Kqueue: one cycle with the reads 1 and 2 pending, in which `kevent` reports
1 and then 2, and the callback of 1 submits it again. -/
def kqueue_resubmit_cycle : Kqueue.flush_result (List (List Nat)) :=
  Kqueue.ek_io_flush report_kernel ops_two_reads cb_resubmit 8 [[1, 2]]
    (world_with [] [] [1, 2]) false

/-- Epoll: the same cycle as `kqueue_resubmit_cycle`, on an epoll instance
that knows the descriptors 3 and 4 from earlier cycles. -/
def epoll_resubmit_cycle : Epoll.flush_result set_state :=
  Epoll.ek_io_flush set_kernel ops_two_reads cb_resubmit 8
    ⟨[(3, ⟨Epoll.EPOLLIN ||| Epoll.EPOLLONESHOT, 1⟩),
      (4, ⟨Epoll.EPOLLIN ||| Epoll.EPOLLONESHOT, 2⟩)], [[1, 2]]⟩
    (world_with [] [] [1, 2]) false

/-! ## Heap and path lemmas -/

theorem Heap.set_same (h : Heap) (a : Nat) (v : Ptr) : (h.set a v) a = v := by
  simp [Heap.set]

theorem Heap.set_other (h : Heap) (a : Nat) (v : Ptr) (b : Nat) (hb : b ≠ a) :
    (h.set a v) b = h b := by
  simp [Heap.set, hb]

theorem path_congr {h h' : Heap} : ∀ (l : List Nat) (p q : Ptr),
    (∀ a ∈ l, h' a = h a) → (path h' p l q ↔ path h p l q)
  | [], p, q, _ => Iff.rfl
  | a :: l, p, q, hl => by
    have ha : h' a = h a := hl a (List.mem_cons_self a l)
    have ih := path_congr l (h a) q (fun b hb => hl b (List.mem_cons_of_mem a hb))
    simp only [path, ha, ih]

theorem path_set_of_not_mem (h : Heap) (a : Nat) (v : Ptr) (l : List Nat) (p q : Ptr)
    (ha : a ∉ l) : path (h.set a v) p l q ↔ path h p l q :=
  path_congr l p q (fun b hb => Heap.set_other h a v b (fun hba => ha (hba ▸ hb)))

theorem path_append (h : Heap) : ∀ (l1 l2 : List Nat) (p q : Ptr),
    path h p (l1 ++ l2) q ↔ ∃ m, path h p l1 m ∧ path h m l2 q
  | [], l2, p, q => by
    constructor
    · intro hp
      exact ⟨p, rfl, hp⟩
    · rintro ⟨m, hm, hp⟩
      have : p = m := hm
      subst this
      exact hp
  | a :: l1, l2, p, q => by
    have ih := path_append h l1 l2 (h a) q
    constructor
    · rintro ⟨hpa, hr⟩
      obtain ⟨m, h1, h2⟩ := ih.mp hr
      exact ⟨m, ⟨hpa, h1⟩, h2⟩
    · rintro ⟨m, ⟨hpa, h1⟩, h2⟩
      exact ⟨hpa, ih.mpr ⟨m, h1, h2⟩⟩

/-- The end pointer of a path is determined by its start and its nodes. -/
theorem path_end_unique (h : Heap) : ∀ (l : List Nat) (p q q' : Ptr),
    path h p l q → path h p l q' → q = q'
  | [], p, q, q', h1, h2 => by
    have e1 : p = q := h1
    have e2 : p = q' := h2
    rw [← e1, ← e2]
  | a :: l, p, q, q', h1, h2 => path_end_unique h l (h a) q q' h1.2 h2.2

/-! ## The queue operations on well-formed queues -/

theorem IsQueue.nil_iff (h : Heap) (f : ek_fifo) :
    IsQueue h f [] ↔ f.out = none ∧ f.in_ = none := by
  simp [IsQueue, path]

theorem IsQueue.init (h : Heap) : IsQueue h ek_fifo_init [] := by
  simp [IsQueue, path, ek_fifo_init]

theorem IsQueue.out_eq {h : Heap} {f : ek_fifo} {l : List Nat} (hq : IsQueue h f l) :
    f.out = l.head? := by
  cases l with
  | nil => exact hq.1
  | cons a l => exact hq.1.1

theorem IsQueue.push {h : Heap} {f : ek_fifo} {l : List Nat} (hq : IsQueue h f l)
    {x : Nat} (hx : x ∉ l) :
    IsQueue (ek_fifo_push h f x).1 (ek_fifo_push h f x).2 (l ++ [x]) := by
  obtain ⟨hp, hnd, hin⟩ := hq
  rcases List.eq_nil_or_concat l with rfl | ⟨l', t, hl⟩
  · have hin' : f.in_ = none := by simpa using hin
    simp [IsQueue, path, ek_fifo_push, hin', Heap.set_same]
  · rw [List.concat_eq_append] at hl
    subst hl
    have hin' : f.in_ = some t := by simpa using hin
    have hnd' : l'.Nodup ∧ t ∉ l' := by
      have := List.nodup_append.mp hnd
      refine ⟨this.1, fun ht => ?_⟩
      exact this.2.2 ht (List.mem_singleton_self t)
    have hxt : x ≠ t := fun e => hx (by simp [e])
    have hxl : x ∉ l' := fun e => hx (by simp [e])
    obtain ⟨m, hm1, hm2⟩ := (path_append h l' [t] f.out none).mp hp
    have hmt : m = some t := hm2.1
    subst hmt
    refine ⟨?_, ?_, ?_⟩
    · simp only [ek_fifo_push, hin', List.append_assoc]
      refine (path_append _ l' ([t] ++ [x]) f.out none).mpr ⟨some t, ?_, ?_⟩
      · rw [path_set_of_not_mem _ _ _ _ _ _ hnd'.2, path_set_of_not_mem _ _ _ _ _ _ hxl]
        exact hm1
      · simp [path, Heap.set_same, Heap.set_other _ _ _ _ hxt]
    · rw [List.nodup_append]
      refine ⟨hnd, List.nodup_singleton x, ?_⟩
      intro a ha hb
      rw [List.mem_singleton] at hb
      exact hx (hb ▸ ha)
    · simp [ek_fifo_push, hin']

theorem IsQueue.pop_nil {h : Heap} {f : ek_fifo} (hq : IsQueue h f []) :
    ek_fifo_pop h f = (none, f) := by
  have := ((IsQueue.nil_iff h f).mp hq).1
  simp [ek_fifo_pop, this]

theorem IsQueue.pop_cons {h : Heap} {f : ek_fifo} {a : Nat} {l : List Nat}
    (hq : IsQueue h f (a :: l)) :
    (ek_fifo_pop h f).1 = some a ∧ IsQueue h (ek_fifo_pop h f).2 l := by
  obtain ⟨⟨hout, hp⟩, hnd, hin⟩ := hq
  have hnd' := List.nodup_cons.mp hnd
  cases l with
  | nil =>
    have hin' : f.in_ = some a := by simpa using hin
    have hp' : h a = none := hp
    simp [ek_fifo_pop, hout, hin', IsQueue, path, hp']
  | cons b l =>
    have hin' : f.in_ = (b :: l).getLast? := by
      rw [hin, List.getLast?_cons_cons]
    have hne : f.in_ ≠ some a := by
      rw [hin']
      intro e
      exact hnd'.1 (List.mem_of_getLast?_eq_some e)
    refine ⟨by simp [ek_fifo_pop, hout], ?_⟩
    simp only [ek_fifo_pop, hout, hne, if_false]
    exact ⟨hp, hnd'.2, hin'⟩

theorem ek_fifo_remove_loop_null (x fuel : Nat) (h : Heap) (f : ek_fifo) :
    ek_fifo_remove_loop x fuel h f none = some (h, f) := by
  cases fuel <;> rfl

theorem getLast?_append_cons (pre : List Nat) (a : Nat) (post : List Nat) :
    (pre ++ a :: post).getLast? = (a :: post).getLast? := by
  rw [List.getLast?_append]
  simp [List.getLast?_cons]

/-- The scan of `ek_fifo_remove`, started at node `it` with the nodes `pre`
already behind it: it unlinks `x` if `x` lies ahead and changes nothing
otherwise. -/
theorem ek_fifo_remove_loop_spec (x : Nat) : ∀ (post pre : List Nat) (it : Nat) (h : Heap)
    (f : ek_fifo) (fuel : Nat), post.length < fuel → IsQueue h f (pre ++ it :: post) →
    x ∉ pre → x ≠ it →
    ∃ h' f', ek_fifo_remove_loop x fuel h f (some it) = some (h', f') ∧
      IsQueue h' f' (pre ++ it :: post.erase x) ∧
      (x ∉ post → h' = h ∧ f' = f) ∧
      (x ∈ post → h' x = none) ∧
      (∀ b, b ∉ pre ++ it :: post → h' b = h b) ∧
      f'.out = f.out
  | [], pre, it, h, f, fuel, hfuel, hq, _, _ => by
    obtain ⟨n, rfl⟩ : ∃ n, fuel = n + 1 := ⟨fuel - 1, by simp at hfuel; omega⟩
    obtain ⟨m, _, hm2⟩ := (path_append h pre [it] f.out none).mp hq.1
    have hit : h it = none := hm2.2
    refine ⟨h, f, ?_, ?_, ?_, ?_, ?_, rfl⟩
    · simp [ek_fifo_remove_loop, hit, ek_fifo_remove_loop_null]
    · simpa using hq
    · intro _
      exact ⟨rfl, rfl⟩
    · intro hx
      simp at hx
    · intro b _
      rfl
  | b :: post, pre, it, h, f, fuel, hfuel, hq, hxpre, hxit => by
    obtain ⟨n, rfl⟩ : ∃ n, fuel = n + 1 := ⟨fuel - 1, by simp at hfuel; omega⟩
    obtain ⟨hp, hnd, hin⟩ := hq
    obtain ⟨m, hm1, hm2⟩ := (path_append h pre (it :: b :: post) f.out none).mp hp
    have hm : m = some it := hm2.1
    subst hm
    have hit : h it = some b := hm2.2.1
    have hpost : path h (h b) post none := hm2.2.2
    by_cases hbx : b = x
    · subst hbx
      have hnd1 := List.nodup_append.mp hnd
      have hnd2 := List.nodup_cons.mp hnd1.2.1
      have hnd3 := List.nodup_cons.mp hnd2.2
      have hbpre : b ∉ pre := hxpre
      have hitpre : it ∉ pre := fun e => hnd1.2.2 e (List.mem_cons_self _ _)
      have hitpost : it ∉ post := fun e => hnd2.1 (List.mem_cons_of_mem _ e)
      have hbpost : b ∉ post := hnd3.1
      have hbit : b ≠ it := hxit
      refine ⟨(h.set it (h b)).set b none,
        if some b = f.in_ then { f with in_ := some it } else f, ?_, ?_, ?_, ?_, ?_, ?_⟩
      · simp [ek_fifo_remove_loop, hit]
      · refine ⟨?_, ?_, ?_⟩
        · have hout : (if some b = f.in_ then { f with in_ := some it } else f).out = f.out := by
            split <;> rfl
          rw [hout, List.erase_cons_head]
          refine (path_append _ pre (it :: post) f.out none).mpr ⟨some it, ?_, rfl, ?_⟩
          · rw [path_set_of_not_mem _ _ _ _ _ _ hbpre, path_set_of_not_mem _ _ _ _ _ _ hitpre]
            exact hm1
          · rw [Heap.set_other _ _ _ _ (Ne.symm hbit), Heap.set_same,
              path_set_of_not_mem _ _ _ _ _ _ hbpost, path_set_of_not_mem _ _ _ _ _ _ hitpost]
            exact hpost
        · rw [List.erase_cons_head]
          refine List.nodup_append.mpr ⟨hnd1.1, List.nodup_cons.mpr ⟨hitpost, hnd3.2⟩, ?_⟩
          intro a ha1 ha2
          rcases List.mem_cons.mp ha2 with e | e
          · exact hitpre (e ▸ ha1)
          · exact hnd1.2.2 ha1 (List.mem_cons_of_mem _ (List.mem_cons_of_mem _ e))
        · rw [List.erase_cons_head, getLast?_append_cons]
          rw [getLast?_append_cons] at hin
          cases post with
          | nil =>
            have hin' : f.in_ = some b := by simpa using hin
            simp [hin']
          | cons c post =>
            have hin' : f.in_ = (c :: post).getLast? := by
              rw [hin, List.getLast?_cons_cons, List.getLast?_cons_cons]
            have hne : some b ≠ f.in_ := by
              rw [hin']
              intro e
              exact hbpost (List.mem_of_getLast?_eq_some e.symm)
            rw [if_neg hne, hin', List.getLast?_cons_cons]
      · intro hx
        exact absurd (List.mem_cons_self _ _) hx
      · intro _
        exact Heap.set_same _ _ _
      · intro c hc
        have hcb : c ≠ b := fun e => hc (by simp [e])
        have hcit : c ≠ it := fun e => hc (by simp [e])
        rw [Heap.set_other _ _ _ _ hcb, Heap.set_other _ _ _ _ hcit]
      · split <;> rfl
    · have hq' : IsQueue h f ((pre ++ [it]) ++ b :: post) := by
        rw [List.append_assoc]
        exact ⟨hp, hnd, hin⟩
      have hxpre' : x ∉ pre ++ [it] := by
        intro e
        rcases List.mem_append.mp e with e | e
        · exact hxpre e
        · exact hxit (List.mem_singleton.mp e)
      obtain ⟨h', f', hrun, hq2, hno, hyes, hframe, hout⟩ :=
        ek_fifo_remove_loop_spec x post (pre ++ [it]) b h f n (by simp at hfuel; omega) hq'
          hxpre' (Ne.symm hbx)
      have hne : ¬ (h it = some x) := by
        rw [hit]
        intro e
        exact hbx (Option.some.inj e)
      refine ⟨h', f', ?_, ?_, ?_, ?_, ?_, hout⟩
      · simp only [ek_fifo_remove_loop, hne, if_false]
        rw [hit]
        exact hrun
      · rw [List.erase_cons_tail (by simpa using hbx)]
        simpa [List.append_assoc] using hq2
      · intro hx
        exact hno (fun e => hx (List.mem_cons_of_mem _ e))
      · intro hx
        rcases List.mem_cons.mp hx with e | e
        · exact absurd e.symm hbx
        · exact hyes e
      · intro c hc
        exact hframe c (by simpa [List.append_assoc] using hc)

/-- `ek_fifo_remove` on a well-formed queue, with fuel for one scan: the
member list loses `x`, a non-member leaves heap and queue as they were. -/
theorem ek_fifo_remove_spec {h : Heap} {f : ek_fifo} {l : List Nat} (hq : IsQueue h f l)
    (x fuel : Nat) (hfuel : l.length ≤ fuel) :
    ∃ h' f', ek_fifo_remove fuel h f x = some (h', f') ∧ IsQueue h' f' (l.erase x) ∧
      (x ∉ l → h' = h ∧ f' = f) ∧ (∀ b, b ∉ l → h' b = h b) := by
  cases l with
  | nil =>
    have hnil := (IsQueue.nil_iff h f).mp hq
    refine ⟨h, f, ?_, by simpa using hq, fun _ => ⟨rfl, rfl⟩, fun _ _ => rfl⟩
    simp [ek_fifo_remove, hnil.1, ek_fifo_remove_loop_null]
  | cons a post =>
    have hout : f.out = some a := hq.1.1
    by_cases hxa : x = a
    · subst hxa
      refine ⟨h, (ek_fifo_pop h f).2, ?_, ?_, ?_, fun _ _ => rfl⟩
      · simp [ek_fifo_remove, hout]
      · rw [List.erase_cons_head]
        exact (IsQueue.pop_cons hq).2
      · intro hx
        exact absurd (List.mem_cons_self _ _) hx
    · obtain ⟨h', f', hrun, hq2, hno, _, hframe, _⟩ :=
        ek_fifo_remove_loop_spec x post [] a h f fuel (by simpa using hfuel) hq
          (List.not_mem_nil x) hxa
      have hne : some x ≠ f.out := by
        rw [hout]
        exact fun e => hxa (Option.some.inj e)
      refine ⟨h', f', ?_, ?_, ?_, ?_⟩
      · simp only [ek_fifo_remove, hne, if_false]
        rw [hout]
        exact hrun
      · rw [List.erase_cons_tail (by simpa using Ne.symm hxa)]
        exact hq2
      · intro hx
        exact hno (fun e => hx (List.mem_cons_of_mem _ e))
      · intro b hb
        exact hframe b hb

theorem push_all_spec : ∀ (xs : List Nat) (h : Heap) (f : ek_fifo) (l : List Nat),
    IsQueue h f l → (l ++ xs).Nodup →
    IsQueue (push_all h f xs).1 (push_all h f xs).2 (l ++ xs)
  | [], h, f, l, hq, _ => by simpa [push_all] using hq
  | x :: xs, h, f, l, hq, hnd => by
    have hx : x ∉ l := by
      intro e
      exact (List.nodup_append.mp hnd).2.2 e (List.mem_cons_self _ _)
    have hnd' : ((l ++ [x]) ++ xs).Nodup := by simpa [List.append_assoc] using hnd
    have ih := push_all_spec xs _ _ (l ++ [x]) (IsQueue.push hq hx) hnd'
    simpa [push_all, List.append_assoc] using ih

theorem pop_n_spec (h : Heap) : ∀ (l : List Nat) (f : ek_fifo), IsQueue h f l →
    (pop_n h (l.length + 1) f).1 = l.map some ++ [none]
  | [], f, hq => by
    simp [pop_n, IsQueue.pop_nil hq]
  | a :: l, f, hq => by
    have hp := IsQueue.pop_cons hq
    have ih := pop_n_spec h l _ hp.2
    simp only [List.length_cons, List.map_cons, List.cons_append]
    rw [pop_n, hp.1, ih]

/-! ## The submission step -/

theorem reachable_self (h : Heap) (c : Nat) : reachable h (some c) c :=
  ⟨[c], h c, ⟨rfl, rfl⟩, List.mem_singleton_self c⟩

theorem reachable_next (h : Heap) (c d : Nat) (hd : reachable h (h c) d) :
    reachable h (some c) d := by
  obtain ⟨l, q, hp, hm⟩ := hd
  exact ⟨c :: l, q, ⟨rfl, hp⟩, List.mem_cons_of_mem c hm⟩

theorem Epoll.epoll_switch_spec (o : ek_operation) (ident : Int) (t : Nat)
    (hs : Epoll.flush_io_switch o = some (ident, t)) :
    Epoll.staged_for o ident (t ||| Epoll.EPOLLONESHOT) := by
  unfold Epoll.flush_io_switch at hs
  unfold Epoll.staged_for
  cases ht : o.op_type <;> rw [ht] at hs <;> simp at hs <;>
    obtain ⟨h1, h2⟩ := hs <;> subst h1 <;> subst h2 <;> simp

theorem Epoll.flush_io_register_top {κ : Type} (K : Epoll.Kernel κ)
    (st : Epoll.flush_io_state κ) (ident : Int) (ev : Epoll.epoll_event) :
    (Epoll.flush_io_register K st ident ev).io_pending_top = st.io_pending_top := by
  unfold Epoll.flush_io_register
  repeat' split
  all_goals rfl

theorem Epoll.flush_io_register_calls {κ : Type} (K : Epoll.Kernel κ)
    (st : Epoll.flush_io_state κ) (ident : Int) (ev : Epoll.epoll_event)
    (P : Epoll.ctl_call → Prop) (hP : ∀ o, P ⟨o, ident, ev⟩) (hst : ∀ c ∈ st.calls, P c) :
    ∀ c ∈ (Epoll.flush_io_register K st ident ev).calls, P c := by
  have hadd : ∀ o, ∀ c ∈ st.calls ++ [(⟨o, ident, ev⟩ : Epoll.ctl_call)], P c := by
    intro o c hc
    rcases List.mem_append.mp hc with hc | hc
    · exact hst c hc
    · rw [List.mem_singleton.mp hc]
      exact hP o
  unfold Epoll.flush_io_register
  split
  · split
    · exact hadd _
    · split
      · split
        · exact hadd _
        · exact hst
      · exact hst
  · split
    · exact hadd _
    · exact hst

/-- Every `epoll_ctl` call recorded by the loop satisfies `P`, when `P` holds
of the event staged for each completion `Q` that the cursor can still reach. -/
theorem Epoll.ek_io_flush_io_loop_calls {κ : Type} (K : Epoll.Kernel κ) (op : Nat → ek_operation)
    (h : Heap) (P : Epoll.ctl_call → Prop) (Q : Nat → Prop)
    (hP : ∀ c ident t, Q c → Epoll.flush_io_switch (op c) = some (ident, t) →
      ∀ o, P ⟨o, ident, ⟨t ||| Epoll.EPOLLONESHOT, c⟩⟩) :
    ∀ (fuel : Nat) (st : Epoll.flush_io_state κ), (∀ c ∈ st.calls, P c) →
      (∀ c, reachable h st.io_pending_top c → Q c) →
      ∀ c ∈ (Epoll.ek_io_flush_io_loop K op h fuel st).calls, P c
  | 0, st, hst, _ => by
    unfold Epoll.ek_io_flush_io_loop
    split
    · split
      · exact hst
      · exact hst
    · exact hst
  | n + 1, st, hst, hQ => by
    unfold Epoll.ek_io_flush_io_loop
    split
    · split
      · exact hst
      · rename_i completion htop
        have hQ1 : ∀ c, reachable h (h completion) c → Q c := fun c hc =>
          hQ c (htop ▸ reachable_next h completion c hc)
        have hQc : Q completion := hQ completion (htop ▸ reachable_self h completion)
        split
        · exact Epoll.ek_io_flush_io_loop_calls K op h P Q hP n _ hst hQ1
        · rename_i ident t hsw
          have hreg := Epoll.flush_io_register_calls K
            { st with io_pending_top := h completion } ident
            ⟨t ||| Epoll.EPOLLONESHOT, completion⟩ P (hP completion ident t hQc hsw) hst
          simp only
          split
          · refine Epoll.ek_io_flush_io_loop_calls K op h P Q hP n _ hreg ?_
            rw [Epoll.flush_io_register_top]
            exact hQ1
          · exact hreg
    · exact hst

theorem Kqueue.kqueue_switch_spec (o : ek_operation) (ident filter : Int) (c : Nat)
    (hs : Kqueue.flush_io_switch o = some (ident, filter)) :
    Kqueue.staged_for o
      { ident := ident, filter := filter,
        flags := Kqueue.EV_ADD ||| Kqueue.EV_ENABLE ||| Kqueue.EV_ONESHOT,
        fflags := 0, data := 0, udata := c } := by
  unfold Kqueue.flush_io_switch at hs
  unfold Kqueue.staged_for
  cases ht : o.op_type <;> rw [ht] at hs <;> simp at hs <;>
    obtain ⟨h1, h2⟩ := hs <;> subst h1 <;> subst h2 <;> simp

/-- Every change-list entry staged by the loop belongs to a completion `Q`
that the cursor could reach and carries what its operation asks for. -/
theorem Kqueue.ek_io_flush_io_loop_events (op : Nat → ek_operation) (h : Heap) (Q : Nat → Prop) :
    ∀ (fuel : Nat) (st : Kqueue.flush_io_state),
      (∀ e ∈ st.events, Q e.udata ∧ Kqueue.staged_for (op e.udata) e) →
      (∀ c, reachable h st.io_pending_top c → Q c) →
      ∀ e ∈ (Kqueue.ek_io_flush_io_loop op h fuel st).events,
        Q e.udata ∧ Kqueue.staged_for (op e.udata) e
  | 0, st, hst, _ => by
    unfold Kqueue.ek_io_flush_io_loop
    split
    · split
      · exact hst
      · exact hst
    · exact hst
  | n + 1, st, hst, hQ => by
    unfold Kqueue.ek_io_flush_io_loop
    split
    · split
      · exact hst
      · rename_i completion htop
        have hQ1 : ∀ c, reachable h (h completion) c → Q c := fun c hc =>
          hQ c (htop ▸ reachable_next h completion c hc)
        have hQc : Q completion := hQ completion (htop ▸ reachable_self h completion)
        split
        · exact Kqueue.ek_io_flush_io_loop_events op h Q n _ hst hQ1
        · rename_i ident filter hsw
          refine Kqueue.ek_io_flush_io_loop_events op h Q n _ ?_ hQ1
          intro e he
          rcases List.mem_append.mp he with he | he
          · exact hst e he
          · rw [List.mem_singleton.mp he]
            exact ⟨hQc, Kqueue.kqueue_switch_spec (op completion) ident filter completion hsw⟩
    · exact hst

/-! ## The timeout scan -/

theorem foldl_min_le (xs : List Nat) : ∀ m : Nat, xs.foldl min m ≤ m ∧
    (∀ x ∈ xs, xs.foldl min m ≤ x) ∧ (xs.foldl min m = m ∨ xs.foldl min m ∈ xs) := by
  induction xs with
  | nil =>
    intro m
    simp
  | cons a xs ih =>
    intro m
    obtain ⟨h1, h2, h3⟩ := ih (min m a)
    simp only [List.foldl_cons, List.mem_cons]
    refine ⟨le_trans h1 (min_le_left m a), ?_, ?_⟩
    · intro x hx
      rcases hx with rfl | hx
      · exact le_trans h1 (min_le_right m x)
      · exact h2 x hx
    · rcases h3 with h3 | h3
      · rcases min_choice m a with hm | hm
        · left
          rw [h3, hm]
        · right
          left
          rw [h3, hm]
      · right
        right
        exact h3

/-- The scan over a list none of whose timers is due: nothing moves, and the
result is the least delay, capped by the starting value. -/
theorem ek_io_flush_timeouts_loop_none_due (op : Nat → ek_operation) (rfuel : Nat) :
    ∀ (l : List Nat) (fuel : Nat) (w : World) (m : Nat) (p : Ptr),
      path w.next p l none → (∀ c ∈ l, ¬ due op c) → l.length ≤ fuel →
      ek_io_flush_timeouts_loop op rfuel fuel w m p = some (w, (l.map (delay op)).foldl min m)
  | [], fuel, w, m, p, hp, _, _ => by
    have hp' : p = none := hp
    subst hp'
    cases fuel <;> rfl
  | a :: l, fuel, w, m, p, hp, hnd, hfuel => by
    obtain ⟨n, rfl⟩ : ∃ n, fuel = n + 1 := ⟨fuel - 1, by simp at hfuel; omega⟩
    have hpa : p = some a := hp.1
    subst hpa
    have ha : ¬ (timeouts_now ≥ (op a).expires) := hnd a (List.mem_cons_self _ _)
    have ih := ek_io_flush_timeouts_loop_none_due op rfuel l n w
      (if (op a).expires - timeouts_now < m then (op a).expires - timeouts_now else m)
      (w.next a) hp.2 (fun c hc => hnd c (List.mem_cons_of_mem _ hc))
      (by simp at hfuel; omega)
    have hmin : (if (op a).expires - timeouts_now < m then (op a).expires - timeouts_now else m)
        = min m (delay op a) := by
      unfold delay
      rw [Nat.min_def]
      split_ifs <;> omega
    rw [hmin] at ih
    simp only [ek_io_flush_timeouts_loop, ha, if_false, List.map_cons, List.foldl_cons]
    rw [hmin]
    exact ih

theorem not_isQueue_of_cut (h : Heap) (f : ek_fifo) (a b : Nat) (hout : f.out = some a)
    (hn : h a = none) (hin : f.in_ = some b) (hab : a ≠ b) : ¬ ∃ l, IsQueue h f l := by
  rintro ⟨l, hp, _, hl⟩
  rw [hout] at hp
  cases l with
  | nil => exact absurd hp (by simp [path])
  | cons c l =>
    have hc : a = c := Option.some.inj hp.1
    subst hc
    have hp2 : path h (h a) l none := hp.2
    rw [hn] at hp2
    cases l with
    | nil =>
      rw [hin] at hl
      simp at hl
      exact hab hl.symm
    | cons d l => exact absurd hp2.1 (by simp)

/-! ## Claims -/

/-- C1: pushing any sequence of distinct nodes onto a freshly initialised queue
and then popping returns the nodes in exactly the order pushed, and the pop
after the last node returns `NULL`. -/
theorem fifo_pop_order (h : Heap) (xs : List Nat) (hd : xs.Nodup) :
    (pop_n (push_all h ek_fifo_init xs).1 (xs.length + 1)
      (push_all h ek_fifo_init xs).2).1 = xs.map some ++ [none] := by
  have hq := push_all_spec xs h ek_fifo_init [] (IsQueue.init h) (by simpa using hd)
  rw [List.nil_append] at hq
  exact pop_n_spec _ xs _ hq

/-- Pushing 7, 8, 9 and popping four times gives 7, 8, 9 and then `NULL`. -/
theorem fifo_pop_order_witness :
    [7, 8, 9].Nodup ∧
    (pop_n (push_all Heap.null ek_fifo_init [7, 8, 9]).1 4
      (push_all Heap.null ek_fifo_init [7, 8, 9]).2).1 = [some 7, some 8, some 9, none] :=
  ⟨by decide, fifo_pop_order Heap.null [7, 8, 9] (by decide)⟩

/-- C2 (the code at the failing inputs): a cycle whose timeout step moved a due
timer to `completed`, or that found a completion in `completed` at entry, and
that had nothing to submit returns with that completion still in `completed`
and no callback invoked; the wait is not called. -/
theorem flush_returns_without_dispatch :
    (epoll_due_timer_cycle.status = Status.ok ∧ epoll_due_timer_cycle.wait_timeout = none ∧
      epoll_due_timer_cycle.dispatched = [] ∧
      epoll_due_timer_cycle.w.queues 4 = ([], [10], [])) ∧
    (kqueue_due_timer_cycle.status = Status.ok ∧ kqueue_due_timer_cycle.wait_timeout = none ∧
      kqueue_due_timer_cycle.dispatched = [] ∧
      kqueue_due_timer_cycle.w.queues 4 = ([], [10], [])) ∧
    (epoll_ready_cycle.status = Status.ok ∧ epoll_ready_cycle.wait_timeout = none ∧
      epoll_ready_cycle.dispatched = [] ∧
      epoll_ready_cycle.w.queues 4 = ([], [1], [])) := by
  decide

/-- C3 (the code at the failing input): with two due timers 10 and 11 in
`timeouts`, one `ek_io_flush_timeouts` moves only the first to `completed`;
the second is still in `timeouts`. -/
theorem flush_timeouts_stops_at_first_due :
    IsQueue (world_with [10, 11] [] []).next (world_with [10, 11] [] []).io.timeouts [10, 11] ∧
    (∀ c ∈ [10, 11], due ops_two_due c) ∧
    (ek_io_flush_timeouts ops_two_due 4 (world_with [10, 11] [] [])).map
      (fun r => (r.1.queues 4, r.2)) = some (([11], [10], []), UINT64_MAX) := by
  decide

/-- C4 (counterexample): a queue whose only timer is not due and expires at
`UINT64_MAX` makes `ek_io_flush_timeouts` return `UINT64_MAX`, the value
reserved for a queue without a pending timer. -/
theorem flush_timeouts_sentinel_with_pending_timer :
    IsQueue (world_with [13] [] []).next (world_with [13] [] []).io.timeouts [13] ∧
    ¬ due ops_far_timer 13 ∧
    (ek_io_flush_timeouts ops_far_timer 4 (world_with [13] [] [])).map Prod.snd
      = some UINT64_MAX := by
  decide

/-- C4 (amended): on a well-formed timeouts queue none of whose timers is due,
`ek_io_flush_timeouts` leaves the loop as it is and returns the least
`expiry - now` of the timers, capped at `UINT64_MAX`; it returns `UINT64_MAX`
exactly when no timer of the queue is less than `UINT64_MAX` away. -/
theorem flush_timeouts_min_of_none_due (op : Nat → ek_operation) (w : World) (l : List Nat)
    (fuel : Nat) (hq : IsQueue w.next w.io.timeouts l) (hnd : ∀ c ∈ l, ¬ due op c)
    (hb : ∀ c ∈ l, (op c).expires ≤ UINT64_MAX) (hfuel : l.length ≤ fuel) :
    ∃ m, ek_io_flush_timeouts op fuel w = some (w, m) ∧
      m ≤ UINT64_MAX ∧ (∀ c ∈ l, m ≤ delay op c) ∧
      (m = UINT64_MAX ∨ ∃ c ∈ l, m = delay op c) ∧
      (m = UINT64_MAX ↔ ∀ c ∈ l, delay op c = UINT64_MAX) := by
  have hrun := ek_io_flush_timeouts_loop_none_due op fuel l fuel w UINT64_MAX
    (ek_fifo_peek w.io.timeouts) hq.1 hnd hfuel
  obtain ⟨h1, h2, h3⟩ := foldl_min_le (l.map (delay op)) UINT64_MAX
  have hle : ∀ c ∈ l, (l.map (delay op)).foldl min UINT64_MAX ≤ delay op c := fun c hc =>
    h2 _ (List.mem_map_of_mem _ hc)
  have hcap : ∀ c ∈ l, delay op c ≤ UINT64_MAX := fun c hc =>
    le_trans (Nat.sub_le _ _) (hb c hc)
  have hor : (l.map (delay op)).foldl min UINT64_MAX = UINT64_MAX ∨
      ∃ c ∈ l, (l.map (delay op)).foldl min UINT64_MAX = delay op c := by
    rcases h3 with h3 | h3
    · exact Or.inl h3
    · obtain ⟨c, hc, hce⟩ := List.mem_map.mp h3
      exact Or.inr ⟨c, hc, hce.symm⟩
  refine ⟨_, hrun, h1, hle, hor, ?_, ?_⟩
  · intro hm c hc
    exact le_antisymm (hcap c hc) (hm ▸ hle c hc)
  · intro hall
    rcases hor with hm | ⟨c, hc, hm⟩
    · exact hm
    · rw [hm]
      exact hall c hc

/-- Two timers 7 and 5 nanoseconds away: nothing moves and 5 is returned. -/
theorem flush_timeouts_min_of_none_due_witness :
    IsQueue (world_with [10, 11] [] []).next (world_with [10, 11] [] []).io.timeouts [10, 11] ∧
    ∃ m, ek_io_flush_timeouts ops_two_pending 2 (world_with [10, 11] [] [])
        = some (world_with [10, 11] [] [], m) ∧
      m ≤ UINT64_MAX ∧ (∀ c ∈ [10, 11], m ≤ delay ops_two_pending c) ∧
      (m = UINT64_MAX ∨ ∃ c ∈ [10, 11], m = delay ops_two_pending c) ∧
      (m = UINT64_MAX ↔ ∀ c ∈ [10, 11], delay ops_two_pending c = UINT64_MAX) :=
  ⟨by decide, flush_timeouts_min_of_none_due ops_two_pending (world_with [10, 11] [] [])
    [10, 11] 2 (by decide) (by decide) (by decide) (by decide)⟩

/-- C5 (the code at the failing input): after a cycle has registered the read
completion 1, `io_pending` still has it at `out` and `in`, and the next cycle,
without any new submission, registers it again.  Pushing the completion once
more after the first cycle, as `test_io` does, links it to itself. -/
theorem flush_io_keeps_pending_members :
    (epoll_read_cycle1.status = Status.ok ∧
      epoll_read_cycle1.calls
        = [⟨Epoll.ctl_op.EPOLL_CTL_ADD, 3, ⟨Epoll.EPOLLIN ||| Epoll.EPOLLONESHOT, 1⟩⟩] ∧
      epoll_read_cycle1.w.io.io_pending = ⟨some 1, some 1⟩ ∧
      epoll_read_cycle1.w.queues 4 = ([], [], [1])) ∧
    (epoll_read_cycle2.status = Status.ok ∧
      epoll_read_cycle2.calls
        = [⟨Epoll.ctl_op.EPOLL_CTL_MOD, 3, ⟨Epoll.EPOLLIN ||| Epoll.EPOLLONESHOT, 1⟩⟩] ∧
      epoll_read_cycle2.w.queues 4 = ([], [], [1])) ∧
    (kqueue_read_cycle1.status = Status.ok ∧ kqueue_read_cycle1.changes.length = 1 ∧
      kqueue_read_cycle1.w.io.io_pending = ⟨some 1, some 1⟩) ∧
    (kqueue_read_cycle2.status = Status.ok ∧ kqueue_read_cycle2.changes.length = 1 ∧
      kqueue_read_cycle2.w.queues 4 = ([], [], [1])) ∧
    (ek_fifo_push epoll_read_cycle1.w.next epoll_read_cycle1.w.io.io_pending 1).1 1 = some 1 := by
  decide

/-- C6 (the code at the failing input): one read completion is submitted to a
fresh loop and never fires; the kernel holds one registration throughout, but
`io_inflight` is 1, 2 and 3 after the first, second and third cycle. -/
theorem inflight_counts_every_cycle :
    (world_with [] [] [1]).io.io_inflight = 0 ∧
    (epoll_read_cycle1.w.io.io_inflight, epoll_read_cycle1.kernel.interest.length,
      epoll_read_cycle1.ready) = (1, 1, []) ∧
    (epoll_read_cycle2.w.io.io_inflight, epoll_read_cycle2.kernel.interest.length,
      epoll_read_cycle2.ready) = (2, 1, []) ∧
    (epoll_read_cycle3.w.io.io_inflight, epoll_read_cycle3.kernel.interest.length,
      epoll_read_cycle3.ready) = (3, 1, []) ∧
    (kqueue_read_cycle1.w.io.io_inflight, kqueue_read_cycle2.w.io.io_inflight) = (1, 2) := by
  decide

/-- C7: every registration that `ek_io_flush_io` makes belongs to a completion
of the pending list and carries the descriptor of its operation, read interest
for accept, read and recv, write interest for connect, write and send, the
one-shot flag, and that completion as user data; none is made for a timer.
The epoll part is about the `epoll_ctl` calls, the kqueue part about the
change list. -/
theorem flush_io_registration_fields {κ : Type} (K : Epoll.Kernel κ) (op : Nat → ek_operation)
    (h : Heap) (fuel : Nat) (k : κ) (top : Ptr) :
    (∀ c ∈ (Epoll.ek_io_flush_io K op h fuel k top).calls,
      reachable h top c.ev.data_ptr ∧ Epoll.staged_for (op c.ev.data_ptr) c.fd c.ev.events) ∧
    (∀ e ∈ (Kqueue.ek_io_flush_io op h fuel top).events,
      reachable h top e.udata ∧ Kqueue.staged_for (op e.udata) e) := by
  constructor
  · refine Epoll.ek_io_flush_io_loop_calls K op h _ (reachable h top) ?_ fuel _ ?_ ?_
    · intro c ident t hc hsw _
      exact ⟨hc, Epoll.epoll_switch_spec (op c) ident t hsw⟩
    · intro c hc
      exact absurd hc (List.not_mem_nil c)
    · intro c hc
      exact hc
  · refine Kqueue.ek_io_flush_io_loop_events op h (reachable h top) fuel _ ?_ ?_
    · intro e he
      exact absurd he (List.not_mem_nil e)
    · intro c hc
      exact hc

/-- A timer followed by a read on descriptor 3: the read is registered with
read interest and the one-shot flag in both backends. -/
theorem flush_io_registration_fields_witness :
    ((⟨Epoll.ctl_op.EPOLL_CTL_ADD, 3, ⟨Epoll.EPOLLIN ||| Epoll.EPOLLONESHOT, 1⟩⟩ : Epoll.ctl_call)
      ∈ (Epoll.ek_io_flush_io set_kernel ops_two_reads (world_with [] [] [10, 1]).next 4 ⟨[], []⟩
          (some 10)).calls ∧
      Epoll.staged_for (ops_two_reads 1) 3 (Epoll.EPOLLIN ||| Epoll.EPOLLONESHOT)) ∧
    ((⟨3, Kqueue.EVFILT_READ, 21, 0, 0, 1⟩ : Kqueue.kevent)
      ∈ (Kqueue.ek_io_flush_io ops_two_reads (world_with [] [] [10, 1]).next 4 (some 10)).events ∧
      Kqueue.staged_for (ops_two_reads 1) ⟨3, Kqueue.EVFILT_READ, 21, 0, 0, 1⟩) :=
  ⟨⟨by decide, ((flush_io_registration_fields set_kernel ops_two_reads
      (world_with [] [] [10, 1]).next 4 ⟨[], []⟩ (some 10)).1
      ⟨Epoll.ctl_op.EPOLL_CTL_ADD, 3, ⟨Epoll.EPOLLIN ||| Epoll.EPOLLONESHOT, 1⟩⟩ (by decide)).2⟩,
    ⟨by decide, ((flush_io_registration_fields set_kernel ops_two_reads
      (world_with [] [] [10, 1]).next 4 ⟨[], []⟩ (some 10)).2
      ⟨3, Kqueue.EVFILT_READ, 21, 0, 0, 1⟩ (by decide)).2⟩⟩

/-- C8 (the code at the failing input): with reads pending on the descriptors
3 and 4, neither registered before, `ek_io_flush_io` adds descriptor 3 and
then takes the fatal exit of the modify path for descriptor 4, which is never
registered. -/
theorem flush_io_exits_on_second_descriptor :
    (epoll_two_reads_submit.status, epoll_two_reads_submit.calls,
      epoll_two_reads_submit.kernel.interest.map Prod.fst)
      = (Status.exit_failure,
          [⟨Epoll.ctl_op.EPOLL_CTL_ADD, 3, ⟨Epoll.EPOLLIN ||| Epoll.EPOLLONESHOT, 1⟩⟩], [3]) := by
  decide

/-- C9 (the code at the failing input): the reads 1 and 2 are pending in a
well-formed loop and the kernel reports 1 ready; pushing 1 onto `completed`
clears its link to 2, and after the cycle `io_pending` still has `out` at 1
and `in` at 2 but the links from 1 no longer lead to 2, so it is not
well-formed for any member list. -/
theorem flush_breaks_pending_queue :
    (IsQueue (world_with [] [] [1, 2]).next (world_with [] [] [1, 2]).io.timeouts [] ∧
      IsQueue (world_with [] [] [1, 2]).next (world_with [] [] [1, 2]).io.completed [] ∧
      IsQueue (world_with [] [] [1, 2]).next (world_with [] [] [1, 2]).io.io_pending [1, 2]) ∧
    (world_with [] [] [1, 2]).next 1 = some 2 ∧
    (kqueue_first_ready_cycle.status = Status.ok ∧ kqueue_first_ready_cycle.dispatched = [1] ∧
      kqueue_first_ready_cycle.w.next 1 = none ∧
      ¬ ∃ l, IsQueue kqueue_first_ready_cycle.w.next kqueue_first_ready_cycle.w.io.io_pending l) ∧
    (epoll_first_ready_cycle.status = Status.ok ∧ epoll_first_ready_cycle.dispatched = [1] ∧
      epoll_first_ready_cycle.w.next 1 = none ∧
      ¬ ∃ l, IsQueue epoll_first_ready_cycle.w.next epoll_first_ready_cycle.w.io.io_pending l) := by
  refine ⟨by decide, by decide, ⟨by decide, by decide, by decide, ?_⟩,
    ⟨by decide, by decide, by decide, ?_⟩⟩
  · exact not_isQueue_of_cut _ _ 1 2 (by decide) (by decide) (by decide) (by decide)
  · exact not_isQueue_of_cut _ _ 1 2 (by decide) (by decide) (by decide) (by decide)

/-- C10: the well-formedness predicate (`out` null iff `in` null, the link of
the node at `in` null, the links from `out` visiting the distinct members up
to `in`) holds after `ek_fifo_init` and is preserved by `ek_fifo_push` of a
non-member, which becomes the tail behind the old members in their order, by
`ek_fifo_pop`, and by `ek_fifo_remove` of any node. -/
theorem fifo_wf_preserved (h : Heap) (f : ek_fifo) (l : List Nat) (hq : IsQueue h f l) :
    ((f.out = none ↔ f.in_ = none) ∧ (∀ t, f.in_ = some t → h t = none)) ∧
    (∀ h0, IsQueue h0 ek_fifo_init []) ∧
    (∀ x, x ∉ l → IsQueue (ek_fifo_push h f x).1 (ek_fifo_push h f x).2 (l ++ [x]) ∧
      (ek_fifo_push h f x).2.in_ = some x) ∧
    ((ek_fifo_pop h f).1 = l.head? ∧ IsQueue h (ek_fifo_pop h f).2 l.tail) ∧
    (∀ x fuel, l.length ≤ fuel → ∃ h' f', ek_fifo_remove fuel h f x = some (h', f') ∧
      IsQueue h' f' (l.erase x)) := by
  refine ⟨⟨?_, ?_⟩, IsQueue.init, ?_, ?_, ?_⟩
  · rw [hq.out_eq, hq.2.2]
    cases l with
    | nil => simp
    | cons a l => simp [List.getLast?_eq_getLast]
  · intro t ht
    rcases List.eq_nil_or_concat l with rfl | ⟨l', t', hl⟩
    · have := hq.2.2
      simp [ht] at this
    · rw [List.concat_eq_append] at hl
      subst hl
      have hin := hq.2.2
      rw [ht] at hin
      have htt : t = t' := by simpa using hin
      subst htt
      obtain ⟨m, _, hm2⟩ := (path_append h l' [t] f.out none).mp hq.1
      exact hm2.2
  · intro x hx
    have hp := IsQueue.push hq hx
    refine ⟨hp, ?_⟩
    rw [hp.2.2]
    simp
  · cases l with
    | nil =>
      rw [IsQueue.pop_nil hq]
      exact ⟨rfl, hq⟩
    | cons a l => exact IsQueue.pop_cons hq
  · intro x fuel hfuel
    obtain ⟨h', f', hrun, hq', _⟩ := ek_fifo_remove_spec hq x fuel hfuel
    exact ⟨h', f', hrun, hq'⟩

/-- The queue built by pushing 7, 8, 9 is well-formed; pushing the non-member
10 appends it, and removing 8 with fuel 3 leaves 7, 9. -/
theorem fifo_wf_preserved_witness :
    IsQueue (push_all Heap.null ek_fifo_init [7, 8, 9]).1
      (push_all Heap.null ek_fifo_init [7, 8, 9]).2 [7, 8, 9] ∧
    (10 ∉ [7, 8, 9] ∧
      IsQueue
        (ek_fifo_push (push_all Heap.null ek_fifo_init [7, 8, 9]).1
          (push_all Heap.null ek_fifo_init [7, 8, 9]).2 10).1
        (ek_fifo_push (push_all Heap.null ek_fifo_init [7, 8, 9]).1
          (push_all Heap.null ek_fifo_init [7, 8, 9]).2 10).2 [7, 8, 9, 10]) ∧
    ∃ h' f', ek_fifo_remove 3 (push_all Heap.null ek_fifo_init [7, 8, 9]).1
      (push_all Heap.null ek_fifo_init [7, 8, 9]).2 8 = some (h', f') ∧
      IsQueue h' f' [7, 9] :=
  ⟨by decide,
    ⟨by decide, ((fifo_wf_preserved _ _ [7, 8, 9] (by decide)).2.2.1 10 (by decide)).1⟩,
    (fifo_wf_preserved _ _ [7, 8, 9] (by decide)).2.2.2.2 8 3 (by decide)⟩

/-! ## Removal and operation sequences -/

theorem members_of_path (h : Heap) : ∀ (l : List Nat) (n : Nat) (p : Ptr),
    path h p l none → l.length ≤ n → members h n p = l
  | [], n, p, hp, _ => by
    have hp' : p = none := hp
    subst hp'
    cases n <;> rfl
  | a :: l, n, p, hp, hn => by
    obtain ⟨m, rfl⟩ : ∃ m, n = m + 1 := ⟨n - 1, by simp at hn; omega⟩
    have hpa : p = some a := hp.1
    subst hpa
    simp only [members]
    rw [members_of_path h l m (h a) hp.2 (by simp at hn; omega)]

theorem IsQueue.members_eq {h : Heap} {f : ek_fifo} {l : List Nat} (hq : IsQueue h f l)
    (n : Nat) (hn : l.length ≤ n) : members h n f.out = l :=
  members_of_path h l n f.out hq.1 hn

theorem IsQueue.empty_iff {h : Heap} {f : ek_fifo} {l : List Nat} (hq : IsQueue h f l) :
    ek_fifo_empty f = true ↔ l = [] := by
  unfold ek_fifo_empty ek_fifo_peek
  rw [hq.out_eq]
  cases l <;> simp

/-- Removing a member that is not the head clears its link. -/
theorem ek_fifo_remove_clears_link {h : Heap} {f : ek_fifo} {a : Nat} {post : List Nat}
    (hq : IsQueue h f (a :: post)) (x fuel : Nat) (hx : x ∈ post)
    (hfuel : (a :: post).length ≤ fuel) :
    ∃ h' f', ek_fifo_remove fuel h f x = some (h', f') ∧ IsQueue h' f' (a :: post.erase x) ∧
      h' x = none ∧ f'.out = f.out := by
  have hout : f.out = some a := hq.1.1
  have hxa : x ≠ a := by
    intro e
    subst e
    exact (List.nodup_cons.mp hq.2.1).1 hx
  obtain ⟨h', f', hrun, hq2, _, hyes, _, hout'⟩ :=
    ek_fifo_remove_loop_spec x post [] a h f fuel (by simpa using hfuel) hq
      (List.not_mem_nil x) hxa
  have hne : some x ≠ f.out := by
    rw [hout]
    exact fun e => hxa (Option.some.inj e)
  refine ⟨h', f', ?_, hq2, hyes hx, hout'⟩
  simp only [ek_fifo_remove, hne, if_false]
  rw [hout]
  exact hrun

/-- C11: on a well-formed queue with members `l`, removing a member `x` leaves
a queue whose successive pops return the members of `l` other than `x`, in
their original order, and then `NULL`; when `x` is the head, heap and queue
are the ones `ek_fifo_pop` produces. -/
theorem fifo_remove_member_then_pops (h : Heap) (f : ek_fifo) (l : List Nat) (x fuel : Nat)
    (hq : IsQueue h f l) (hx : x ∈ l) (hfuel : l.length ≤ fuel) :
    ∃ h' f', ek_fifo_remove fuel h f x = some (h', f') ∧
      (pop_n h' ((l.filter (fun n => n != x)).length + 1) f').1
        = (l.filter (fun n => n != x)).map some ++ [none] ∧
      (l.filter (fun n => n != x)).length + 1 = l.length ∧
      (f.out = some x → h' = h ∧ f' = (ek_fifo_pop h f).2) := by
  obtain ⟨h', f', hrun, hq', _, _⟩ := ek_fifo_remove_spec hq x fuel hfuel
  rw [List.Nodup.erase_eq_filter hq.2.1] at hq'
  refine ⟨h', f', hrun, pop_n_spec h' _ f' hq', ?_, ?_⟩
  · rw [← List.Nodup.erase_eq_filter hq.2.1, List.length_erase_of_mem hx]
    have : 0 < l.length := List.length_pos_of_mem hx
    omega
  · intro hout
    have hr : ek_fifo_remove fuel h f x = some (h, (ek_fifo_pop h f).2) := by
      simp [ek_fifo_remove, hout]
    rw [hr] at hrun
    have := Option.some.inj hrun
    exact ⟨(congrArg Prod.fst this).symm, (congrArg Prod.snd this).symm⟩

/-- Removing 8 from the queue 7, 8, 9 and popping three times gives 7, 9 and
then `NULL`. -/
theorem fifo_remove_member_then_pops_witness :
    (IsQueue (push_all Heap.null ek_fifo_init [7, 8, 9]).1
      (push_all Heap.null ek_fifo_init [7, 8, 9]).2 [7, 8, 9] ∧ 8 ∈ [7, 8, 9]) ∧
    (∃ h' f', ek_fifo_remove 3 (push_all Heap.null ek_fifo_init [7, 8, 9]).1
        (push_all Heap.null ek_fifo_init [7, 8, 9]).2 8 = some (h', f') ∧
      (pop_n h' (([7, 8, 9].filter (fun n => n != 8)).length + 1) f').1
        = ([7, 8, 9].filter (fun n => n != 8)).map some ++ [none] ∧
      ([7, 8, 9].filter (fun n => n != 8)).length + 1 = [7, 8, 9].length ∧
      ((push_all Heap.null ek_fifo_init [7, 8, 9]).2.out = some 8 →
        h' = (push_all Heap.null ek_fifo_init [7, 8, 9]).1 ∧
        f' = (ek_fifo_pop (push_all Heap.null ek_fifo_init [7, 8, 9]).1
          (push_all Heap.null ek_fifo_init [7, 8, 9]).2).2)) ∧
    ek_fifo_remove 3 (push_all Heap.null ek_fifo_init [7, 8, 9]).1
        (push_all Heap.null ek_fifo_init [7, 8, 9]).2 7
      = some ((push_all Heap.null ek_fifo_init [7, 8, 9]).1,
          (ek_fifo_pop (push_all Heap.null ek_fifo_init [7, 8, 9]).1
            (push_all Heap.null ek_fifo_init [7, 8, 9]).2).2) := by
  refine ⟨⟨by decide, by decide⟩,
    fifo_remove_member_then_pops _ _ [7, 8, 9] 8 3 (by decide) (by decide) (by decide), ?_⟩
  obtain ⟨h', f', hrun, _, _, hhead⟩ :=
    fifo_remove_member_then_pops (push_all Heap.null ek_fifo_init [7, 8, 9]).1
      (push_all Heap.null ek_fifo_init [7, 8, 9]).2 [7, 8, 9] 7 3 (by decide) (by decide)
      (by decide)
  obtain ⟨e1, e2⟩ := hhead (by decide)
  rw [hrun, e1, e2]

/-- C12: on a well-formed queue with at least two members, removing the tail
`t` and then pushing a node `y` that is not a member gives the queue of the
remaining members in their order followed by `y`: `in` is `y`, `y` is linked
after the new tail and the removed node links to nothing. -/
theorem fifo_remove_tail_then_push (h : Heap) (f : ek_fifo) (l : List Nat) (t y fuel : Nat)
    (hq : IsQueue h f (l ++ [t])) (hl : l ≠ []) (hy : y ∉ l ++ [t])
    (hfuel : (l ++ [t]).length ≤ fuel) :
    ∃ h1 f1, ek_fifo_remove fuel h f t = some (h1, f1) ∧
      IsQueue (ek_fifo_push h1 f1 y).1 (ek_fifo_push h1 f1 y).2 (l ++ [y]) ∧
      members (ek_fifo_push h1 f1 y).1 (l.length + 1) (ek_fifo_push h1 f1 y).2.out = l ++ [y] ∧
      (ek_fifo_push h1 f1 y).2.in_ = some y ∧
      (∀ b, l.getLast? = some b → (ek_fifo_push h1 f1 y).1 b = some y) ∧
      (ek_fifo_push h1 f1 y).1 t = none := by
  obtain ⟨a, post, rfl⟩ : ∃ a post, l = a :: post := by
    cases l with
    | nil => exact absurd rfl hl
    | cons a post => exact ⟨a, post, rfl⟩
  have hnd : ((a :: post) ++ [t]).Nodup := hq.2.1
  have htl : t ∉ a :: post := fun e =>
    (List.nodup_append.mp hnd).2.2 e (List.mem_singleton_self t)
  have hyl : y ∉ a :: post := fun e => hy (List.mem_append_left _ e)
  have hyt : y ≠ t := fun e => hy (by simp [e])
  have hq0 : IsQueue h f (a :: (post ++ [t])) := hq
  obtain ⟨h1, f1, hrun, hq1, hlink, _⟩ :=
    ek_fifo_remove_clears_link hq0 t fuel (by simp) (by simpa using hfuel)
  have herase : (post ++ [t]).erase t = post := by
    rw [List.erase_append_right _ (fun e => htl (List.mem_cons_of_mem _ e))]
    simp
  rw [herase] at hq1
  have hq2 := IsQueue.push hq1 hyl
  have hin1 : f1.in_ = (a :: post).getLast? := hq1.2.2
  refine ⟨h1, f1, hrun, hq2, ?_, ?_, ?_, ?_⟩
  · exact hq2.members_eq _ (by simp)
  · rw [hq2.2.2]
    exact List.getLast?_concat _
  · intro b hb
    have hin : f1.in_ = some b := by rw [hin1, hb]
    simp [ek_fifo_push, hin, Heap.set_same]
  · have hb : ∃ b, f1.in_ = some b ∧ b ∈ a :: post := by
      rw [hin1]
      exact ⟨(a :: post).getLast (by simp), List.getLast?_eq_getLast _ _,
        List.getLast_mem _⟩
    obtain ⟨b, hin, hbl⟩ := hb
    have htb : t ≠ b := fun e => htl (e ▸ hbl)
    simp only [ek_fifo_push, hin]
    rw [Heap.set_other _ _ _ _ htb, Heap.set_other _ _ _ _ (Ne.symm hyt)]
    exact hlink

/-- Removing the tail 9 of the queue 7, 8, 9 and pushing 10 gives 7, 8, 10. -/
theorem fifo_remove_tail_then_push_witness :
    (IsQueue (push_all Heap.null ek_fifo_init [7, 8, 9]).1
      (push_all Heap.null ek_fifo_init [7, 8, 9]).2 ([7, 8] ++ [9]) ∧ 10 ∉ [7, 8] ++ [9]) ∧
    ∃ h1 f1, ek_fifo_remove 3 (push_all Heap.null ek_fifo_init [7, 8, 9]).1
        (push_all Heap.null ek_fifo_init [7, 8, 9]).2 9 = some (h1, f1) ∧
      IsQueue (ek_fifo_push h1 f1 10).1 (ek_fifo_push h1 f1 10).2 ([7, 8] ++ [10]) ∧
      members (ek_fifo_push h1 f1 10).1 ([7, 8].length + 1) (ek_fifo_push h1 f1 10).2.out
        = [7, 8] ++ [10] ∧
      (ek_fifo_push h1 f1 10).2.in_ = some 10 ∧
      (∀ b, [7, 8].getLast? = some b → (ek_fifo_push h1 f1 10).1 b = some 10) ∧
      (ek_fifo_push h1 f1 10).1 9 = none :=
  ⟨⟨by decide, by decide⟩,
    fifo_remove_tail_then_push _ _ [7, 8] 9 10 3 (by decide) (by decide) (by decide)
      (by decide)⟩

/-- C13: on a well-formed queue, the empty one included, `ek_fifo_remove` of a
node that is not a member returns with the same `out` and `in` and the same
link in every node; the scan ends within fuel for one pass. -/
theorem fifo_remove_non_member (h : Heap) (f : ek_fifo) (l : List Nat) (x fuel : Nat)
    (hq : IsQueue h f l) (hx : x ∉ l) (hfuel : l.length ≤ fuel) :
    ek_fifo_remove fuel h f x = some (h, f) := by
  obtain ⟨h', f', hrun, _, hno, _⟩ := ek_fifo_remove_spec hq x fuel hfuel
  obtain ⟨e1, e2⟩ := hno hx
  rw [hrun, e1, e2]

/-- Removing 5 from the queue 7, 8, 9, and from the empty queue, changes
nothing. -/
theorem fifo_remove_non_member_witness :
    (IsQueue (push_all Heap.null ek_fifo_init [7, 8, 9]).1
      (push_all Heap.null ek_fifo_init [7, 8, 9]).2 [7, 8, 9] ∧ 5 ∉ [7, 8, 9] ∧
      ek_fifo_remove 3 (push_all Heap.null ek_fifo_init [7, 8, 9]).1
        (push_all Heap.null ek_fifo_init [7, 8, 9]).2 5
        = some ((push_all Heap.null ek_fifo_init [7, 8, 9]).1,
            (push_all Heap.null ek_fifo_init [7, 8, 9]).2)) ∧
    ek_fifo_remove 0 Heap.null ek_fifo_init 5 = some (Heap.null, ek_fifo_init) :=
  ⟨⟨by decide, by decide,
      fifo_remove_non_member _ _ [7, 8, 9] 5 3 (by decide) (by decide) (by decide)⟩,
    fifo_remove_non_member Heap.null ek_fifo_init [] 5 0 (by decide) (by decide) (by decide)⟩

/-- Running a valid operation sequence keeps the queue well-formed, with as
many members as pushes minus pops that returned a node minus removes of a
member. -/
theorem fifo_exec_spec (fuel : Nat) : ∀ (ops : List fifo_op) (r : fifo_run) (l : List Nat),
    IsQueue r.h r.f l → l.length + ops.length ≤ fuel →
    l.length + r.pops + r.removes = r.pushes → fifo_valid fuel r ops = true →
    ∃ r' l', fifo_exec fuel r ops = some r' ∧ IsQueue r'.h r'.f l' ∧
      l'.length + r'.pops + r'.removes = r'.pushes
  | [], r, l, hq, _, hc, _ => ⟨r, l, rfl, hq, hc⟩
  | o :: ops, r, l, hq, hfuel, hc, hv => by
    have hlen : l.length ≤ fuel := by omega
    have hmem : members r.h fuel r.f.out = l := hq.members_eq fuel hlen
    simp only [fifo_valid, Bool.and_eq_true] at hv
    obtain ⟨hv1, hv2⟩ := hv
    simp only [List.length_cons] at hfuel
    cases o with
    | push x =>
      have hx : x ∉ l := by
        simp only [hmem] at hv1
        simpa using hv1
      have hq1 := IsQueue.push hq hx
      simp only [fifo_step] at hv2
      obtain ⟨r', l', hrun, hq', hc'⟩ := fifo_exec_spec fuel ops
        { r with h := (ek_fifo_push r.h r.f x).1, f := (ek_fifo_push r.h r.f x).2,
                 pushes := r.pushes + 1 } (l ++ [x]) hq1
        (by simp only [List.length_append, List.length_singleton]; omega)
        (by simp only [List.length_append, List.length_singleton]; omega) hv2
      exact ⟨r', l', by simpa only [fifo_exec, fifo_step] using hrun, hq', hc'⟩
    | pop =>
      simp only [fifo_step] at hv2
      cases l with
      | nil =>
        have hp := IsQueue.pop_nil hq
        have hq1 : IsQueue r.h (ek_fifo_pop r.h r.f).2 [] := by rw [hp]; exact hq
        obtain ⟨r', l', hrun, hq', hc'⟩ := fifo_exec_spec fuel ops
          { r with f := (ek_fifo_pop r.h r.f).2,
                   pops := r.pops + (if (ek_fifo_pop r.h r.f).1.isSome then 1 else 0) } [] hq1
          (by simp only [List.length_nil]; omega)
          (by
            simp only [hp, Option.isSome_none, List.length_nil] at hc ⊢
            simpa using hc) hv2
        exact ⟨r', l', by simpa only [fifo_exec, fifo_step] using hrun, hq', hc'⟩
      | cons a t =>
        have hp := IsQueue.pop_cons hq
        obtain ⟨r', l', hrun, hq', hc'⟩ := fifo_exec_spec fuel ops
          { r with f := (ek_fifo_pop r.h r.f).2,
                   pops := r.pops + (if (ek_fifo_pop r.h r.f).1.isSome then 1 else 0) } t hp.2
          (by simp only [List.length_cons] at hfuel; omega)
          (by
            simp only [hp.1, Option.isSome_some, if_true, List.length_cons] at hc ⊢
            omega) hv2
        exact ⟨r', l', by simpa only [fifo_exec, fifo_step] using hrun, hq', hc'⟩
    | remove x =>
      obtain ⟨h1, f1, hrem, hq1, _, _⟩ := ek_fifo_remove_spec hq x fuel hlen
      simp only [fifo_step, hrem, hmem] at hv2
      have hcount : (l.erase x).length + r.pops + (r.removes + (if x ∈ l then 1 else 0))
          = r.pushes := by
        by_cases hx : x ∈ l
        · have hpos : 0 < l.length := List.length_pos_of_mem hx
          rw [List.length_erase_of_mem hx, if_pos hx]
          omega
        · rw [List.erase_of_not_mem hx, if_neg hx]
          omega
      obtain ⟨r', l', hrun, hq', hc'⟩ := fifo_exec_spec fuel ops
        { r with h := h1, f := f1, removes := r.removes + (if x ∈ l then 1 else 0) }
        (l.erase x) hq1
        (by have := List.length_erase_le x l; omega) hcount hv2
      refine ⟨r', l', ?_, hq', hc'⟩
      simp only [fifo_exec, fifo_step, hrem, hmem]
      exact hrun

/-- C14: after any sequence of pushes of non-members, pops and removes applied
to a freshly initialised queue, `ek_fifo_empty` is true exactly when the
pushes equal the pops that returned a node plus the removes of a member, and
exactly when `out` is `NULL`. -/
theorem fifo_empty_iff_net_zero (h : Heap) (ops : List fifo_op) (fuel : Nat)
    (hfuel : ops.length ≤ fuel) (hv : fifo_valid fuel (fifo_run_init h) ops = true) :
    ∃ r, fifo_exec fuel (fifo_run_init h) ops = some r ∧
      (ek_fifo_empty r.f = true ↔ r.pushes = r.pops + r.removes) ∧
      (ek_fifo_empty r.f = true ↔ r.f.out = none) := by
  obtain ⟨r, l, hrun, hq, hc⟩ := fifo_exec_spec fuel ops (fifo_run_init h) []
    (IsQueue.init h) (by simpa using hfuel) rfl hv
  refine ⟨r, hrun, ?_, ?_⟩
  · rw [hq.empty_iff]
    constructor
    · intro hl
      subst hl
      simp only [List.length_nil] at hc
      omega
    · intro hp
      have : l.length = 0 := by omega
      exact List.length_eq_zero.mp this
  · unfold ek_fifo_empty ek_fifo_peek
    cases r.f.out <;> simp

/-- The sequence of `test_fifo` (push 1, 2, 3, remove 1, three pops) is valid
and runs to a queue for which both equivalences hold. -/
theorem fifo_empty_iff_net_zero_witness :
    (fifo_valid 7 (fifo_run_init Heap.null)
        [fifo_op.push 1, fifo_op.push 2, fifo_op.push 3, fifo_op.remove 1, fifo_op.pop,
          fifo_op.pop, fifo_op.pop] = true) ∧
    ∃ r, fifo_exec 7 (fifo_run_init Heap.null)
        [fifo_op.push 1, fifo_op.push 2, fifo_op.push 3, fifo_op.remove 1, fifo_op.pop,
          fifo_op.pop, fifo_op.pop] = some r ∧
      (ek_fifo_empty r.f = true ↔ r.pushes = r.pops + r.removes) ∧
      (ek_fifo_empty r.f = true ↔ r.f.out = none) :=
  ⟨by decide, fifo_empty_iff_net_zero Heap.null _ 7 (by decide) (by decide)⟩

/-! ## Clock, blocking run and backend comparison -/

/-- C15 (the code at the failing input): timers expiring at 5, 10 and 20 ns
are in `timeouts` and the clock reads 7 ns; `ek_io_flush_timeouts` compares
against its local `now = 0`, moves no timer and returns 5, where the claim has
the first timer moved and 3 returned. -/
theorem flush_timeouts_ignores_clock :
    ek_io_current_time_ns 0 7 = 7 ∧ timeouts_now = 0 ∧
    IsQueue (world_with [10, 11, 12] [] []).next (world_with [10, 11, 12] [] []).io.timeouts
      [10, 11, 12] ∧
    (ek_io_flush_timeouts ops_three_timers 4 (world_with [10, 11, 12] [] [])).map
      (fun r => (r.1.queues 4, r.2)) = some (([10, 11, 12], [], []), 5) := by
  decide

/-- A blocking kqueue cycle on an idle loop (empty queues, nothing in flight,
nothing reported) changes nothing and dispatches nothing. -/
theorem kqueue_flush_idle (op : Nat → ek_operation) (cb : Nat → World → World) (w : World)
    (hio : w.io = ek_io_init 5) :
    (Kqueue.ek_io_flush report_kernel op cb 4 [] w true).status = Status.ok ∧
    (Kqueue.ek_io_flush report_kernel op cb 4 [] w true).w = w ∧
    (Kqueue.ek_io_flush report_kernel op cb 4 [] w true).kernel = [] ∧
    (Kqueue.ek_io_flush report_kernel op cb 4 [] w true).dispatched = [] := by
  obtain ⟨next, io⟩ := w
  simp only at hio
  subst hio
  have hu : update_inflight 0 0 0 = 0 := by decide
  simp [Kqueue.ek_io_flush, ek_io_flush_timeouts, ek_io_flush_timeouts_loop, ek_fifo_peek,
    ek_io_init, ek_fifo_init, Kqueue.ek_io_flush_io, Kqueue.ek_io_flush_io_loop,
    EK_EVENT_LIST_SIZE, ek_fifo_empty, Kqueue.flush_wait, report_kernel, push_ready,
    dispatch_loop, ek_fifo_pop, hu]

theorem kqueue_run_while_idle (rounds : Nat) : ∀ (st : run_state (List (List Nat))),
    st.status = Status.ok → st.w.io = ek_io_init 5 → st.kernel = [] → st.timed_out = false →
    (Kqueue.run_while report_kernel ops_two_reads cb_skip 4 99 rounds st).timed_out = false ∧
    (Kqueue.run_while report_kernel ops_two_reads cb_skip 4 99 rounds st).status
      = Status.out_of_fuel := by
  induction rounds with
  | zero =>
    intro st _ _ _ ht
    simp [Kqueue.run_while, ht]
  | succ n ih =>
    intro st _ hio hk ht
    obtain ⟨h1, h2, h3, h4⟩ := kqueue_flush_idle ops_two_reads
      (fun c w => if c = 99 then timeout_callback w else cb_skip c w) st.w hio
    have hs : (Kqueue.run_flush report_kernel ops_two_reads cb_skip 4 99 st).status
        = Status.ok := by
      simp only [Kqueue.run_flush, hk]
      exact h1
    have hnext := ih (Kqueue.run_flush report_kernel ops_two_reads cb_skip 4 99 st) hs
      (by simp only [Kqueue.run_flush, hk]; rw [h2]; exact hio)
      (by simp only [Kqueue.run_flush, hk]; exact h3)
      (by simp only [Kqueue.run_flush, hk]; rw [h4, ht]; rfl)
    simp only [Kqueue.run_while, ht, hs]
    exact hnext

/-- C17 (the code at the failing input): `ek_io_run_for_ns` of the kqueue
backend reaches its first `ek_io_flush` with the loop and the operations as
they were, so on a fresh loop `timeouts` is empty there, while the epoll
backend has pushed the local completion with expiry `now + nanoseconds`; the
kqueue loop then never sees its flag set, however many turns it is given. -/
theorem kqueue_run_for_ns_pushes_no_timer (op : Nat → ek_operation) (w : World)
    (completion nanoseconds rounds : Nat) :
    Kqueue.ek_io_run_for_ns_setup op w completion nanoseconds = (w, op) ∧
    (Kqueue.ek_io_run_for_ns_setup ops_two_reads world_init 99 500).1.queues 4 = ([], [], []) ∧
    ((Epoll.ek_io_run_for_ns_setup ops_two_reads world_init 99 1000 500).1.queues 4
        = ([99], [], []) ∧
      (Epoll.ek_io_run_for_ns_setup ops_two_reads world_init 99 1000 500).2 99
        = ⟨EK_OP_TIMEOUT, 0, 1500⟩) ∧
    ((kqueue_run_for_500 rounds).timed_out = false ∧
      (kqueue_run_for_500 rounds).status = Status.out_of_fuel) :=
  by
  refine ⟨rfl, by decide, by decide, ?_⟩
  obtain ⟨h1, h2, h3, h4⟩ := kqueue_flush_idle ops_two_reads
    (fun c w => if c = 99 then timeout_callback w else cb_skip c w) world_init rfl
  have hs : (Kqueue.run_flush report_kernel ops_two_reads cb_skip 4 99
      { status := Status.ok, w := world_init, kernel := [], timed_out := false,
        flushes := [] }).status = Status.ok := h1
  have h := kqueue_run_while_idle rounds
    (Kqueue.run_flush report_kernel ops_two_reads cb_skip 4 99
      { status := Status.ok, w := world_init, kernel := [], timed_out := false,
        flushes := [] }) hs
    (by simp only [Kqueue.run_flush]; rw [h2]; rfl)
    (by simp only [Kqueue.run_flush]; exact h3)
    (by simp only [Kqueue.run_flush]; rw [h4]; rfl)
  simp only [kqueue_run_for_500, Kqueue.ek_io_run_for_ns, Kqueue.ek_io_run_for_ns_setup, hs]
  exact h

/-- C18 (the code at the failing inputs): on an idle loop asked to block,
epoll returns without calling the wait while kqueue calls `kevent` with the
deadline; with a read pending, a timer 10 ms away and a descriptor that
becomes readable after 1 ms, epoll waits 10 ms and dispatches the read while
kqueue polls with a zero deadline and dispatches nothing, and the in-flight
counters end at 0 and 1. -/
theorem backends_disagree_on_wait :
    (epoll_idle_blocking_cycle.status = Status.ok ∧
      epoll_idle_blocking_cycle.wait_timeout = none ∧
      kqueue_idle_blocking_cycle.status = Status.ok ∧
      kqueue_idle_blocking_cycle.wait_timeout = some ⟨18446744073, 709551615⟩) ∧
    (epoll_late_ready_cycle.status = Status.ok ∧
      epoll_late_ready_cycle.wait_timeout = some 10 ∧
      epoll_late_ready_cycle.dispatched = [1] ∧
      epoll_late_ready_cycle.w.io.io_inflight = 0) ∧
    (kqueue_late_ready_cycle.status = Status.ok ∧
      kqueue_late_ready_cycle.wait_timeout = some ⟨0, 0⟩ ∧
      kqueue_late_ready_cycle.dispatched = [] ∧
      kqueue_late_ready_cycle.w.io.io_inflight = 1) := by
  decide

/-! ## The batch submitted by `ek_io_flush_io` -/

theorem eligible_cons_timeout (op : Nat → ek_operation) (c : Nat) (l : List Nat)
    (hc : (op c).op_type = EK_OP_TIMEOUT) : eligible op (c :: l) = eligible op l := by
  simp [eligible, List.filter_cons, hc]

theorem eligible_cons_io (op : Nat → ek_operation) (c : Nat) (l : List Nat)
    (hc : (op c).op_type ≠ EK_OP_TIMEOUT) : eligible op (c :: l) = c :: eligible op l := by
  simp [eligible, List.filter_cons, hc]

theorem take_cons_of_lt (c : Nat) (l : List Nat) (n : Nat) (hn : n < EK_EVENT_LIST_SIZE) :
    (c :: l).take (EK_EVENT_LIST_SIZE - n) = c :: l.take (EK_EVENT_LIST_SIZE - (n + 1)) := by
  have : EK_EVENT_LIST_SIZE - n = (EK_EVENT_LIST_SIZE - (n + 1)) + 1 := by omega
  rw [this, List.take_succ_cons]

theorem Kqueue.kqueue_switch_none (o : ek_operation) :
    Kqueue.flush_io_switch o = none ↔ o.op_type = EK_OP_TIMEOUT := by
  unfold Kqueue.flush_io_switch
  cases o.op_type <;> simp

theorem Epoll.epoll_switch_none (o : ek_operation) :
    Epoll.flush_io_switch o = none ↔ o.op_type = EK_OP_TIMEOUT := by
  unfold Epoll.flush_io_switch
  cases o.op_type <;> simp

/-- The kqueue submission loop on a list that ends in `NULL`: it returns, and
the change list grows by the non-timer completions ahead, in order, up to the
batch cap. -/
theorem Kqueue.kqueue_flush_io_loop_spec (op : Nat → ek_operation) (h : Heap) :
    ∀ (P : List Nat) (fuel : Nat) (st : Kqueue.flush_io_state),
      path h st.io_pending_top P none → P.length ≤ fuel → st.status = Status.ok →
      (Kqueue.ek_io_flush_io_loop op h fuel st).status = Status.ok ∧
      (Kqueue.ek_io_flush_io_loop op h fuel st).events.map Kqueue.kevent.udata
        = st.events.map Kqueue.kevent.udata
          ++ (eligible op P).take (EK_EVENT_LIST_SIZE - st.events.length)
  | [], fuel, st, hp, _, hst => by
    have htop : st.io_pending_top = none := hp
    have hres : Kqueue.ek_io_flush_io_loop op h fuel st = st := by
      cases fuel <;> simp [Kqueue.ek_io_flush_io_loop, htop]
    rw [hres]
    exact ⟨hst, by simp [eligible]⟩
  | c :: P, fuel, st, hp, hfuel, hst => by
    obtain ⟨n, rfl⟩ : ∃ n, fuel = n + 1 := ⟨fuel - 1, by simp at hfuel; omega⟩
    have htop : st.io_pending_top = some c := hp.1
    by_cases hlen : st.events.length < EK_EVENT_LIST_SIZE
    · cases hsw : Kqueue.flush_io_switch (op c) with
      | none =>
        have hc := (Kqueue.kqueue_switch_none (op c)).mp hsw
        have ih := Kqueue.kqueue_flush_io_loop_spec op h P n
          { st with io_pending_top := h c } hp.2 (by simp at hfuel; omega) hst
        simp only [Kqueue.ek_io_flush_io_loop, hlen, if_true, htop, hsw]
        rw [eligible_cons_timeout op c P hc]
        exact ih
      | some p =>
        obtain ⟨ident, filter⟩ := p
        have hc : (op c).op_type ≠ EK_OP_TIMEOUT := by
          intro e
          rw [(Kqueue.kqueue_switch_none (op c)).mpr e] at hsw
          exact absurd hsw (by simp)
        have ih := Kqueue.kqueue_flush_io_loop_spec op h P n
          { st with io_pending_top := h c,
                    events := st.events ++
                      [{ ident := ident, filter := filter,
                         flags := Kqueue.EV_ADD ||| Kqueue.EV_ENABLE ||| Kqueue.EV_ONESHOT,
                         fflags := 0, data := 0, udata := c }] }
          hp.2 (by simp at hfuel; omega) hst
        simp only [Kqueue.ek_io_flush_io_loop, hlen, if_true, htop, hsw]
        rw [eligible_cons_io op c P hc, take_cons_of_lt c _ _ hlen]
        simp only [List.length_append, List.length_singleton, List.map_append, List.map_cons,
          List.map_nil, List.append_assoc, List.singleton_append] at ih
        exact ih
    · have hz : EK_EVENT_LIST_SIZE - st.events.length = 0 := by omega
      simp only [Kqueue.ek_io_flush_io_loop, hlen, if_false, hz, List.take_zero,
        List.append_nil]
      exact ⟨hst, trivial⟩

/-- One registration of the epoll backend from a state that has not failed:
either it succeeds, and the staged events and the recorded calls each grow by
the event, or the process exits and both stay; the model never reports lack
of fuel here, and a kernel whose `epoll_ctl` always succeeds never exits. -/
theorem Epoll.flush_io_register_spec {κ : Type} (K : Epoll.Kernel κ)
    (st : Epoll.flush_io_state κ) (ident : Int) (ev : Epoll.epoll_event)
    (hst : st.status = Status.ok) :
    ((Epoll.flush_io_register K st ident ev).status = Status.ok ∧
        (Epoll.flush_io_register K st ident ev).events = st.events ++ [ev] ∧
        (Epoll.flush_io_register K st ident ev).calls.map Epoll.ctl_call.ev
          = st.calls.map Epoll.ctl_call.ev ++ [ev]) ∨
      ((Epoll.flush_io_register K st ident ev).status = Status.exit_failure ∧
        (Epoll.flush_io_register K st ident ev).events = st.events ∧
        (Epoll.flush_io_register K st ident ev).calls = st.calls ∧
        ¬ ∀ k o fd e, ∃ k', K.ctl k o fd e = Except.ok k') := by
  unfold Epoll.flush_io_register
  split
  · split
    · left
      simp [hst]
    · rename_i errno hadd
      split
      · split
        · left
          simp [hst]
        · rename_i e2 hmod
          right
          refine ⟨rfl, rfl, rfl, ?_⟩
          intro hall
          obtain ⟨k', hk'⟩ := hall st.kernel Epoll.ctl_op.EPOLL_CTL_MOD ident ev
          rw [hk'] at hmod
          exact absurd hmod (by simp)
      · right
        refine ⟨rfl, rfl, rfl, ?_⟩
        intro hall
        obtain ⟨k', hk'⟩ := hall st.kernel Epoll.ctl_op.EPOLL_CTL_ADD ident ev
        rw [hk'] at hadd
        exact absurd hadd (by simp)
  · split
    · left
      simp [hst]
    · rename_i e2 hmod
      right
      refine ⟨rfl, rfl, rfl, ?_⟩
      intro hall
      obtain ⟨k', hk'⟩ := hall st.kernel Epoll.ctl_op.EPOLL_CTL_MOD ident ev
      rw [hk'] at hmod
      exact absurd hmod (by simp)

/-- The epoll submission loop on a list that ends in `NULL`: the scan ends
within fuel for one pass, never stages more than the batch cap, and when it
returns the staged events, which are the events of the `epoll_ctl` calls,
have grown by the non-timer completions ahead, in order, up to the cap. -/
theorem Epoll.epoll_flush_io_loop_spec {κ : Type} (K : Epoll.Kernel κ)
    (op : Nat → ek_operation) (h : Heap) :
    ∀ (P : List Nat) (fuel : Nat) (st : Epoll.flush_io_state κ),
      path h st.io_pending_top P none → P.length ≤ fuel → st.status = Status.ok →
      st.events.length ≤ EK_EVENT_LIST_SIZE →
      st.calls.map Epoll.ctl_call.ev = st.events →
      (Epoll.ek_io_flush_io_loop K op h fuel st).status ≠ Status.out_of_fuel ∧
      (Epoll.ek_io_flush_io_loop K op h fuel st).events.length ≤ EK_EVENT_LIST_SIZE ∧
      (Epoll.ek_io_flush_io_loop K op h fuel st).calls.map Epoll.ctl_call.ev
        = (Epoll.ek_io_flush_io_loop K op h fuel st).events ∧
      ((∀ k o fd e, ∃ k', K.ctl k o fd e = Except.ok k') →
        (Epoll.ek_io_flush_io_loop K op h fuel st).status = Status.ok) ∧
      ((Epoll.ek_io_flush_io_loop K op h fuel st).status = Status.ok →
        (Epoll.ek_io_flush_io_loop K op h fuel st).events.map Epoll.epoll_event.data_ptr
          = st.events.map Epoll.epoll_event.data_ptr
            ++ (eligible op P).take (EK_EVENT_LIST_SIZE - st.events.length))
  | [], fuel, st, hp, _, hst, hcap, hinv => by
    have htop : st.io_pending_top = none := hp
    have hres : Epoll.ek_io_flush_io_loop K op h fuel st = st := by
      cases fuel <;> simp [Epoll.ek_io_flush_io_loop, htop]
    rw [hres]
    exact ⟨by simp [hst], hcap, hinv, fun _ => hst, fun _ => by simp [eligible]⟩
  | c :: P, fuel, st, hp, hfuel, hst, hcap, hinv => by
    obtain ⟨n, rfl⟩ : ∃ n, fuel = n + 1 := ⟨fuel - 1, by simp at hfuel; omega⟩
    have htop : st.io_pending_top = some c := hp.1
    by_cases hlen : st.events.length < EK_EVENT_LIST_SIZE
    · cases hsw : Epoll.flush_io_switch (op c) with
      | none =>
        have hc := (Epoll.epoll_switch_none (op c)).mp hsw
        have ih := Epoll.epoll_flush_io_loop_spec K op h P n
          { st with io_pending_top := h c } hp.2 (by simp at hfuel; omega) hst hcap hinv
        simp only [Epoll.ek_io_flush_io_loop, hlen, if_true, htop, hsw]
        rw [eligible_cons_timeout op c P hc]
        exact ih
      | some p =>
        obtain ⟨ident, t⟩ := p
        have hc : (op c).op_type ≠ EK_OP_TIMEOUT := by
          intro e
          rw [(Epoll.epoll_switch_none (op c)).mpr e] at hsw
          exact absurd hsw (by simp)
        have htop2 := Epoll.flush_io_register_top K { st with io_pending_top := h c } ident
          ⟨t ||| Epoll.EPOLLONESHOT, c⟩
        simp only [Epoll.ek_io_flush_io_loop, hlen, if_true, htop, hsw]
        rcases Epoll.flush_io_register_spec K { st with io_pending_top := h c } ident
          ⟨t ||| Epoll.EPOLLONESHOT, c⟩ hst with ⟨hok, hev, hcalls⟩ | ⟨hex, hev, hcalls, hnot⟩
        · have ih := Epoll.epoll_flush_io_loop_spec K op h P n _
            (by rw [htop2]; exact hp.2) (by simp at hfuel; omega) hok
            (by rw [hev]; simp only [List.length_append, List.length_singleton]; omega)
            (by rw [hev, hcalls]; simp only [hinv])
          rw [hok]
          simp only
          rw [eligible_cons_io op c P hc, take_cons_of_lt c _ _ hlen]
          rw [hev] at ih
          simp only [List.length_append, List.length_singleton, List.map_append, List.map_cons,
            List.map_nil, List.append_assoc, List.singleton_append] at ih
          exact ih
        · rw [hex]
          simp only
          refine ⟨by simp [hex], by rw [hev]; exact hcap, by rw [hev, hcalls]; exact hinv,
            fun hall => absurd hall hnot, fun hokk => ?_⟩
          rw [hex] at hokk
          exact absurd hokk (by simp)
    · have hz : EK_EVENT_LIST_SIZE - st.events.length = 0 := by omega
      simp only [Epoll.ek_io_flush_io_loop, hlen, if_false, hz, List.take_zero,
        List.append_nil]
      exact ⟨by simp [hst], hcap, hinv, fun _ => hst, fun _ => trivial⟩

/-- The registration block against `Epoll.ctl_step`: when its `epoll_ctl`
calls succeed it stages the event, keeps the status and marks the batch as
registered; otherwise the process exits. -/
theorem Epoll.flush_io_register_step {κ : Type} (K : Epoll.Kernel κ)
    (st : Epoll.flush_io_state κ) (ident : Int) (ev : Epoll.epoll_event) :
    (∀ k1, Epoll.ctl_step K st.kernel st.is_registered ident ev = some k1 →
      (Epoll.flush_io_register K st ident ev).status = st.status ∧
      (Epoll.flush_io_register K st ident ev).kernel = k1 ∧
      (Epoll.flush_io_register K st ident ev).is_registered = true ∧
      (Epoll.flush_io_register K st ident ev).events = st.events ++ [ev]) ∧
    (Epoll.ctl_step K st.kernel st.is_registered ident ev = none →
      (Epoll.flush_io_register K st ident ev).status = Status.exit_failure) := by
  unfold Epoll.flush_io_register Epoll.ctl_step
  cases hreg : st.is_registered
  · simp only [Bool.not_false, if_true, Bool.false_eq_true, if_false]
    cases hadd : K.ctl st.kernel Epoll.ctl_op.EPOLL_CTL_ADD ident ev with
    | ok k1 =>
      refine ⟨fun k2 hk => ?_, fun hk => ?_⟩
      · have e := Option.some.inj hk
        subst e
        exact ⟨rfl, rfl, rfl, rfl⟩
      · exact absurd hk (by simp)
    | error errno =>
      by_cases he : errno = Epoll.EEXIST
      · simp only [he, if_true]
        cases hmod : K.ctl st.kernel Epoll.ctl_op.EPOLL_CTL_MOD ident ev with
        | ok k1 =>
          refine ⟨fun k2 hk => ?_, fun hk => ?_⟩
          · have e := Option.some.inj hk
            subst e
            exact ⟨rfl, rfl, rfl, rfl⟩
          · exact absurd hk (by simp)
        | error e2 =>
          exact ⟨fun k2 hk => absurd hk (by simp), fun _ => rfl⟩
      · simp only [he, if_false]
        exact ⟨fun k2 hk => absurd hk (by simp), fun _ => trivial⟩
  · simp only [Bool.not_true, Bool.false_eq_true, if_false, if_true]
    cases hmod : K.ctl st.kernel Epoll.ctl_op.EPOLL_CTL_MOD ident ev with
    | ok k1 =>
      refine ⟨fun k2 hk => ?_, fun hk => ?_⟩
      · have e := Option.some.inj hk
        subst e
        exact ⟨rfl, rfl, hreg ▸ rfl, rfl⟩
      · exact absurd hk (by simp)
    | error e2 =>
      exact ⟨fun k2 hk => absurd hk (by simp), fun _ => rfl⟩

/-- The epoll submission loop on a list that ends in `NULL` returns exactly
when every `epoll_ctl` call for the non-timer completions ahead, up to the
batch cap, succeeds. -/
theorem Epoll.epoll_flush_io_loop_returns {κ : Type} (K : Epoll.Kernel κ)
    (op : Nat → ek_operation) (h : Heap) :
    ∀ (P : List Nat) (fuel : Nat) (st : Epoll.flush_io_state κ),
      path h st.io_pending_top P none → P.length ≤ fuel → st.status = Status.ok →
      ((Epoll.ek_io_flush_io_loop K op h fuel st).status = Status.ok ↔
        Epoll.ctl_succeeds K op st.kernel st.is_registered
          ((eligible op P).take (EK_EVENT_LIST_SIZE - st.events.length)) = true)
  | [], fuel, st, hp, _, hst => by
    have htop : st.io_pending_top = none := hp
    have hres : Epoll.ek_io_flush_io_loop K op h fuel st = st := by
      cases fuel <;> simp [Epoll.ek_io_flush_io_loop, htop]
    rw [hres]
    simp [eligible, Epoll.ctl_succeeds, hst]
  | c :: P, fuel, st, hp, hfuel, hst => by
    obtain ⟨n, rfl⟩ : ∃ n, fuel = n + 1 := ⟨fuel - 1, by simp at hfuel; omega⟩
    have htop : st.io_pending_top = some c := hp.1
    by_cases hlen : st.events.length < EK_EVENT_LIST_SIZE
    · cases hsw : Epoll.flush_io_switch (op c) with
      | none =>
        have hc := (Epoll.epoll_switch_none (op c)).mp hsw
        have ih := Epoll.epoll_flush_io_loop_returns K op h P n
          { st with io_pending_top := h c } hp.2 (by simp at hfuel; omega) hst
        simp only [Epoll.ek_io_flush_io_loop, hlen, if_true, htop, hsw]
        rw [eligible_cons_timeout op c P hc]
        exact ih
      | some p =>
        obtain ⟨ident, t⟩ := p
        have hc : (op c).op_type ≠ EK_OP_TIMEOUT := by
          intro e
          rw [(Epoll.epoll_switch_none (op c)).mpr e] at hsw
          exact absurd hsw (by simp)
        have htop2 := Epoll.flush_io_register_top K { st with io_pending_top := h c } ident
          ⟨t ||| Epoll.EPOLLONESHOT, c⟩
        obtain ⟨hsome, hnone⟩ := Epoll.flush_io_register_step K
          { st with io_pending_top := h c } ident ⟨t ||| Epoll.EPOLLONESHOT, c⟩
        simp only [Epoll.ek_io_flush_io_loop, hlen, if_true, htop, hsw]
        rw [eligible_cons_io op c P hc, take_cons_of_lt c _ _ hlen]
        simp only [Epoll.ctl_succeeds, hsw]
        cases hstep : Epoll.ctl_step K st.kernel st.is_registered ident
            ⟨t ||| Epoll.EPOLLONESHOT, c⟩ with
        | none =>
          have hex := hnone hstep
          rw [hex]
          simp [hex]
        | some k1 =>
          obtain ⟨h1, h2, h3, h4⟩ := hsome k1 hstep
          have hok : (Epoll.flush_io_register K { st with io_pending_top := h c } ident
              ⟨t ||| Epoll.EPOLLONESHOT, c⟩).status = Status.ok := h1.trans hst
          have ih := Epoll.epoll_flush_io_loop_returns K op h P n _
            (by rw [htop2]; exact hp.2) (by simp at hfuel; omega) hok
          rw [h2, h3, h4] at ih
          simp only [List.length_append, List.length_singleton] at ih
          rw [hok]
          simp only
          exact ih
    · have hz : EK_EVENT_LIST_SIZE - st.events.length = 0 := by omega
      simp only [Epoll.ek_io_flush_io_loop, hlen, if_false, hz, List.take_zero]
      simp [Epoll.ctl_succeeds, hst]

/-- C20 (counterexample): a read on the invalid descriptor -1 is the only
pending completion; `epoll_ctl` fails with `EBADF` and `ek_io_flush_io` of the
epoll backend ends the process instead of returning the count 1. -/
theorem flush_io_exits_on_bad_descriptor :
    path (world_with [] [] [2]).next (some 2) [2] none ∧
    (eligible ops_deadlines [2]).length = 1 ∧
    (Epoll.ek_io_flush_io checked_kernel ops_deadlines (world_with [] [] [2]).next 4 ⟨[], []⟩
      (some 2)).status = Status.exit_failure ∧
    (Epoll.ek_io_flush_io checked_kernel ops_deadlines (world_with [] [] [2]).next 4 ⟨[], []⟩
      (some 2)).calls = [] := by
  decide

/-- C20 (amended): on a pending list that ends in `NULL`, with fuel for one
pass, `ek_io_flush_io` of the kqueue backend returns, and that of the epoll
backend either returns or ends the process in a failed `epoll_ctl`: it
returns exactly when every `epoll_ctl` call it makes for the first
`min(256, k)` non-timer completions succeeds (`Epoll.ctl_succeeds`: the first
call of the batch is an `EPOLL_CTL_ADD`, or the `EPOLL_CTL_MOD` after an
`EEXIST`, the later ones are `EPOLL_CTL_MOD`), so in particular when no
`epoll_ctl` can fail; whenever it returns, the count is `min(256, k)` for the
`k` non-timer completions of the list and exactly the first `min(256, k)` of
them are registered, in list order; the count never exceeds
`EK_EVENT_LIST_SIZE`. -/
theorem flush_io_batch {κ : Type} (K : Epoll.Kernel κ) (op : Nat → ek_operation) (h : Heap)
    (P : List Nat) (top : Ptr) (fuel : Nat) (k : κ) (hp : path h top P none)
    (hfuel : P.length ≤ fuel) :
    ((Kqueue.ek_io_flush_io op h fuel top).status = Status.ok ∧
      (Kqueue.ek_io_flush_io op h fuel top).events.map Kqueue.kevent.udata
        = (eligible op P).take EK_EVENT_LIST_SIZE ∧
      (Kqueue.ek_io_flush_io op h fuel top).events.length
        = min EK_EVENT_LIST_SIZE (eligible op P).length) ∧
    ((Epoll.ek_io_flush_io K op h fuel k top).status ≠ Status.out_of_fuel ∧
      (Epoll.ek_io_flush_io K op h fuel k top).events.length ≤ EK_EVENT_LIST_SIZE ∧
      ((∀ k o fd e, ∃ k', K.ctl k o fd e = Except.ok k') →
        (Epoll.ek_io_flush_io K op h fuel k top).status = Status.ok) ∧
      ((Epoll.ek_io_flush_io K op h fuel k top).status = Status.ok ↔
        Epoll.ctl_succeeds K op k false ((eligible op P).take EK_EVENT_LIST_SIZE) = true) ∧
      ((Epoll.ek_io_flush_io K op h fuel k top).status = Status.ok →
        (Epoll.ek_io_flush_io K op h fuel k top).calls.map (fun c => c.ev.data_ptr)
          = (eligible op P).take EK_EVENT_LIST_SIZE ∧
        (Epoll.ek_io_flush_io K op h fuel k top).events.length
          = min EK_EVENT_LIST_SIZE (eligible op P).length)) := by
  constructor
  · obtain ⟨h1, h2⟩ := Kqueue.kqueue_flush_io_loop_spec op h P fuel
      { status := Status.ok, events := [], io_pending_top := top } hp hfuel rfl
    simp only [List.map_nil, List.nil_append, List.length_nil, Nat.sub_zero] at h2
    refine ⟨h1, h2, ?_⟩
    have hl := congrArg List.length h2
    rw [List.length_map, List.length_take] at hl
    exact hl
  · obtain ⟨h1, h2, h3, h4, h5⟩ := Epoll.epoll_flush_io_loop_spec K op h P fuel
      { status := Status.ok, events := [], is_registered := false, io_pending_top := top,
        kernel := k, calls := [] } hp hfuel rfl (by simp) rfl
    have hret := Epoll.epoll_flush_io_loop_returns K op h P fuel
      { status := Status.ok, events := [], is_registered := false, io_pending_top := top,
        kernel := k, calls := [] } hp hfuel rfl
    simp only [List.length_nil, Nat.sub_zero] at hret
    refine ⟨h1, h2, h4, hret, fun hok => ?_⟩
    have h6 := h5 hok
    simp only [List.map_nil, List.nil_append, List.length_nil, Nat.sub_zero] at h6
    have hl := congrArg List.length h6
    rw [List.length_map, List.length_take] at hl
    refine ⟨?_, hl⟩
    have hc : (Epoll.ek_io_flush_io K op h fuel k top).calls.map (fun c => c.ev.data_ptr)
        = ((Epoll.ek_io_flush_io K op h fuel k top).calls.map Epoll.ctl_call.ev).map
            Epoll.epoll_event.data_ptr := by
      rw [List.map_map]
      rfl
    rw [hc]
    unfold Epoll.ek_io_flush_io
    rw [h3]
    exact h6

/-- A timer followed by a read on descriptor 3: both backends return, with the
read as the one registration. Over the kernel that keeps a set of descriptors
the epoll backend returns because its one `EPOLL_CTL_ADD` succeeds, and also
when descriptor 3 is registered already, through the `EPOLL_CTL_MOD` after
`EEXIST`; it returns over the kernel whose `epoll_ctl` always succeeds; and
on the invalid descriptor -1 the call fails and it does not return. -/
theorem flush_io_batch_witness :
    path (world_with [] [] [10, 1]).next (some 10) [10, 1] none ∧
    ((Kqueue.ek_io_flush_io ops_two_reads (world_with [] [] [10, 1]).next 2 (some 10)).events.map
        Kqueue.kevent.udata = (eligible ops_two_reads [10, 1]).take EK_EVENT_LIST_SIZE ∧
      (Epoll.ek_io_flush_io set_kernel ops_two_reads (world_with [] [] [10, 1]).next 2 ⟨[], []⟩
        (some 10)).calls.map (fun c => c.ev.data_ptr)
        = (eligible ops_two_reads [10, 1]).take EK_EVENT_LIST_SIZE ∧
      (Epoll.ek_io_flush_io willing_kernel ops_two_reads (world_with [] [] [10, 1]).next 2 ()
        (some 10)).status = Status.ok ∧
      (Epoll.ek_io_flush_io set_kernel ops_two_reads (world_with [] [] [10, 1]).next 2 ⟨[], []⟩
        (some 10)).status = Status.ok ∧
      (Epoll.ek_io_flush_io set_kernel ops_two_reads (world_with [] [] [10, 1]).next 2
        ⟨[(3, ⟨Epoll.EPOLLIN, 7⟩)], []⟩ (some 10)).status = Status.ok ∧
      ¬ (Epoll.ek_io_flush_io checked_kernel ops_deadlines (world_with [] [] [2]).next 4 ⟨[], []⟩
        (some 2)).status = Status.ok) :=
  ⟨by decide,
    (flush_io_batch set_kernel ops_two_reads (world_with [] [] [10, 1]).next [10, 1] (some 10) 2
      ⟨[], []⟩ (by decide) (by decide)).1.2.1,
    ((flush_io_batch set_kernel ops_two_reads (world_with [] [] [10, 1]).next [10, 1] (some 10) 2
      ⟨[], []⟩ (by decide) (by decide)).2.2.2.2.2 (by decide)).1,
    (flush_io_batch willing_kernel ops_two_reads (world_with [] [] [10, 1]).next [10, 1] (some 10)
      2 () (by decide) (by decide)).2.2.2.1 (fun _ _ _ _ => ⟨(), rfl⟩),
    (flush_io_batch set_kernel ops_two_reads (world_with [] [] [10, 1]).next [10, 1] (some 10) 2
      ⟨[], []⟩ (by decide) (by decide)).2.2.2.2.1.mpr (by decide),
    (flush_io_batch set_kernel ops_two_reads (world_with [] [] [10, 1]).next [10, 1] (some 10) 2
      ⟨[(3, ⟨Epoll.EPOLLIN, 7⟩)], []⟩ (by decide) (by decide)).2.2.2.2.1.mpr (by decide),
    fun hok => absurd ((flush_io_batch checked_kernel ops_deadlines (world_with [] [] [2]).next
      [2] (some 2) 4 ⟨[], []⟩ (by decide) (by decide)).2.2.2.2.1.mp hok) (by decide)⟩

/-! ## The deadline given to the wait -/

theorem to_int_of_lt (x : Nat) (hx : x < 2 ^ 31) : to_int x = (x : Int) := by
  unfold to_int
  have h1 : x % 2 ^ 32 = x := Nat.mod_eq_of_lt (by omega)
  rw [h1, if_pos hx]

theorem Kqueue.flush_wait_deadline_eq {κ : Type} (K : Kqueue.Kernel κ)
    (cb : Nat → World → World) (fuel : Nat) (k : κ) (w1 : World) (changes : List Kqueue.kevent)
    (ts : Kqueue.timespec) : (Kqueue.flush_wait K cb fuel k w1 changes ts).wait_timeout = some ts := by
  unfold Kqueue.flush_wait
  split <;> rfl

theorem Kqueue.flush_wait_changes_eq {κ : Type} (K : Kqueue.Kernel κ)
    (cb : Nat → World → World) (fuel : Nat) (k : κ) (w1 : World) (changes : List Kqueue.kevent)
    (ts : Kqueue.timespec) : (Kqueue.flush_wait K cb fuel k w1 changes ts).changes = changes := by
  unfold Kqueue.flush_wait
  split <;> rfl

/-- C19 (counterexample): with blocking requested, a timer pending and a read
to submit, kqueue gives `kevent` the zero `timespec` although the next
deadline is 10 ms; epoll gives `epoll_wait` the timeout 0 for a deadline of
0.5 ms, and the negative timeout `-2147483648` for a deadline of `2 ^ 31` ms. -/
theorem wait_deadline_zero_or_negative :
    ((ek_io_flush_timeouts ops_deadlines 4 (world_with [10] [] [1])).map Prod.snd
        = some 10000000 ∧
      kqueue_late_ready_cycle.wait_timeout = some ⟨0, 0⟩) ∧
    ((ek_io_flush_timeouts ops_deadlines 4 (world_with [11] [] [1])).map Prod.snd
        = some 500000 ∧
      epoll_short_deadline_cycle.wait_timeout = some 0) ∧
    ((ek_io_flush_timeouts ops_deadlines 4 (world_with [12] [] [1])).map Prod.snd
        = some 2147483648000000 ∧
      epoll_long_deadline_cycle.wait_timeout = some (-2147483648)) := by
  decide

/-- C19 (amended): whenever `ek_io_flush` calls the wait, with `next_timeout`
the value `ek_io_flush_timeouts` returned in that cycle: epoll passes 0 when
`wait_for_completions` is false and otherwise `next_timeout / 1000000`
milliseconds, provided that is below `2 ^ 31`; kqueue passes the zero
`timespec` when `wait_for_completions` is false or there are changes to
submit, and otherwise `tv_sec = next_timeout / 10^9`,
`tv_nsec = next_timeout mod 10^9`. -/
theorem flush_wait_deadline {κ κ' : Type} (K : Epoll.Kernel κ) (K' : Kqueue.Kernel κ')
    (op : Nat → ek_operation) (cb : Nat → World → World) (fuel : Nat) (k : κ) (k' : κ')
    (w : World) (wait_for_completions : Bool) (w1 : World) (next_timeout : Nat)
    (ht : ek_io_flush_timeouts op fuel w = some (w1, next_timeout)) :
    (∀ t, (Epoll.ek_io_flush K op cb fuel k w wait_for_completions).wait_timeout = some t →
      (wait_for_completions = false → t = 0) ∧
      (wait_for_completions = true → next_timeout / 1000000 < 2 ^ 31 →
        t = ((next_timeout / 1000000 : Nat) : Int))) ∧
    (∀ ts, (Kqueue.ek_io_flush K' op cb fuel k' w wait_for_completions).wait_timeout = some ts →
      (wait_for_completions = false → ts = ⟨0, 0⟩) ∧
      (wait_for_completions = true →
        (Kqueue.ek_io_flush K' op cb fuel k' w wait_for_completions).changes ≠ [] →
        ts = ⟨0, 0⟩) ∧
      (wait_for_completions = true →
        (Kqueue.ek_io_flush K' op cb fuel k' w wait_for_completions).changes = [] →
        ts = ⟨((next_timeout / 1000000000 : Nat) : Int),
              ((next_timeout % 1000000000 : Nat) : Int)⟩)) := by
  constructor
  · intro t hwt
    unfold Epoll.ek_io_flush at hwt
    simp only [ht] at hwt
    split at hwt
    · split at hwt
      · split at hwt
        · exact absurd hwt (by simp)
        · split at hwt
          · have e := Option.some.inj hwt
            subst e
            cases wait_for_completions
            · simp
            · simp only [if_true]
              exact ⟨fun hc => absurd hc (by simp), fun _ hlt => to_int_of_lt _ hlt⟩
          · have e := Option.some.inj hwt
            subst e
            cases wait_for_completions
            · simp
            · simp only [if_true]
              exact ⟨fun hc => absurd hc (by simp), fun _ hlt => to_int_of_lt _ hlt⟩
      · exact absurd hwt (by simp)
    · exact absurd hwt (by simp)
  · intro ts
    unfold Kqueue.ek_io_flush
    simp only [ht]
    split
    · split
      · rename_i hout
        split
        · rename_i hin
          have hch : (Kqueue.ek_io_flush_io op w1.next fuel
              (ek_fifo_peek w.io.io_pending)).events = [] := by
            simp only [Bool.and_eq_true, decide_eq_true_eq] at hin
            exact List.length_eq_zero.mp hin.1
          split
          · rename_i hw
            rw [Kqueue.flush_wait_deadline_eq, Kqueue.flush_wait_changes_eq]
            intro hts
            have e := Option.some.inj hts
            subst e
            exact ⟨fun hc => absurd (hw.symm.trans hc) (by simp),
              fun _ hne => absurd hch hne, fun _ _ => rfl⟩
          · rename_i hw
            have hwf : wait_for_completions = false := by
              cases wait_for_completions
              · rfl
              · exact absurd rfl hw
            split
            · intro hts
              exact absurd hts (by simp)
            · rw [Kqueue.flush_wait_deadline_eq, Kqueue.flush_wait_changes_eq]
              intro hts
              have e := Option.some.inj hts
              subst e
              exact ⟨fun _ => rfl, fun _ _ => rfl, fun hc => absurd (hwf.symm.trans hc) (by simp)⟩
        · rename_i hin
          rw [Kqueue.flush_wait_deadline_eq, Kqueue.flush_wait_changes_eq]
          intro hts
          have e := Option.some.inj hts
          subst e
          refine ⟨fun _ => rfl, fun _ _ => rfl, fun _ hch => ?_⟩
          exfalso
          apply hin
          simp only [hch, List.length_nil, gt_iff_lt, lt_self_iff_false, decide_False,
            Bool.false_or] at hout
          simp [hch, hout]
      · intro hts
        exact absurd hts (by simp)
    · intro hts
      exact absurd hts (by simp)

/-- A blocking epoll cycle with a timer 10 ms away passes 10 to `epoll_wait`;
a blocking kqueue cycle on an idle loop, with nothing to submit, passes the
`timespec` of `UINT64_MAX` nanoseconds. -/
theorem flush_wait_deadline_witness :
    (ek_io_flush_timeouts ops_deadlines 4 (world_with [10] [] [1])
        = some (world_with [10] [] [1], 10000000) ∧
      (10 : Int) = ((10000000 / 1000000 : Nat) : Int)) ∧
    (ek_io_flush_timeouts ops_deadlines 4 world_init = some (world_init, UINT64_MAX) ∧
      (⟨18446744073, 709551615⟩ : Kqueue.timespec)
        = ⟨((UINT64_MAX / 1000000000 : Nat) : Int), ((UINT64_MAX % 1000000000 : Nat) : Int)⟩) := by
  have ht1 : ek_io_flush_timeouts ops_deadlines 4 (world_with [10] [] [1])
      = some (world_with [10] [] [1], 10000000) :=
    ek_io_flush_timeouts_loop_none_due ops_deadlines 4 [10] 4 (world_with [10] [] [1])
      UINT64_MAX _ (by decide) (by decide) (by decide)
  have ht2 : ek_io_flush_timeouts ops_deadlines 4 world_init = some (world_init, UINT64_MAX) :=
    ek_io_flush_timeouts_loop_none_due ops_deadlines 4 [] 4 world_init UINT64_MAX _
      (by decide) (by decide) (by decide)
  exact ⟨⟨ht1, ((flush_wait_deadline late_epoll_kernel late_kqueue_kernel ops_deadlines cb_skip 4
      ⟨[], [[1]]⟩ [[1]] (world_with [10] [] [1]) true _ _ ht1).1 10 (by decide)).2 rfl
      (by decide)⟩,
    ⟨ht2, ((flush_wait_deadline set_kernel report_kernel ops_deadlines cb_skip 4
      ⟨[], []⟩ [] world_init true _ _ ht2).2 ⟨18446744073, 709551615⟩ (by decide)).2.2 rfl
      (by decide)⟩⟩

/-! ## One cycle on well-formed queues -/

theorem IsQueue.congr {h h' : Heap} {f : ek_fifo} {l : List Nat} (hq : IsQueue h f l)
    (hl : ∀ a ∈ l, h' a = h a) : IsQueue h' f l :=
  ⟨(path_congr l f.out none hl).mpr hq.1, hq.2.1, hq.2.2⟩

theorem IsQueue.in_mem {h : Heap} {f : ek_fifo} {l : List Nat} (hq : IsQueue h f l) (t : Nat)
    (ht : f.in_ = some t) : t ∈ l := by
  have := hq.2.2
  rw [ht] at this
  exact List.mem_of_getLast?_eq_some this.symm

/-- `ek_fifo_push` writes the link of the pushed node and of the old tail only. -/
theorem ek_fifo_push_frame (h : Heap) (f : ek_fifo) (x b : Nat) (hb : b ≠ x)
    (hin : f.in_ ≠ some b) : (ek_fifo_push h f x).1 b = h b := by
  unfold ek_fifo_push
  cases hf : f.in_ with
  | none => exact Heap.set_other _ _ _ _ hb
  | some t =>
    have hbt : b ≠ t := by
      intro e
      rw [hf, e] at hin
      exact hin rfl
    simp only
    rw [Heap.set_other _ _ _ _ hbt, Heap.set_other _ _ _ _ hb]

/-- After `ek_fifo_push` onto a well-formed queue the pushed node links to
nothing. -/
theorem ek_fifo_push_link {h : Heap} {f : ek_fifo} {l : List Nat} (hq : IsQueue h f l) (x : Nat)
    (hx : x ∉ l) : (ek_fifo_push h f x).1 x = none := by
  unfold ek_fifo_push
  cases hf : f.in_ with
  | none => exact Heap.set_same _ _ _
  | some t =>
    have hxt : x ≠ t := fun e => hx (e ▸ hq.in_mem t hf)
    simp only
    rw [Heap.set_other _ _ _ _ hxt, Heap.set_same]

/-- The scan of `ek_io_flush_timeouts` from a node of a well-formed `timeouts`
queue that shares no member with the well-formed `completed` queue: it
returns, the timers `X` it moved are due and are appended to `completed`, the
other timers stay in `timeouts` in their order, and no link outside the two
queues is written. -/
theorem ek_io_flush_timeouts_loop_spec (op : Nat → ek_operation) (rfuel : Nat)
    (T E : List Nat) (w : World) (hT : IsQueue w.next w.io.timeouts T)
    (hE : IsQueue w.next w.io.completed E) (hdis : ∀ c ∈ T, c ∉ E) (hrf : T.length ≤ rfuel) :
    ∀ (l : List Nat) (fuel : Nat) (m : Nat) (p : Ptr),
      (∀ c ∈ l, c ∈ T) → path w.next p l none → l.length ≤ fuel →
      ∃ w1 m1 X T', ek_io_flush_timeouts_loop op rfuel fuel w m p = some (w1, m1) ∧
        X.Sublist T ∧ (∀ c ∈ X, due op c) ∧ T'.Sublist T ∧
        IsQueue w1.next w1.io.timeouts T' ∧ IsQueue w1.next w1.io.completed (E ++ X) ∧
        (∀ b, b ∉ T → b ∉ E → w1.next b = w.next b) ∧
        w1.io.io_pending = w.io.io_pending ∧ w1.io.io_inflight = w.io.io_inflight
  | [], fuel, m, p, _, hp, _ => by
    have hp' : p = none := hp
    subst hp'
    refine ⟨w, m, [], T, ?_, List.nil_sublist T, fun c hc => absurd hc (List.not_mem_nil c),
      List.Sublist.refl T, hT, by simpa using hE, fun _ _ _ => rfl, rfl, rfl⟩
    cases fuel <;> rfl
  | c :: l, fuel, m, p, hsub, hp, hfuel => by
    obtain ⟨n, rfl⟩ : ∃ n, fuel = n + 1 := ⟨fuel - 1, by simp at hfuel; omega⟩
    have hpc : p = some c := hp.1
    subst hpc
    have hcT : c ∈ T := hsub c (List.mem_cons_self _ _)
    by_cases hdue : timeouts_now ≥ (op c).expires
    · obtain ⟨h1, t1, hrem, hq1, _, hframe⟩ := ek_fifo_remove_spec hT c rfuel hrf
      have hcE : c ∉ E := hdis c hcT
      have hE1 : IsQueue h1 w.io.completed E :=
        hE.congr (fun a ha => hframe a (fun haT => hdis a haT ha))
      have hE2 := IsQueue.push hE1 hcE
      have hlink := ek_fifo_push_link hE1 c hcE
      have hcT1 : c ∉ T.erase c := fun e => (List.Nodup.mem_erase_iff hT.2.1).mp e |>.1 rfl
      have hT2 : IsQueue (ek_fifo_push h1 w.io.completed c).1 t1 (T.erase c) := by
        refine hq1.congr (fun a ha => ek_fifo_push_frame h1 w.io.completed c a ?_ ?_)
        · intro e
          exact hcT1 (e ▸ ha)
        · intro hin
          exact hdis a (List.mem_of_mem_erase ha) (hE1.in_mem a hin)
      refine ⟨{ next := (ek_fifo_push h1 w.io.completed c).1,
                io := { w.io with timeouts := t1,
                                  completed := (ek_fifo_push h1 w.io.completed c).2 } },
        m, [c], T.erase c, ?_, List.singleton_sublist.mpr hcT, ?_, List.erase_sublist c T,
        hT2, hE2, ?_, rfl, rfl⟩
      · simp only [ek_io_flush_timeouts_loop, hdue, if_true, hrem, hlink]
      · intro d hd
        rw [List.mem_singleton.mp hd]
        exact hdue
      · intro b hbT hbE
        have hbc : b ≠ c := fun e => hbT (e ▸ hcT)
        have hbin : w.io.completed.in_ ≠ some b := fun hin => hbE (hE1.in_mem b hin)
        show (ek_fifo_push h1 w.io.completed c).1 b = w.next b
        rw [ek_fifo_push_frame h1 w.io.completed c b hbc hbin]
        exact hframe b hbT
    · obtain ⟨w1, m1, X, T', hrun, h2, h3, h4, h5, h6, h7, h8, h9⟩ :=
        ek_io_flush_timeouts_loop_spec op rfuel T E w hT hE hdis hrf l n
          (if (op c).expires - timeouts_now < m then (op c).expires - timeouts_now else m)
          (w.next c) (fun d hd => hsub d (List.mem_cons_of_mem _ hd)) hp.2
          (by simp at hfuel; omega)
      refine ⟨w1, m1, X, T', ?_, h2, h3, h4, h5, h6, h7, h8, h9⟩
      simp only [ek_io_flush_timeouts_loop, hdue, if_false]
      exact hrun

theorem push_ready_spec : ∀ (R : List Nat) (w : World) (L : List Nat),
    IsQueue w.next w.io.completed L → (L ++ R).Nodup →
    IsQueue (push_ready w R).next (push_ready w R).io.completed (L ++ R)
  | [], w, L, hq, _ => by simpa [push_ready] using hq
  | c :: R, w, L, hq, hnd => by
    have hc : c ∉ L := fun e => (List.nodup_append.mp hnd).2.2 e (List.mem_cons_self _ _)
    have hnd' : ((L ++ [c]) ++ R).Nodup := by simpa [List.append_assoc] using hnd
    have ih := push_ready_spec R
      { next := (ek_fifo_push w.next w.io.completed c).1,
        io := { w.io with completed := (ek_fifo_push w.next w.io.completed c).2 } }
      (L ++ [c]) (IsQueue.push hq hc) hnd'
    simpa [push_ready, List.append_assoc] using ih

/-- The dispatch loop on a well-formed `completed` queue, with callbacks that
leave the links and `completed` alone: it ends within fuel for the members,
with their callbacks invoked in queue order and the queue empty. -/
theorem dispatch_loop_spec (cb : Nat → World → World)
    (hcb : ∀ c w, (cb c w).next = w.next ∧ (cb c w).io.completed = w.io.completed) :
    ∀ (L : List Nat) (fuel : Nat) (w : World) (acc : List Nat),
      IsQueue w.next w.io.completed L → L.length ≤ fuel →
      (dispatch_loop cb fuel w acc).1 = Status.ok ∧
      (dispatch_loop cb fuel w acc).2.2 = acc ++ L ∧
      IsQueue (dispatch_loop cb fuel w acc).2.1.next
        (dispatch_loop cb fuel w acc).2.1.io.completed []
  | [], fuel, w, acc, hq, _ => by
    have hp := IsQueue.pop_nil hq
    cases fuel <;> simp [dispatch_loop, hp, hq]
  | a :: L, fuel, w, acc, hq, hfuel => by
    obtain ⟨n, rfl⟩ : ∃ n, fuel = n + 1 := ⟨fuel - 1, by simp at hfuel; omega⟩
    have hp := IsQueue.pop_cons hq
    have hq' : IsQueue
        (cb a { w with io := { w.io with completed := (ek_fifo_pop w.next w.io.completed).2 } }).next
        (cb a { w with io := { w.io with completed := (ek_fifo_pop w.next w.io.completed).2 } }).io.completed
        L := by
      rw [(hcb a _).1, (hcb a _).2]
      exact hp.2
    have ih := dispatch_loop_spec cb hcb L n _ (acc ++ [a]) hq' (by simp at hfuel; omega)
    simp only [dispatch_loop, hp.1]
    simpa [List.append_assoc] using ih

/-- The part of a cycle after the wait: the ready completions `R` are pushed
behind the members `L` of `completed` and everything is dispatched in that
order. -/
theorem ready_dispatch_spec (cb : Nat → World → World)
    (hcb : ∀ c w, (cb c w).next = w.next ∧ (cb c w).io.completed = w.io.completed)
    (w1 : World) (L R : List Nat) (fuel inflight : Nat)
    (hq : IsQueue w1.next w1.io.completed L) (hnd : (L ++ R).Nodup)
    (hfuel : L.length + R.length ≤ fuel) :
    (dispatch_loop cb fuel
      (push_ready { w1 with io := { w1.io with io_inflight := inflight } } R) []).1 = Status.ok ∧
    (dispatch_loop cb fuel
      (push_ready { w1 with io := { w1.io with io_inflight := inflight } } R) []).2.2 = L ++ R := by
  have hq2 := push_ready_spec R { w1 with io := { w1.io with io_inflight := inflight } } L hq hnd
  obtain ⟨h1, h2, _⟩ := dispatch_loop_spec cb hcb (L ++ R) fuel _ [] hq2
    (by rw [List.length_append]; exact hfuel)
  exact ⟨h1, by simpa using h2⟩

theorem nodup_ready_of_sublist {T E X R : List Nat} (hX : X.Sublist T)
    (hnd : (T ++ E ++ R).Nodup) : ((E ++ X) ++ R).Nodup := by
  have h1 : (E ++ T ++ R).Nodup := by
    refine (List.Perm.nodup_iff ?_).mp hnd
    exact List.Perm.append_right R List.perm_append_comm
  refine List.Nodup.sublist ?_ h1
  exact List.Sublist.append (List.Sublist.append (List.Sublist.refl E) hX) (List.Sublist.refl R)

/-- The pending list is still in place after the timeout step. -/
theorem pending_path_after_timeouts {w w1 : World} {T E P : List Nat}
    (hP : IsQueue w.next w.io.io_pending P) (hnd : (T ++ E ++ P).Nodup)
    (hfr : ∀ b, b ∉ T → b ∉ E → w1.next b = w.next b) :
    path w1.next (ek_fifo_peek w.io.io_pending) P none := by
  refine (path_congr P _ none (fun a ha => hfr a ?_ ?_)).mpr hP.1
  · intro haT
    exact (List.nodup_append.mp hnd).2.2 (List.mem_append_left _ haT) ha
  · intro haE
    exact (List.nodup_append.mp hnd).2.2 (List.mem_append_right _ haE) ha

/-- One epoll cycle on well-formed, disjoint queues, given what the timeout
step did: the model does not run out of fuel, and when the cycle returns the
callbacks ran for the members of `completed` at entry, then the moved timers,
then the ready completions, in that order, or for none when the wait was not
reached. -/
theorem epoll_flush_order {κ : Type} (K : Epoll.Kernel κ) (op : Nat → ek_operation)
    (cb : Nat → World → World)
    (hcb : ∀ c w, (cb c w).next = w.next ∧ (cb c w).io.completed = w.io.completed)
    (fuel : Nat) (k : κ) (w : World) (wait_for_completions : Bool) (T E P : List Nat)
    (hP : IsQueue w.next w.io.io_pending P) (hnd : (T ++ E ++ P).Nodup)
    (hfuel : T.length + E.length + P.length + EK_EVENT_LIST_SIZE ≤ fuel)
    (w1 : World) (nt : Nat) (X : List Nat)
    (hrun : ek_io_flush_timeouts op fuel w = some (w1, nt))
    (hK : ∀ t R k2,
      K.wait (Epoll.ek_io_flush_io K op w1.next fuel k (ek_fifo_peek w.io.io_pending)).kernel t
        = some (R, k2) →
      (T ++ E ++ R).Nodup ∧ R.length ≤ EK_EVENT_LIST_SIZE)
    (hX : X.Sublist T)
    (hE1 : IsQueue w1.next w1.io.completed (E ++ X))
    (hfr : ∀ b, b ∉ T → b ∉ E → w1.next b = w.next b) :
    (Epoll.ek_io_flush K op cb fuel k w wait_for_completions).status ≠ Status.out_of_fuel ∧
    ((Epoll.ek_io_flush K op cb fuel k w wait_for_completions).status = Status.ok →
      ((Epoll.ek_io_flush K op cb fuel k w wait_for_completions).dispatched = [] ∧
        (Epoll.ek_io_flush K op cb fuel k w wait_for_completions).ready = []) ∨
      (Epoll.ek_io_flush K op cb fuel k w wait_for_completions).dispatched
        = E ++ X ++ (Epoll.ek_io_flush K op cb fuel k w wait_for_completions).ready) := by
  have hP1 := pending_path_after_timeouts hP hnd hfr
  obtain ⟨hio, _⟩ := Epoll.epoll_flush_io_loop_spec K op w1.next P fuel
    { status := Status.ok, events := [], is_registered := false,
      io_pending_top := ek_fifo_peek w.io.io_pending, kernel := k, calls := [] }
    hP1 (by omega) rfl (by simp) rfl
  have hXlen : X.length ≤ T.length := hX.length_le
  unfold Epoll.ek_io_flush
  simp only [hrun]
  split
  · split
    · split
      · exact ⟨by simp, fun _ => Or.inl ⟨rfl, rfl⟩⟩
      · split
        · exact ⟨by simp, fun h => absurd h (by simp)⟩
        · rename_i R k2 hw
          obtain ⟨hndR, hlenR⟩ := hK _ R k2 hw
          obtain ⟨d1, d2⟩ := ready_dispatch_spec cb hcb w1 (E ++ X) R fuel
            (update_inflight w1.io.io_inflight
              (Epoll.ek_io_flush_io K op w1.next fuel k (ek_fifo_peek w.io.io_pending)).events.length
              R.length) hE1 (nodup_ready_of_sublist hX hndR)
            (by rw [List.length_append]; omega)
          exact ⟨by rw [d1]; simp, fun _ => Or.inr d2⟩
    · exact ⟨by simp, fun _ => Or.inl ⟨rfl, rfl⟩⟩
  · exact ⟨hio, fun _ => Or.inl ⟨rfl, rfl⟩⟩

/-- The part of a kqueue cycle from the `kevent` call on: the ready
completions are pushed behind the members `L` of `completed` and everything
is dispatched in that order. -/
theorem kqueue_flush_wait_order {κ : Type} (K : Kqueue.Kernel κ) (cb : Nat → World → World)
    (hcb : ∀ c w, (cb c w).next = w.next ∧ (cb c w).io.completed = w.io.completed)
    (fuel : Nat) (k : κ) (w1 : World) (changes : List Kqueue.kevent) (ts : Kqueue.timespec)
    (L : List Nat) (hq : IsQueue w1.next w1.io.completed L)
    (hK : ∀ ch t R k2, K.wait k ch t = some (R, k2) →
      (L ++ R).Nodup ∧ R.length ≤ EK_EVENT_LIST_SIZE)
    (hfuel : L.length + EK_EVENT_LIST_SIZE ≤ fuel) :
    (Kqueue.flush_wait K cb fuel k w1 changes ts).status ≠ Status.out_of_fuel ∧
    ((Kqueue.flush_wait K cb fuel k w1 changes ts).status = Status.ok →
      (Kqueue.flush_wait K cb fuel k w1 changes ts).dispatched
        = L ++ (Kqueue.flush_wait K cb fuel k w1 changes ts).ready) := by
  unfold Kqueue.flush_wait
  split
  · exact ⟨by simp, fun h => absurd h (by simp)⟩
  · rename_i R k2 hw
    obtain ⟨hndR, hlenR⟩ := hK _ _ R k2 hw
    obtain ⟨d1, d2⟩ := ready_dispatch_spec cb hcb w1 L R fuel
      (update_inflight w1.io.io_inflight changes.length R.length) hq hndR (by omega)
    exact ⟨by simp [d1], fun _ => d2⟩

/-- One kqueue cycle on well-formed, disjoint queues, given what the timeout
step did; the statement of `epoll_flush_order` for the other backend. -/
theorem kqueue_flush_order {κ : Type} (K : Kqueue.Kernel κ) (op : Nat → ek_operation)
    (cb : Nat → World → World)
    (hcb : ∀ c w, (cb c w).next = w.next ∧ (cb c w).io.completed = w.io.completed)
    (fuel : Nat) (k : κ) (w : World) (wait_for_completions : Bool) (T E P : List Nat)
    (hP : IsQueue w.next w.io.io_pending P) (hnd : (T ++ E ++ P).Nodup)
    (hK : ∀ ch t R k2, K.wait k ch t = some (R, k2) →
      (T ++ E ++ R).Nodup ∧ R.length ≤ EK_EVENT_LIST_SIZE)
    (hfuel : T.length + E.length + P.length + EK_EVENT_LIST_SIZE ≤ fuel)
    (w1 : World) (nt : Nat) (X : List Nat)
    (hrun : ek_io_flush_timeouts op fuel w = some (w1, nt)) (hX : X.Sublist T)
    (hE1 : IsQueue w1.next w1.io.completed (E ++ X))
    (hfr : ∀ b, b ∉ T → b ∉ E → w1.next b = w.next b) :
    (Kqueue.ek_io_flush K op cb fuel k w wait_for_completions).status ≠ Status.out_of_fuel ∧
    ((Kqueue.ek_io_flush K op cb fuel k w wait_for_completions).status = Status.ok →
      ((Kqueue.ek_io_flush K op cb fuel k w wait_for_completions).dispatched = [] ∧
        (Kqueue.ek_io_flush K op cb fuel k w wait_for_completions).ready = []) ∨
      (Kqueue.ek_io_flush K op cb fuel k w wait_for_completions).dispatched
        = E ++ X ++ (Kqueue.ek_io_flush K op cb fuel k w wait_for_completions).ready) := by
  have hP1 := pending_path_after_timeouts hP hnd hfr
  obtain ⟨hio, _⟩ := Kqueue.kqueue_flush_io_loop_spec op w1.next P fuel
    { status := Status.ok, events := [], io_pending_top := ek_fifo_peek w.io.io_pending }
    hP1 (by omega) rfl
  have hXlen : X.length ≤ T.length := hX.length_le
  have hwait : ∀ ts,
      (Kqueue.flush_wait K cb fuel k w1
        (Kqueue.ek_io_flush_io op w1.next fuel (ek_fifo_peek w.io.io_pending)).events ts).status
        ≠ Status.out_of_fuel ∧
      ((Kqueue.flush_wait K cb fuel k w1
        (Kqueue.ek_io_flush_io op w1.next fuel (ek_fifo_peek w.io.io_pending)).events ts).status
        = Status.ok →
        ((Kqueue.flush_wait K cb fuel k w1
          (Kqueue.ek_io_flush_io op w1.next fuel (ek_fifo_peek w.io.io_pending)).events
          ts).dispatched = [] ∧
          (Kqueue.flush_wait K cb fuel k w1
            (Kqueue.ek_io_flush_io op w1.next fuel (ek_fifo_peek w.io.io_pending)).events
            ts).ready = []) ∨
        (Kqueue.flush_wait K cb fuel k w1
          (Kqueue.ek_io_flush_io op w1.next fuel (ek_fifo_peek w.io.io_pending)).events
          ts).dispatched
          = E ++ X ++ (Kqueue.flush_wait K cb fuel k w1
            (Kqueue.ek_io_flush_io op w1.next fuel (ek_fifo_peek w.io.io_pending)).events
            ts).ready) := by
    intro ts
    obtain ⟨a1, a2⟩ := kqueue_flush_wait_order K cb hcb fuel k w1
      (Kqueue.ek_io_flush_io op w1.next fuel (ek_fifo_peek w.io.io_pending)).events ts (E ++ X)
      hE1 (fun ch t R k2 hw =>
        ⟨nodup_ready_of_sublist hX (hK ch t R k2 hw).1, (hK ch t R k2 hw).2⟩)
      (by rw [List.length_append]; omega)
    exact ⟨a1, fun hok => Or.inr (a2 hok)⟩
  unfold Kqueue.ek_io_flush
  simp only [hrun]
  split
  · split
    · split
      · split
        · exact hwait _
        · split
          · exact ⟨by simp, fun _ => Or.inl ⟨rfl, rfl⟩⟩
          · exact hwait _
      · exact hwait _
    · exact ⟨by simp, fun _ => Or.inl ⟨rfl, rfl⟩⟩
  · rename_i hne
    exact absurd hio hne

/-- C16 (the code at two failing inputs): with the timers 10 and 11 both due
at entry and the read 1 reported by the wait, a cycle of either backend
dispatches 10 and then 1, leaves the due timer 11 in `timeouts`, and
dispatches 11 only in the next cycle, after the I/O event of the first one;
and with the reads 1 and 2 reported by the wait in this order and a callback
that submits completion 1 again, a cycle of either backend invokes the
callbacks for 1, 2 and 1 again, which is not the order of the report. -/
theorem flush_dispatches_due_timer_late :
    (IsQueue (world_with [10, 11] [] [1]).next (world_with [10, 11] [] [1]).io.timeouts
        [10, 11] ∧
      IsQueue (world_with [10, 11] [] [1]).next (world_with [10, 11] [] [1]).io.completed [] ∧
      IsQueue (world_with [10, 11] [] [1]).next (world_with [10, 11] [] [1]).io.io_pending [1] ∧
      due ops_timers_read 10 ∧ due ops_timers_read 11) ∧
    (epoll_two_timers_cycle1.status = Status.ok ∧
      epoll_two_timers_cycle1.ready = [1] ∧
      epoll_two_timers_cycle1.dispatched = [10, 1] ∧
      members epoll_two_timers_cycle1.w.next 8 epoll_two_timers_cycle1.w.io.timeouts.out = [11] ∧
      epoll_two_timers_cycle2.status = Status.ok ∧
      epoll_two_timers_cycle2.dispatched = [11]) ∧
    (kqueue_two_timers_cycle1.status = Status.ok ∧
      kqueue_two_timers_cycle1.ready = [1] ∧
      kqueue_two_timers_cycle1.dispatched = [10, 1] ∧
      members kqueue_two_timers_cycle1.w.next 8 kqueue_two_timers_cycle1.w.io.timeouts.out
        = [11] ∧
      kqueue_two_timers_cycle2.status = Status.ok ∧
      kqueue_two_timers_cycle2.dispatched = [11]) ∧
    (IsQueue (world_with [] [] [1, 2]).next (world_with [] [] [1, 2]).io.io_pending [1, 2] ∧
      kqueue_resubmit_cycle.status = Status.ok ∧
      kqueue_resubmit_cycle.ready = [1, 2] ∧
      kqueue_resubmit_cycle.dispatched = [1, 2, 1] ∧
      epoll_resubmit_cycle.status = Status.ok ∧
      epoll_resubmit_cycle.ready = [1, 2] ∧
      epoll_resubmit_cycle.dispatched = [1, 2, 1]) := by
  refine ⟨⟨?_, ?_, ?_, ?_, ?_⟩, ⟨?_, ?_, ?_, ?_, ?_, ?_⟩, ⟨?_, ?_, ?_, ?_, ?_, ?_⟩,
    ⟨?_, ?_, ?_, ?_, ?_, ?_, ?_⟩⟩ <;> decide

/-! ## When the wait is skipped -/

/-- The scan of `ek_io_flush_timeouts` on well-formed, disjoint `timeouts` and
`completed` queues either leaves the loop exactly as it was or leaves
`completed` non-empty. -/
theorem ek_io_flush_timeouts_loop_idle (op : Nat → ek_operation) (rfuel : Nat)
    (T E : List Nat) (w : World) (hT : IsQueue w.next w.io.timeouts T)
    (hE : IsQueue w.next w.io.completed E) (hdis : ∀ c ∈ T, c ∉ E) (hrf : T.length ≤ rfuel) :
    ∀ (l : List Nat) (fuel : Nat) (m : Nat) (p : Ptr),
      (∀ c ∈ l, c ∈ T) → path w.next p l none → l.length ≤ fuel →
      ∃ w1 m1, ek_io_flush_timeouts_loop op rfuel fuel w m p = some (w1, m1) ∧
        (w1 = w ∨ ek_fifo_empty w1.io.completed = false)
  | [], fuel, m, p, _, hp, _ => by
    have hp' : p = none := hp
    subst hp'
    refine ⟨w, m, ?_, Or.inl rfl⟩
    cases fuel <;> rfl
  | c :: l, fuel, m, p, hsub, hp, hfuel => by
    obtain ⟨n, rfl⟩ : ∃ n, fuel = n + 1 := ⟨fuel - 1, by simp at hfuel; omega⟩
    have hpc : p = some c := hp.1
    subst hpc
    have hcT : c ∈ T := hsub c (List.mem_cons_self _ _)
    by_cases hdue : timeouts_now ≥ (op c).expires
    · obtain ⟨h1, t1, hrem, _, _, hframe⟩ := ek_fifo_remove_spec hT c rfuel hrf
      have hcE : c ∉ E := hdis c hcT
      have hE1 : IsQueue h1 w.io.completed E :=
        hE.congr (fun a ha => hframe a (fun haT => hdis a haT ha))
      have hE2 := IsQueue.push hE1 hcE
      have hlink := ek_fifo_push_link hE1 c hcE
      refine ⟨{ next := (ek_fifo_push h1 w.io.completed c).1,
                io := { w.io with timeouts := t1,
                                  completed := (ek_fifo_push h1 w.io.completed c).2 } },
        m, ?_, Or.inr ?_⟩
      · simp only [ek_io_flush_timeouts_loop, hdue, if_true, hrem, hlink]
      · show ek_fifo_empty (ek_fifo_push h1 w.io.completed c).2 = false
        cases hem : ek_fifo_empty (ek_fifo_push h1 w.io.completed c).2 with
        | false => rfl
        | true =>
          have := hE2.empty_iff.mp hem
          simp at this
    · obtain ⟨w1, m1, hrun, hor⟩ :=
        ek_io_flush_timeouts_loop_idle op rfuel T E w hT hE hdis hrf l n
          (if (op c).expires - timeouts_now < m then (op c).expires - timeouts_now else m)
          (w.next c) (fun d hd => hsub d (List.mem_cons_of_mem _ hd)) hp.2
          (by simp at hfuel; omega)
      refine ⟨w1, m1, ?_, hor⟩
      simp only [ek_io_flush_timeouts_loop, hdue, if_false]
      exact hrun

/-- C21 (counterexample): with one completion waiting in `completed` and
nothing to submit, both backends return without calling the wait although
`completed` is not empty after the timeout and submission steps; on an idle
loop the epoll backend also returns without calling the wait when
`wait_for_completions` is true. -/
theorem flush_skips_wait_with_ready_completion :
    ((ek_io_flush_timeouts ops_two_reads 4 (world_with [] [1] [])).map
        (fun r => ek_fifo_empty r.1.io.completed) = some false ∧
      epoll_ready_cycle.status = Status.ok ∧ epoll_ready_cycle.calls = [] ∧
      epoll_ready_cycle.wait_timeout = none ∧
      kqueue_ready_cycle.status = Status.ok ∧ kqueue_ready_cycle.changes = [] ∧
      kqueue_ready_cycle.wait_timeout = none) ∧
    (epoll_idle_blocking_cycle.status = Status.ok ∧
      epoll_idle_blocking_cycle.wait_timeout = none) := by
  decide

/-- C21 (amended): given what the timeout step returned and that the
submission step returned, with `n` the submitted count.  Epoll returns without
calling the wait when `n = 0` and `completed` is not empty, and when `n = 0`,
`completed` is empty, `io_inflight` is 0 and `wait_for_completions` is false
(then the loop is as the timeout step left it and nothing is dispatched); it
calls the wait when `n > 0`, and when `n = 0`, `completed` is empty and
`io_inflight` is not 0.  Kqueue returns without calling the wait exactly when
`n = 0` and either `completed` is not empty or `io_inflight` is 0 and
`wait_for_completions` is false.  On well-formed disjoint queues a timeout
step that leaves `completed` empty has left the whole loop unchanged. -/
theorem flush_wait_skipped {κ κ' : Type} (K : Epoll.Kernel κ) (K' : Kqueue.Kernel κ')
    (op : Nat → ek_operation) (cb : Nat → World → World) (fuel : Nat) (k : κ) (k' : κ')
    (w : World) (wait_for_completions : Bool) (w1 : World) (nt : Nat)
    (ht : ek_io_flush_timeouts op fuel w = some (w1, nt))
    (hs : (Epoll.ek_io_flush_io K op w1.next fuel k (ek_fifo_peek w.io.io_pending)).status
      = Status.ok)
    (hs' : (Kqueue.ek_io_flush_io op w1.next fuel (ek_fifo_peek w.io.io_pending)).status
      = Status.ok) :
    (((Epoll.ek_io_flush_io K op w1.next fuel k (ek_fifo_peek w.io.io_pending)).events.length = 0 →
        ek_fifo_empty w1.io.completed = false →
        (Epoll.ek_io_flush K op cb fuel k w wait_for_completions).wait_timeout = none) ∧
      ((Epoll.ek_io_flush_io K op w1.next fuel k (ek_fifo_peek w.io.io_pending)).events.length = 0 →
        ek_fifo_empty w1.io.completed = true → w1.io.io_inflight = 0 →
        wait_for_completions = false →
        (Epoll.ek_io_flush K op cb fuel k w wait_for_completions).wait_timeout = none ∧
        (Epoll.ek_io_flush K op cb fuel k w wait_for_completions).status = Status.ok ∧
        (Epoll.ek_io_flush K op cb fuel k w wait_for_completions).w = w1 ∧
        (Epoll.ek_io_flush K op cb fuel k w wait_for_completions).dispatched = []) ∧
      (0 < (Epoll.ek_io_flush_io K op w1.next fuel k (ek_fifo_peek w.io.io_pending)).events.length →
        (Epoll.ek_io_flush K op cb fuel k w wait_for_completions).wait_timeout ≠ none) ∧
      ((Epoll.ek_io_flush_io K op w1.next fuel k (ek_fifo_peek w.io.io_pending)).events.length = 0 →
        ek_fifo_empty w1.io.completed = true → w1.io.io_inflight ≠ 0 →
        (Epoll.ek_io_flush K op cb fuel k w wait_for_completions).wait_timeout ≠ none)) ∧
    (((Kqueue.ek_io_flush K' op cb fuel k' w wait_for_completions).wait_timeout = none ↔
        (Kqueue.ek_io_flush_io op w1.next fuel (ek_fifo_peek w.io.io_pending)).events.length = 0 ∧
        (ek_fifo_empty w1.io.completed = false ∨
          (w1.io.io_inflight = 0 ∧ wait_for_completions = false))) ∧
      ((Kqueue.ek_io_flush_io op w1.next fuel (ek_fifo_peek w.io.io_pending)).events.length = 0 →
        ek_fifo_empty w1.io.completed = true → w1.io.io_inflight = 0 →
        wait_for_completions = false →
        (Kqueue.ek_io_flush K' op cb fuel k' w wait_for_completions).status = Status.ok ∧
        (Kqueue.ek_io_flush K' op cb fuel k' w wait_for_completions).w = w1 ∧
        (Kqueue.ek_io_flush K' op cb fuel k' w wait_for_completions).dispatched = [])) ∧
    (∀ T E, IsQueue w.next w.io.timeouts T → IsQueue w.next w.io.completed E →
      (∀ c ∈ T, c ∉ E) → T.length ≤ fuel → ek_fifo_empty w1.io.completed = true → w1 = w) := by
  refine ⟨⟨?_, ?_, ?_, ?_⟩, ⟨?_, ?_⟩, ?_⟩
  · intro hn hem
    unfold Epoll.ek_io_flush
    simp [ht, hs, hn, hem]
  · intro hn hem hin _
    unfold Epoll.ek_io_flush
    simp [ht, hs, hn, hem, hin]
  · intro hn
    have hn0 : (Epoll.ek_io_flush_io K op w1.next fuel k
        (ek_fifo_peek w.io.io_pending)).events.length ≠ 0 := by omega
    unfold Epoll.ek_io_flush
    simp only [ht, hs]
    simp only [gt_iff_lt, hn, decide_True, Bool.true_or, if_true, hn0, decide_False,
      Bool.false_and, Bool.false_eq_true, if_false]
    split <;> simp
  · intro hn hem hin
    unfold Epoll.ek_io_flush
    simp only [ht, hs]
    simp only [hn, hem, hin, gt_iff_lt, lt_self_iff_false, decide_False, Bool.false_or, if_true,
      decide_True, Bool.true_and, Bool.and_false, Bool.false_eq_true, if_false]
    split <;> simp
  · unfold Kqueue.ek_io_flush
    simp only [ht, hs']
    by_cases hn : (Kqueue.ek_io_flush_io op w1.next fuel
        (ek_fifo_peek w.io.io_pending)).events.length = 0
    · cases hem : ek_fifo_empty w1.io.completed
      · simp [hn]
      · cases wait_for_completions
        · by_cases hin : w1.io.io_inflight = 0
          · simp [hn, hin]
          · simp [hn, hin, Kqueue.flush_wait_deadline_eq]
        · simp [hn, Kqueue.flush_wait_deadline_eq]
    · have hpos : 0 < (Kqueue.ek_io_flush_io op w1.next fuel
          (ek_fifo_peek w.io.io_pending)).events.length := by omega
      simp [hn, hpos, Kqueue.flush_wait_deadline_eq]
  · intro hn hem hin hw
    unfold Kqueue.ek_io_flush
    simp [ht, hs', hn, hem, hin, hw]
  · intro T E hT hE hdis hlen hem
    obtain ⟨w1', m1, hrun, hor⟩ := ek_io_flush_timeouts_loop_idle op fuel T E w hT hE hdis hlen
      T fuel UINT64_MAX (ek_fifo_peek w.io.timeouts) (fun _ hc => hc) hT.1 hlen
    have hrun' : ek_io_flush_timeouts op fuel w = some (w1', m1) := hrun
    rw [ht] at hrun'
    have hw : w1 = w1' := congrArg Prod.fst (Option.some.inj hrun')
    subst hw
    rcases hor with h | h
    · exact h
    · rw [h] at hem
      exact absurd hem (by simp)

/-- `ek_io_tick` on an idle fresh loop returns without the wait and leaves the
loop as it was, in both backends; epoll skips the wait with a completion in
`completed` and nothing to submit, and calls it with a read to submit or with
a registration in flight. -/
theorem flush_wait_skipped_witness :
    (ek_io_flush_timeouts ops_two_reads 4 world_init = some (world_init, UINT64_MAX) ∧
      (Epoll.ek_io_tick set_kernel ops_two_reads cb_skip 4 ⟨[], []⟩ world_init).wait_timeout
        = none ∧
      (Epoll.ek_io_tick set_kernel ops_two_reads cb_skip 4 ⟨[], []⟩ world_init).w = world_init ∧
      (Kqueue.ek_io_tick report_kernel ops_two_reads cb_skip 4 [] world_init).wait_timeout
        = none ∧
      (Kqueue.ek_io_tick report_kernel ops_two_reads cb_skip 4 [] world_init).w = world_init) ∧
    (Epoll.ek_io_flush set_kernel ops_two_reads cb_skip 4 ⟨[], []⟩ (world_with [] [1] [])
      true).wait_timeout = none ∧
    (Epoll.ek_io_flush set_kernel ops_two_reads cb_skip 4 ⟨[], []⟩ (world_with [] [] [1])
      false).wait_timeout ≠ none ∧
    (Epoll.ek_io_flush set_kernel ops_two_reads cb_skip 4 ⟨[], []⟩ world_one_inflight
      false).wait_timeout ≠ none ∧
    (ek_io_flush_timeouts ops_two_pending 4 (world_with [10] [] [])
        = some (world_with [10] [] [], 7) ∧
      world_with [10] [] [] = world_with [10] [] []) := by
  have htA : ek_io_flush_timeouts ops_two_reads 4 world_init = some (world_init, UINT64_MAX) :=
    ek_io_flush_timeouts_loop_none_due ops_two_reads 4 [] 4 world_init UINT64_MAX _
      (by decide) (by decide) (by decide)
  have htB : ek_io_flush_timeouts ops_two_reads 4 (world_with [] [1] [])
      = some (world_with [] [1] [], UINT64_MAX) :=
    ek_io_flush_timeouts_loop_none_due ops_two_reads 4 [] 4 (world_with [] [1] []) UINT64_MAX _
      (by decide) (by decide) (by decide)
  have htC : ek_io_flush_timeouts ops_two_reads 4 (world_with [] [] [1])
      = some (world_with [] [] [1], UINT64_MAX) :=
    ek_io_flush_timeouts_loop_none_due ops_two_reads 4 [] 4 (world_with [] [] [1]) UINT64_MAX _
      (by decide) (by decide) (by decide)
  have htD : ek_io_flush_timeouts ops_two_reads 4 world_one_inflight
      = some (world_one_inflight, UINT64_MAX) :=
    ek_io_flush_timeouts_loop_none_due ops_two_reads 4 [] 4 world_one_inflight UINT64_MAX _
      (by decide) (by decide) (by decide)
  have htE : ek_io_flush_timeouts ops_two_pending 4 (world_with [10] [] [])
      = some (world_with [10] [] [], 7) :=
    ek_io_flush_timeouts_loop_none_due ops_two_pending 4 [10] 4 (world_with [10] [] [])
      UINT64_MAX _ (by decide) (by decide) (by decide)
  have hA := flush_wait_skipped set_kernel report_kernel ops_two_reads cb_skip 4 ⟨[], []⟩ []
    world_init false world_init UINT64_MAX htA (by decide) (by decide)
  have hB := flush_wait_skipped set_kernel report_kernel ops_two_reads cb_skip 4 ⟨[], []⟩ []
    (world_with [] [1] []) true (world_with [] [1] []) UINT64_MAX htB (by decide) (by decide)
  have hC := flush_wait_skipped set_kernel report_kernel ops_two_reads cb_skip 4 ⟨[], []⟩ []
    (world_with [] [] [1]) false (world_with [] [] [1]) UINT64_MAX htC (by decide) (by decide)
  have hD := flush_wait_skipped set_kernel report_kernel ops_two_reads cb_skip 4 ⟨[], []⟩ []
    world_one_inflight false world_one_inflight UINT64_MAX htD (by decide) (by decide)
  have hE := flush_wait_skipped set_kernel report_kernel ops_two_pending cb_skip 4 ⟨[], []⟩ []
    (world_with [10] [] []) true (world_with [10] [] []) 7 htE (by decide) (by decide)
  have hA1 := hA.1.2.1 (by decide) (by decide) (by decide) rfl
  have hA2 := hA.2.1.2 (by decide) (by decide) (by decide) rfl
  exact ⟨⟨htA, hA1.1, hA1.2.2.1,
      hA.2.1.1.mpr ⟨by decide, Or.inr ⟨by decide, rfl⟩⟩, hA2.2.1⟩,
    hB.1.1 (by decide) (by decide),
    hC.1.2.2.1 (by decide),
    hD.1.2.2.2 (by decide) (by decide) (by decide),
    htE, hE.2.2 [10] [] (by decide) (by decide) (by decide) (by decide) (by decide)⟩

end EkIo
